import Mathlib

/-!
# ZiVPN paid bot: wallet ledger and purchase settlement

A shallow embedding of `zivpn-paid-bot.go`, and of the renewal handler of `zivpn-api.go`.

Modelling conventions.

* Go `int` / `int64` values are integers (`Int`) of which the 64-bit range is `inInt64`.
  The arithmetic of the ledger and of the handlers (the credit, the debit, the created-account
  counter, `days * DailyPrice`) and the `time.Duration` of `renewUser` wrap around at 64 bits
  (`addInt64`, `subInt64`, `mulInt64`, `wrapInt64`).  An integer outside the range, which no Go
  variable holds, is left to exact arithmetic.  `Atoi` is the syntax of `strconv.Atoi`; its
  range error is not part of the model.
* The wallet file and the metrics file are explicit state (`Disk`).  A read can fail, a file
  can be absent, a write can fail; a failed write leaves the previous content in place.  A
  metrics file that `json.Unmarshal` rejects carries the entries decoded before the error.
* `userStates` and `tempUserData` are association lists with at most one entry per key.
* The provisioning API, the payment gateway and the clock are oracles (`World`); every call
  that reaches the provisioning API or creates a gateway transaction is appended to a trace
  kept in the bot state, and every chat message that is sent is appended to an outbox.
* A Go run-time panic (writing through a missing inner map) is the result `none`.
* Chat messages are kept by template and numeric arguments; the bookkeeping of the last
  message id of a chat (`lastMessageIDs`) and the keyboards are left out.
* The clock does not advance within one handler run or one tick.
* A `time.Time` is its Unix second together with the offset from UTC that its location has
  at that instant; `time.Date` in the location of `now` uses the offset of `now`, so a change
  of offset between the start of the month and the query time is not part of the model.
  `time.Parse` is a parameter of `computeMetrics`, like the other library calls.
-/

namespace ZiVPN

/-! ## Data model -/

/-- One record of `wallets.json` (`type WalletEntry struct`). -/
structure WalletEntry where
  TelegramID : Int
  Balance : Int
  TrialUsed : Bool
  PendingPassword : String
  PendingDays : Int
  CreatedCount : Int
  Banned : Bool
  deriving DecidableEq, Repr

/-- One record of `metrics.json` (`type MetricsEntry struct`). -/
structure MetricsEntry where
  Timestamp : String
  Owner : Int
  deriving DecidableEq, Repr

/-- What `ioutil.ReadFile(WalletFile)` followed by `json.Unmarshal` can meet. -/
inductive WalletFile where
  | absent
  | unreadable
  | content (ws : List WalletEntry)
  deriving DecidableEq, Repr

/-- What `ioutil.ReadFile(MetricsFile)` followed by `json.Unmarshal` can meet: no file, a read
error, a file that `json.Unmarshal` rejects, with the entries `decoded` that it leaves in the
slice (none for a syntax error, which is found before anything is stored), or a sequence of
entries. -/
inductive MetricsFile where
  | absent
  | unreadable
  | malformed (decoded : List MetricsEntry)
  | content (es : List MetricsEntry)
  deriving DecidableEq, Repr

/-- The two persisted files together with whether a write to each succeeds. -/
structure Disk where
  walletFile : WalletFile
  walletWritable : Bool
  metricsFile : MetricsFile
  metricsWritable : Bool
  deriving DecidableEq, Repr

/-- Result of a ledger operation: the disk afterwards and whether a non-nil error came back. -/
structure IOResult where
  disk : Disk
  failed : Bool
  deriving DecidableEq, Repr

/-! ## Go integers -/

/-- The values of Go's 64-bit `int` and `int64`. -/
def inInt64 (x : Int) : Prop := -9223372036854775808 ≤ x ∧ x ≤ 9223372036854775807

instance (x : Int) : Decidable (inInt64 x) := by unfold inInt64; infer_instance

/-- Conversion to `int64`: the value modulo `2^64` in the signed range. -/
def wrapInt64 (x : Int) : Int := (x + 9223372036854775808) % 18446744073709551616 - 9223372036854775808

/-- Go `a + b` on `int`: the sum wraps around at 64 bits. Integers outside the range, which no
Go variable holds, are left to exact arithmetic. -/
def addInt64 (a b : Int) : Int := if inInt64 a ∧ inInt64 b then wrapInt64 (a + b) else a + b

/-- Go `a - b` on `int`, wrapping around like `addInt64`. -/
def subInt64 (a b : Int) : Int := if inInt64 a ∧ inInt64 b then wrapInt64 (a - b) else a - b

/-- Go `a * b` on `int`, wrapping around like `addInt64`. -/
def mulInt64 (a b : Int) : Int := if inInt64 a ∧ inInt64 b then wrapInt64 (a * b) else a * b

/-! ## Wallet helpers -/

/-- Go `loadWallets`: a missing file is the empty collection, any other failure is an error
(`none`). -/
def loadWallets (d : Disk) : Option (List WalletEntry) :=
  match d.walletFile with
  | .absent => some []
  | .unreadable => none
  | .content ws => some ws

/-- Go `saveWallets`: replaces the whole file, or fails and leaves it as it was. -/
def saveWallets (d : Disk) (wallets : List WalletEntry) : IOResult :=
  if d.walletWritable then
    { disk := { d with walletFile := .content wallets }, failed := false }
  else
    { disk := d, failed := true }

/-- Go `getWalletIndex`: position of the first record with the given id (`none` for `-1`). -/
def getWalletIndex : List WalletEntry → Int → Option Nat
  | [], _ => none
  | w :: ws, telegramID =>
    if w.TelegramID = telegramID then some 0
    else (getWalletIndex ws telegramID).map (· + 1)

/-- In-place update `wallets[idx] = f(wallets[idx])`. -/
def updateAt : List WalletEntry → Nat → (WalletEntry → WalletEntry) → List WalletEntry
  | [], _, _ => []
  | w :: ws, 0, f => f w :: ws
  | w :: ws, i + 1, f => w :: updateAt ws i f

/-- Read `wallets[idx]`. -/
def entryAt : List WalletEntry → Nat → Option WalletEntry
  | [], _ => none
  | w :: _, 0 => some w
  | _ :: ws, i + 1 => entryAt ws i

/-- The composite literal `WalletEntry{TelegramID: id}` with every other field zero. -/
def zeroEntry (telegramID : Int) : WalletEntry :=
  { TelegramID := telegramID, Balance := 0, TrialUsed := false, PendingPassword := "",
    PendingDays := 0, CreatedCount := 0, Banned := false }

/-- Go `getBalance`. -/
def getBalance (d : Disk) (telegramID : Int) : Int :=
  match loadWallets d with
  | none => 0
  | some wallets =>
    match getWalletIndex wallets telegramID with
    | none => 0
    | some idx =>
      match entryAt wallets idx with
      | none => 0
      | some w => w.Balance

/-- Go `addBalance`. -/
def addBalance (d : Disk) (telegramID : Int) (amount : Int) : IOResult :=
  match loadWallets d with
  | none => { disk := d, failed := true }
  | some wallets =>
    match getWalletIndex wallets telegramID with
    | none => saveWallets d (wallets ++ [{ zeroEntry telegramID with Balance := amount }])
    | some idx =>
      saveWallets d (updateAt wallets idx fun w => { w with Balance := addInt64 w.Balance amount })

/-- Go `deductBalance`. -/
def deductBalance (d : Disk) (telegramID : Int) (amount : Int) : IOResult :=
  match loadWallets d with
  | none => { disk := d, failed := true }
  | some wallets =>
    match getWalletIndex wallets telegramID with
    | none => { disk := d, failed := false }
    | some idx =>
      saveWallets d (updateAt wallets idx fun w =>
        let w1 := { w with Balance := subInt64 w.Balance amount }
        if w1.Balance < 0 then { w1 with Balance := 0 } else w1)

/-- Go `hasUsedTrial`. -/
def hasUsedTrial (d : Disk) (telegramID : Int) : Bool :=
  match loadWallets d with
  | none => false
  | some wallets =>
    match getWalletIndex wallets telegramID with
    | none => false
    | some idx =>
      match entryAt wallets idx with
      | none => false
      | some w => w.TrialUsed

/-- Go `markTrialUsed`. -/
def markTrialUsed (d : Disk) (telegramID : Int) : IOResult :=
  match loadWallets d with
  | none => { disk := d, failed := true }
  | some wallets =>
    match getWalletIndex wallets telegramID with
    | none => saveWallets d (wallets ++ [{ zeroEntry telegramID with TrialUsed := true }])
    | some idx => saveWallets d (updateAt wallets idx fun w => { w with TrialUsed := true })

/-- Go `setPendingPurchase`. -/
def setPendingPurchase (d : Disk) (telegramID : Int) (password : String) (days : Int) :
    IOResult :=
  match loadWallets d with
  | none => { disk := d, failed := true }
  | some wallets =>
    match getWalletIndex wallets telegramID with
    | none =>
      saveWallets d
        (wallets ++ [{ zeroEntry telegramID with PendingPassword := password, PendingDays := days }])
    | some idx =>
      saveWallets d
        (updateAt wallets idx fun w => { w with PendingPassword := password, PendingDays := days })

/-- Go `clearPendingPurchase`. -/
def clearPendingPurchase (d : Disk) (telegramID : Int) : IOResult :=
  match loadWallets d with
  | none => { disk := d, failed := true }
  | some wallets =>
    match getWalletIndex wallets telegramID with
    | none => { disk := d, failed := false }
    | some idx =>
      saveWallets d (updateAt wallets idx fun w => { w with PendingPassword := "", PendingDays := 0 })

/-- Go `incrementCreatedCount`. -/
def incrementCreatedCount (d : Disk) (telegramID : Int) : IOResult :=
  match loadWallets d with
  | none => { disk := d, failed := true }
  | some wallets =>
    match getWalletIndex wallets telegramID with
    | none => saveWallets d (wallets ++ [{ zeroEntry telegramID with CreatedCount := 1 }])
    | some idx =>
      saveWallets d
        (updateAt wallets idx fun w => { w with CreatedCount := addInt64 w.CreatedCount 1 })

/-- Go `appendMetric`: a file that cannot be read counts as the empty sequence, and the error
of `json.Unmarshal` is dropped, so the entries it decoded are kept; `stamp` is
`time.Now().Format(time.RFC3339)`. -/
def appendMetric (d : Disk) (owner : Int) (stamp : String) : IOResult :=
  let entries := match d.metricsFile with
    | .content es => es
    | .malformed es => es
    | _ => []
  if d.metricsWritable then
    { disk := { d with metricsFile := .content (entries ++ [{ Timestamp := stamp, Owner := owner }]) },
      failed := false }
  else
    { disk := d, failed := true }

/-! ## Strings and numbers -/

/-- Value of an ASCII decimal digit. -/
def digitVal (c : Char) : Option Nat :=
  if 48 ≤ c.toNat ∧ c.toNat ≤ 57 then some (c.toNat - 48) else none

/-- Digits read left to right on top of an accumulator; `none` on a non-digit. -/
def parseDigits : List Char → Nat → Option Nat
  | [], acc => some acc
  | c :: cs, acc =>
    match digitVal c with
    | none => none
    | some v => parseDigits cs (acc * 10 + v)

/-- Go `strconv.Atoi` (and `strconv.ParseInt(s, 10, 64)`): an optional sign followed by at
least one decimal digit; `none` is the syntax error. -/
def Atoi (s : String) : Option Int :=
  match s.data with
  | [] => none
  | '-' :: ds => if ds = [] then none else (parseDigits ds 0).map fun n => -(n : Int)
  | '+' :: ds => if ds = [] then none else (parseDigits ds 0).map fun n => (n : Int)
  | ds => (parseDigits ds 0).map fun n => (n : Int)

/-- The character of a decimal digit. -/
def digitChar (d : Nat) : Char := Char.ofNat (48 + d)

/-- Decimal digits of `n` pushed in front of `acc`, the fuel bounding the number of digits. -/
def decDigits : Nat → Nat → List Char → List Char
  | 0, _, acc => acc
  | fuel + 1, n, acc =>
    if n / 10 = 0 then digitChar (n % 10) :: acc
    else decDigits fuel (n / 10) (digitChar (n % 10) :: acc)

/-- Decimal numeral of a natural number, most significant digit first. -/
def natToDec (n : Nat) : List Char := decDigits (n + 1) n []

/-- Go `strconv.Itoa`, `strconv.FormatInt(x, 10)` and the verb `%d`. -/
def Itoa (x : Int) : String :=
  if x < 0 then String.mk ('-' :: natToDec x.natAbs) else String.mk (natToDec x.natAbs)

/-- Go `unicode.IsSpace`. -/
def isSpace (c : Char) : Bool :=
  let n := c.toNat
  (9 ≤ n ∧ n ≤ 13) ∨ n = 32 ∨ n = 0x85 ∨ n = 0xA0 ∨ n = 0x1680 ∨ (0x2000 ≤ n ∧ n ≤ 0x200A) ∨
    n = 0x2028 ∨ n = 0x2029 ∨ n = 0x202F ∨ n = 0x205F ∨ n = 0x3000

/-- Go `strings.TrimSpace`. -/
def TrimSpace (s : String) : String :=
  String.mk (((s.data.dropWhile isSpace).reverse.dropWhile isSpace).reverse)

/-- Worker of `Fields`: `cur` is the field being read, in reverse. -/
def fieldsAux : List Char → List Char → List String
  | [], cur => if cur = [] then [] else [String.mk cur.reverse]
  | c :: cs, cur =>
    if isSpace c then
      (if cur = [] then fieldsAux cs [] else String.mk cur.reverse :: fieldsAux cs [])
    else fieldsAux cs (c :: cur)

/-- Go `strings.Fields`. -/
def Fields (s : String) : List String := fieldsAux s.data []

/-- The regular expression `^[a-zA-Z0-9_-]+$` of `validatePassword`. -/
def matchesPasswordPattern (text : String) : Bool :=
  !text.data.isEmpty &&
    text.data.all fun c =>
      let n := c.toNat
      decide ((97 ≤ n ∧ n ≤ 122) ∨ (65 ≤ n ∧ n ≤ 90) ∨ (48 ≤ n ∧ n ≤ 57) ∨ n = 95 ∨ n = 45)

/-! ## Maps -/

/-- Map lookup `m[k]` with the comma-ok result. -/
def mapGet {κ ν : Type} [DecidableEq κ] : List (κ × ν) → κ → Option ν
  | [], _ => none
  | (k, v) :: m, key => if k = key then some v else mapGet m key

/-- Map assignment `m[k] = v`. -/
def mapSet {κ ν : Type} [DecidableEq κ] : List (κ × ν) → κ → ν → List (κ × ν)
  | [], key, val => [(key, val)]
  | (k, v) :: m, key, val => if k = key then (k, val) :: m else (k, v) :: mapSet m key val

/-- Map removal `delete(m, k)`. -/
def mapDelete {κ ν : Type} [DecidableEq κ] (m : List (κ × ν)) (key : κ) : List (κ × ν) :=
  m.filter fun kv => decide (kv.1 ≠ key)

/-- Go `m[k]` on a `map[string]string`: the empty string when the key is missing. -/
def strGet (m : List (String × String)) (key : String) : String :=
  (mapGet m key).getD ""

/-! ## Bot state and collaborators -/

/-- The fields of `BotConfig` that the ledger and the handlers read. -/
structure BotConfig where
  AdminID : Int
  DailyPrice : Int
  deriving DecidableEq, Repr

/-- A request sent to the provisioning API by `apiCall("POST", endpoint, ...)`. -/
structure ApiCall where
  endpoint : String
  password : String
  days : Int
  deriving DecidableEq, Repr

/-- What `apiCall` hands back: a transport error, `success == true` with the `data` object
the handlers read (`password`, `expired`), or a refusal with its message. -/
inductive ApiResult where
  | error
  | success (password expired : String)
  | refused (message : String)
  deriving DecidableEq, Repr

/-- A transaction requested from the payment gateway by `createPakasirTransaction`. -/
structure GatewayTx where
  orderID : String
  amount : Int
  deriving DecidableEq, Repr

/-- Go `PakasirPayment`. -/
structure PakasirPayment where
  PaymentNumber : String
  ExpiredAt : String
  deriving DecidableEq, Repr

/-- The chat messages of the handlers, by template. -/
inductive Msg where
  | passwordLength
  | passwordChars
  | askDays (price : Int)
  | numberInvalid (min max : Int)
  | insufficientForCreate (balance required days : Int)
  | balanceError
  | apiError
  | createFailed (message : String)
  | accountInfo (password expired : String)
  | mainMenu
  | trialUsed
  | trialFailed (message : String)
  | askRenewDays
  | renewInsufficient (required : Int)
  | renewDone (password expired : String) (balance : Int)
  | renewFailed (message : String)
  | topupInvalid
  | topupTxFailed
  | topupQR (amount : Int) (paymentNumber expiredAt : String)
  | topupDone (amount current : Int)
  | autoPurchaseDone (balance : Int)
  | paidButShort
  | adminOnly
  | adminFormat
  | adminInvalid
  | adminAdded (amount telegramID : Int)
  | adminAddFailed
  | adminRemoved (amount telegramID : Int)
  | adminRemoveFailed
  | adminBanned (telegramID : Int)
  | adminUnbanned (telegramID : Int)
  | adminUnbanMissing
  | adminIDInvalid
  | askPassword
  | askTrialPassword
  | askRenewPassword
  | askTopup
  deriving DecidableEq, Repr

/-- The collaborators of one handler run or one tick. `api` answers a provisioning request
given the requests made so far; `checkStatus orderID price` is `checkPakasirStatus`
(`none` for an error); `createTransaction` is `createPakasirTransaction` (`none` for an
error); `nowUnix` and `nowStamp` are `time.Now()` as Unix seconds and in RFC 3339. -/
structure World where
  api : List ApiCall → ApiCall → ApiResult
  createTransaction : String → Int → Option PakasirPayment
  checkStatus : String → String → Option String
  nowUnix : Int
  nowStamp : String

/-- The process state: the global maps, the two files, and the traces of outgoing calls. -/
structure Bot where
  userStates : List (Int × String)
  tempUserData : List (Int × List (String × String))
  disk : Disk
  apiLog : List ApiCall
  gatewayLog : List GatewayTx
  outbox : List (Int × Msg)
  deriving DecidableEq, Repr

/-- An incoming chat message: `msg.From.ID`, `msg.Chat.ID`, `msg.Text`. -/
structure Message where
  fromID : Int
  chatID : Int
  text : String
  deriving DecidableEq, Repr

/-- Go `sendMessage` (also `bot.Send`): the message leaves for the chat. -/
def sendMessage (s : Bot) (chatID : Int) (m : Msg) : Bot :=
  { s with outbox := s.outbox ++ [(chatID, m)] }

/-- Go `replyError`. -/
def replyError (s : Bot) (chatID : Int) (m : Msg) : Bot := sendMessage s chatID m

/-- Go `resetState`: only the conversation state is dropped, `tempUserData` stays. -/
def resetState (s : Bot) (userID : Int) : Bot :=
  { s with userStates := mapDelete s.userStates userID }

/-- Go `showMainMenu`: reads the wallet and the metrics, sends the menu. -/
def showMainMenu (s : Bot) (chatID : Int) : Bot := sendMessage s chatID .mainMenu

/-- Go `sendAccountInfo`. -/
def sendAccountInfo (s : Bot) (chatID : Int) (password expired : String) : Bot :=
  showMainMenu (sendMessage s chatID (.accountInfo password expired)) chatID

/-- Go `cancelOperation`. -/
def cancelOperation (s : Bot) (chatID userID : Int) : Bot :=
  showMainMenu (resetState s userID) chatID

/-- Go `apiCall` for the two provisioning requests: the request is recorded and answered. -/
def apiCall (w : World) (s : Bot) (c : ApiCall) : Bot × ApiResult :=
  ({ s with apiLog := s.apiLog ++ [c] }, w.api s.apiLog c)

/-- Assignment `tempUserData[userID][key] = val`; `none` is the panic on a nil inner map. -/
def setTemp (s : Bot) (userID : Int) (key val : String) : Option Bot :=
  match mapGet s.tempUserData userID with
  | none => none
  | some data => some { s with tempUserData := mapSet s.tempUserData userID (mapSet data key val) }

/-- Read `tempUserData[userID][key]`. -/
def getTemp (s : Bot) (userID : Int) (key : String) : String :=
  strGet ((mapGet s.tempUserData userID).getD []) key

/-- The statements `tempUserData[userID] = make(map[string]string)` and
`tempUserData[userID]["chat_id"] = strconv.FormatInt(chatID, 10)` shared by the flow starters. -/
def freshTemp (s : Bot) (chatID userID : Int) : Bot :=
  { s with tempUserData := mapSet s.tempUserData userID [("chat_id", Itoa chatID)] }

/-- Go `startCreateUser`. -/
def startCreateUser (s : Bot) (chatID userID : Int) : Bot :=
  sendMessage (freshTemp { s with userStates := mapSet s.userStates userID "create_password" }
    chatID userID) chatID .askPassword

/-- Go `startTrial`. -/
def startTrial (s : Bot) (chatID userID : Int) : Bot :=
  sendMessage (freshTemp { s with userStates := mapSet s.userStates userID "trial_password" }
    chatID userID) chatID .askTrialPassword

/-- Go `startRenew`. -/
def startRenew (s : Bot) (chatID userID : Int) : Bot :=
  sendMessage (freshTemp { s with userStates := mapSet s.userStates userID "renew_password" }
    chatID userID) chatID .askRenewPassword

/-- Go `startTopup`. -/
def startTopup (s : Bot) (chatID userID : Int) : Bot :=
  sendMessage (freshTemp { s with userStates := mapSet s.userStates userID "topup_amount" }
    chatID userID) chatID .askTopup

/-- Go `validatePassword`: the verdict and the state after the error message, if any. -/
def validatePassword (s : Bot) (chatID : Int) (text : String) : Bot × Bool :=
  if text.utf8ByteSize < 3 ∨ text.utf8ByteSize > 20 then (sendMessage s chatID .passwordLength, false)
  else if !matchesPasswordPattern text then (sendMessage s chatID .passwordChars, false)
  else (s, true)

/-- Go `validateNumber`: the value with `ok`, or the state after the error message. -/
def validateNumber (s : Bot) (chatID : Int) (text : String) (min max : Int) : Bot × Option Int :=
  match Atoi text with
  | none => (sendMessage s chatID (.numberInvalid min max), none)
  | some val =>
    if val < min ∨ val > max then (sendMessage s chatID (.numberInvalid min max), none)
    else (s, some val)

/-- Go `createUser`: one provisioning request; on success the created-account counter and
the metrics log are updated. -/
def createUser (_cfg : BotConfig) (w : World) (s : Bot) (chatID ownerID : Int)
    (password : String) (days : Int) : Bot :=
  match apiCall w s { endpoint := "/user/create", password := password, days := days } with
  | (s1, .error) => replyError s1 chatID .apiError
  | (s1, .success pw expired) =>
    let s2 := { s1 with disk := (incrementCreatedCount s1.disk ownerID).disk }
    let s3 := { s2 with disk := (appendMetric s2.disk ownerID w.nowStamp).disk }
    sendAccountInfo s3 chatID pw expired
  | (s1, .refused m) => replyError s1 chatID (.createFailed m)

/-! ## Conversation handlers (`handleState`) -/

/-- Case `"create_password"` of `handleState`. -/
def handleCreatePassword (cfg : BotConfig) (s : Bot) (userID chatID : Int) (text : String) :
    Option Bot :=
  match validatePassword s chatID text with
  | (s1, false) => some s1
  | (s1, true) =>
    match setTemp s1 userID "password" text with
    | none => none
    | some s2 =>
      some (sendMessage { s2 with userStates := mapSet s2.userStates userID "create_days" }
        chatID (.askDays cfg.DailyPrice))

/-- Case `"create_days"` of `handleState`: the purchase. -/
def handleCreateDays (cfg : BotConfig) (w : World) (s : Bot) (userID chatID : Int)
    (text : String) : Option Bot :=
  match validateNumber s chatID text 1 365 with
  | (s1, none) => some s1
  | (s1, some days) =>
    match setTemp s1 userID "days" text with
    | none => none
    | some s2 =>
      let required := mulInt64 days cfg.DailyPrice
      let balance := getBalance s2.disk userID
      if balance < required then
        let s3 := sendMessage s2 chatID (.insufficientForCreate balance required days)
        let s4 := { s3 with
          disk := (setPendingPurchase s3.disk userID (getTemp s3 userID "password") days).disk }
        some (resetState s4 userID)
      else
        let r := deductBalance s2.disk userID required
        if r.failed then
          some (resetState (replyError { s2 with disk := r.disk } chatID .balanceError) userID)
        else
          let s3 := { s2 with disk := r.disk }
          let password := getTemp s3 userID "password"
          let s4 := createUser cfg w s3 chatID userID password days
          some { s4 with
            tempUserData := mapDelete s4.tempUserData userID
            userStates := mapDelete s4.userStates userID }

/-- Case `"trial_password"` of `handleState`. -/
def handleTrialPassword (cfg : BotConfig) (w : World) (s : Bot) (userID chatID : Int)
    (text : String) : Bot :=
  match validatePassword s chatID text with
  | (s1, false) => s1
  | (s1, true) =>
    if userID ≠ cfg.AdminID ∧ getBalance s1.disk userID = 0 ∧ hasUsedTrial s1.disk userID = true then
      resetState (sendMessage s1 chatID .trialUsed) userID
    else
      match apiCall w s1 { endpoint := "/user/create", password := text, days := 1 } with
      | (s2, .error) => resetState (replyError s2 chatID .apiError) userID
      | (s2, .success pw expired) =>
        let s3 :=
          if getBalance s2.disk userID = 0 then
            { s2 with disk := (markTrialUsed s2.disk userID).disk }
          else s2
        sendAccountInfo (resetState s3 userID) chatID pw expired
      | (s2, .refused m) => replyError (resetState s2 userID) chatID (.trialFailed m)

/-- Case `"renew_password"` of `handleState`. -/
def handleRenewPassword (s : Bot) (userID chatID : Int) (text : String) : Bot :=
  let s1 := { s with
    tempUserData := mapSet s.tempUserData userID [("password", text), ("chat_id", Itoa chatID)] }
  sendMessage { s1 with userStates := mapSet s1.userStates userID "renew_days" } chatID .askRenewDays

/-- Case `"renew_days"` of `handleState`. -/
def handleRenewDays (cfg : BotConfig) (w : World) (s : Bot) (userID chatID : Int)
    (text : String) : Bot :=
  match validateNumber s chatID text 1 3650 with
  | (s1, none) => s1
  | (s1, some days) =>
    let pwd := getTemp s1 userID "password"
    let required := mulInt64 days cfg.DailyPrice
    if getBalance s1.disk userID < required then
      resetState (sendMessage s1 chatID (.renewInsufficient required)) userID
    else
      let r := deductBalance s1.disk userID required
      if r.failed then
        resetState (replyError { s1 with disk := r.disk } chatID .balanceError) userID
      else
        match apiCall w { s1 with disk := r.disk }
            { endpoint := "/user/renew", password := pwd, days := days } with
        | (s2, .error) => replyError (resetState s2 userID) chatID .apiError
        | (s2, .success pw expired) =>
          let s3 := resetState s2 userID
          showMainMenu (sendMessage s3 chatID (.renewDone pw expired (getBalance s3.disk userID)))
            chatID
        | (s2, .refused m) => replyError (resetState s2 userID) chatID (.renewFailed m)

/-- Case `"topup_amount"` of `handleState`: opens a payment session. -/
def handleTopupAmount (w : World) (s : Bot) (userID chatID : Int) (text : String) :
    Option Bot :=
  match Atoi text with
  | none => some (sendMessage s chatID .topupInvalid)
  | some amt =>
    if amt < 5000 then some (sendMessage s chatID .topupInvalid)
    else
      let orderID := "ZIVPN-TOPUP-" ++ Itoa userID ++ "-" ++ Itoa w.nowUnix
      let s1 := { s with gatewayLog := s.gatewayLog ++ [{ orderID := orderID, amount := amt }] }
      match w.createTransaction orderID amt with
      | none => some (resetState (replyError s1 chatID .topupTxFailed) userID)
      | some payment =>
        match setTemp s1 userID "order_id" orderID with
        | none => none
        | some s2 =>
          match setTemp s2 userID "price" (Itoa amt) with
          | none => none
          | some s3 =>
            match setTemp s3 userID "action" "topup" with
            | none => none
            | some s4 =>
              let s5 := sendMessage s4 chatID (.topupQR amt payment.PaymentNumber payment.ExpiredAt)
              some { s5 with userStates := mapDelete s5.userStates userID }

/-- Case `"admin_add_balance_input"` of `handleState`. -/
def handleAdminAddBalance (cfg : BotConfig) (s : Bot) (userID chatID : Int) (text : String) :
    Bot :=
  if userID ≠ cfg.AdminID then resetState (replyError s chatID .adminOnly) userID
  else
    match Fields text with
    | [p0, p1] =>
      match Atoi p0, Atoi p1 with
      | some tid, some amt =>
        let r := addBalance s.disk tid amt
        let s1 := { s with disk := r.disk }
        let s2 := if r.failed then replyError s1 chatID .adminAddFailed
          else sendMessage s1 chatID (.adminAdded amt tid)
        resetState s2 userID
      | _, _ => resetState (sendMessage s chatID .adminInvalid) userID
    | _ => sendMessage s chatID .adminFormat

/-- Case `"admin_remove_balance_input"` of `handleState`. -/
def handleAdminRemoveBalance (cfg : BotConfig) (s : Bot) (userID chatID : Int) (text : String) :
    Bot :=
  if userID ≠ cfg.AdminID then resetState (replyError s chatID .adminOnly) userID
  else
    match Fields text with
    | [p0, p1] =>
      match Atoi p0, Atoi p1 with
      | some tid, some amt =>
        let r := deductBalance s.disk tid amt
        let s1 := { s with disk := r.disk }
        let s2 := if r.failed then replyError s1 chatID .adminRemoveFailed
          else sendMessage s1 chatID (.adminRemoved amt tid)
        resetState s2 userID
      | _, _ => resetState (sendMessage s chatID .adminInvalid) userID
    | _ => sendMessage s chatID .adminFormat

/-- Case `"admin_ban_input"` of `handleState`; a load error is ignored and the collection is
then empty. -/
def handleAdminBan (cfg : BotConfig) (s : Bot) (userID chatID : Int) (text : String) : Bot :=
  if userID ≠ cfg.AdminID then resetState (replyError s chatID .adminOnly) userID
  else
    match Atoi text with
    | none => resetState (sendMessage s chatID .adminIDInvalid) userID
    | some tid =>
      let wallets := (loadWallets s.disk).getD []
      let wallets1 := match getWalletIndex wallets tid with
        | none => wallets ++ [{ zeroEntry tid with Banned := true }]
        | some idx => updateAt wallets idx fun e => { e with Banned := true }
      let s1 := { s with disk := (saveWallets s.disk wallets1).disk }
      resetState (sendMessage s1 chatID (.adminBanned tid)) userID

/-- Case `"admin_unban_input"` of `handleState`. -/
def handleAdminUnban (cfg : BotConfig) (s : Bot) (userID chatID : Int) (text : String) : Bot :=
  if userID ≠ cfg.AdminID then resetState (replyError s chatID .adminOnly) userID
  else
    match Atoi text with
    | none => resetState (sendMessage s chatID .adminIDInvalid) userID
    | some tid =>
      let wallets := (loadWallets s.disk).getD []
      match getWalletIndex wallets tid with
      | some idx =>
        let s1 := { s with
          disk := (saveWallets s.disk (updateAt wallets idx fun e => { e with Banned := false })).disk }
        resetState (sendMessage s1 chatID (.adminUnbanned tid)) userID
      | none => resetState (sendMessage s chatID .adminUnbanMissing) userID

/-- Go `handleState`, restricted to the states of the wallet flows; `msg.Text` is trimmed
first. The free-account and forward states of the admin are not part of this development and
fall in the last branch. -/
def handleState (cfg : BotConfig) (w : World) (s : Bot) (msg : Message) (state : String) :
    Option Bot :=
  let userID := msg.fromID
  let text := TrimSpace msg.text
  let chatID := msg.chatID
  if state = "create_password" then handleCreatePassword cfg s userID chatID text
  else if state = "create_days" then handleCreateDays cfg w s userID chatID text
  else if state = "trial_password" then some (handleTrialPassword cfg w s userID chatID text)
  else if state = "renew_password" then some (handleRenewPassword s userID chatID text)
  else if state = "renew_days" then some (handleRenewDays cfg w s userID chatID text)
  else if state = "topup_amount" then handleTopupAmount w s userID chatID text
  else if state = "admin_add_balance_input" then some (handleAdminAddBalance cfg s userID chatID text)
  else if state = "admin_remove_balance_input" then
    some (handleAdminRemoveBalance cfg s userID chatID text)
  else if state = "admin_ban_input" then some (handleAdminBan cfg s userID chatID text)
  else if state = "admin_unban_input" then some (handleAdminUnban cfg s userID chatID text)
  else some s

/-! ## Settlement (`startPaymentChecker`) -/

/-- The `action == "topup"` branch of the checker: credit, then complete a pending purchase
that the balance now covers. -/
def settleTopup (cfg : BotConfig) (w : World) (s : Bot) (userID chatID : Int) (price : String) :
    Bot :=
  let amt := (Atoi price).getD 0
  let s1 := { s with disk := (addBalance s.disk userID amt).disk }
  let current := getBalance s1.disk userID
  let s2 := sendMessage s1 chatID (.topupDone amt current)
  let wallets := (loadWallets s2.disk).getD []
  match getWalletIndex wallets userID with
  | none => s2
  | some idx =>
    match entryAt wallets idx with
    | none => s2
    | some e =>
      if e.PendingPassword ≠ "" ∧ e.PendingDays > 0 then
        let required := mulInt64 e.PendingDays cfg.DailyPrice
        if current ≥ required then
          let s3 := { s2 with disk := (deductBalance s2.disk userID required).disk }
          let s4 := { s3 with disk := (clearPendingPurchase s3.disk userID).disk }
          let s5 := createUser cfg w s4 chatID userID e.PendingPassword e.PendingDays
          sendMessage s5 chatID (.autoPurchaseDone (getBalance s5.disk userID))
        else s2
      else s2

/-- The `action == "buy_account"` branch of the checker. -/
def settleBuyAccount (cfg : BotConfig) (w : World) (s : Bot) (userID chatID : Int)
    (data : List (String × String)) : Bot :=
  let password := strGet data "password"
  let days := (Atoi (strGet data "days")).getD 0
  let required := mulInt64 days cfg.DailyPrice
  if getBalance s.disk userID ≥ required then
    createUser cfg w { s with disk := (deductBalance s.disk userID required).disk }
      chatID userID password days
  else sendMessage s chatID .paidButShort

/-- Body of the loop of `startPaymentChecker` for one entry of `tempUserData`. -/
def checkSession (cfg : BotConfig) (w : World) (s : Bot) (userID : Int)
    (data : List (String × String)) : Bot :=
  match mapGet data "order_id" with
  | none => s
  | some orderID =>
    let price := strGet data "price"
    let chatID := (Atoi (strGet data "chat_id")).getD 0
    let action := strGet data "action"
    match w.checkStatus orderID price with
    | none => s
    | some status =>
      if status = "completed" ∨ status = "success" then
        let s1 :=
          if action = "topup" then settleTopup cfg w s userID chatID price
          else if action = "buy_account" then settleBuyAccount cfg w s userID chatID data
          else s
        { s1 with
          tempUserData := mapDelete s1.tempUserData userID
          userStates := mapDelete s1.userStates userID }
      else s

/-- One tick of `startPaymentChecker`: the loop over `tempUserData`. Go visits the entries of
a map in an unspecified order; here it is the order of the list, which is arbitrary. -/
def tick (cfg : BotConfig) (w : World) (s : Bot) : Bot :=
  s.tempUserData.foldl (fun acc kv => checkSession cfg w acc kv.1 kv.2) s

/-! ## Specification-side definitions -/

/-- A credit or a debit on one customer. -/
inductive LedgerOp where
  | credit (a : Int)
  | debit (d : Int)
  deriving DecidableEq, Repr

/-- The code run for one ledger operation on customer `c`. -/
def applyOp (c : Int) (d : Disk) : LedgerOp → Disk
  | .credit a => (addBalance d c a).disk
  | .debit x => (deductBalance d c x).disk

/-- The code run for a sequence of ledger operations on customer `c`. -/
def runOps (c : Int) (d : Disk) (ops : List LedgerOp) : Disk := ops.foldl (applyOp c) d

/-- The balance step of the specification: a credit adds, a debit subtracts and floors at 0. -/
def specStep (b : Int) : LedgerOp → Int
  | .credit a => b + a
  | .debit x => max 0 (b - x)

/-- The wallet file holds a collection (or is absent) and can be written. -/
def Healthy (d : Disk) : Prop := loadWallets d ≠ none ∧ d.walletWritable = true

instance (d : Disk) : Decidable (Healthy d) := by unfold Healthy; infer_instance

/-- The record that the ledger operations address for a customer: the first with that id. -/
def findEntry (ws : List WalletEntry) (c : Int) : Option WalletEntry :=
  match getWalletIndex ws c with
  | none => none
  | some idx => entryAt ws idx

/-- The records of the wallet file (empty when it is absent or cannot be read). -/
def records (d : Disk) : List WalletEntry := (loadWallets d).getD []

/-- A call the ledger contract allows: a strictly positive amount. -/
def LedgerOp.positive : LedgerOp → Prop
  | .credit a => 0 < a
  | .debit x => 0 < x

instance (op : LedgerOp) : Decidable op.positive := by
  cases op <;> unfold LedgerOp.positive <;> infer_instance

/-- Every balance of the wallet collection is non-negative. -/
def NonNegBalances (d : Disk) : Prop := ∀ e ∈ records d, 0 ≤ e.Balance

instance (d : Disk) : Decidable (NonNegBalances d) := by unfold NonNegBalances; infer_instance

/-- The update `wallets[idx] = f(wallets[idx])` at the index found for `c`, or the append of
`e` when there is none. -/
def upsert (ws : List WalletEntry) (c : Int) (f : WalletEntry → WalletEntry) (e : WalletEntry) :
    List WalletEntry :=
  match getWalletIndex ws c with
  | none => ws ++ [e]
  | some idx => updateAt ws idx f

/-- The update at the index found for `c`, or nothing when there is none. -/
def modifyEntry (ws : List WalletEntry) (c : Int) (f : WalletEntry → WalletEntry) :
    List WalletEntry :=
  match getWalletIndex ws c with
  | none => ws
  | some idx => updateAt ws idx f

/-- The record written by `addBalance` for an existing customer. -/
def creditEntry (amount : Int) (w : WalletEntry) : WalletEntry :=
  { w with Balance := addInt64 w.Balance amount }

/-- The record written by `deductBalance` for an existing customer. -/
def debitEntry (amount : Int) (w : WalletEntry) : WalletEntry :=
  let w1 := { w with Balance := subInt64 w.Balance amount }
  if w1.Balance < 0 then { w1 with Balance := 0 } else w1

/-- The record written by `clearPendingPurchase` for an existing customer. -/
def clearEntry (w : WalletEntry) : WalletEntry :=
  { w with PendingPassword := "", PendingDays := 0 }

/-- The record written by `setPendingPurchase` for an existing customer. -/
def pendingEntry (password : String) (days : Int) (w : WalletEntry) : WalletEntry :=
  { w with PendingPassword := password, PendingDays := days }

/-- The record written by `markTrialUsed` for an existing customer. -/
def trialEntry (w : WalletEntry) : WalletEntry := { w with TrialUsed := true }

/-- The record written by `incrementCreatedCount` for an existing customer. -/
def countEntry (w : WalletEntry) : WalletEntry :=
  { w with CreatedCount := addInt64 w.CreatedCount 1 }

/-- The pending-purchase slot of a customer as the settlement reads it: the two fields of
the customer's record, empty when there is no record. -/
def pendingOf (d : Disk) (c : Int) : String × Int :=
  match findEntry (records d) c with
  | none => ("", 0)
  | some e => (e.PendingPassword, e.PendingDays)

/-- The gateway reports the order of this `tempUserData` entry as paid (`completed` or
`success`) in this tick. -/
def sessionConfirmed (w : World) (data : List (String × String)) : Bool :=
  match mapGet data "order_id" with
  | none => false
  | some orderID =>
    match w.checkStatus orderID (strGet data "price") with
    | none => false
    | some status => decide (status = "completed" ∨ status = "success")

/-- The two `delete` statements that close a settled session. -/
def closeSession (s : Bot) (userID : Int) : Bot :=
  { s with
    tempUserData := mapDelete s.tempUserData userID
    userStates := mapDelete s.userStates userID }

/-- No balance that the fold of the specification reaches over `ops` from `b` exceeds the
largest `int`, `2^63 - 1`. -/
def foldFits (b : Int) (ops : List LedgerOp) : Prop :=
  ∀ k, k ≤ ops.length → (ops.take k).foldl specStep b ≤ 9223372036854775807

instance (b : Int) (ops : List LedgerOp) : Decidable (foldFits b ops) := by
  unfold foldFits; infer_instance

/-- The state in which the loop of `tick` reaches the entry that follows the entries `pre`. -/
def tickUpTo (cfg : BotConfig) (w : World) (s : Bot) (pre : List (Int × List (String × String))) :
    Bot :=
  pre.foldl (fun acc kv => checkSession cfg w acc kv.1 kv.2) s

/-- A sequence of messages handled one after the other in state `trial_password`. -/
def runTrialRequests (cfg : BotConfig) (w : World) : Bot → List Message → Option Bot
  | s, [] => some s
  | s, m :: ms =>
    match handleState cfg w s m "trial_password" with
    | none => none
    | some s1 => runTrialRequests cfg w s1 ms

/-! ## Ledger calls and invariants -/

/-- A call of one of the six mutating ledger functions. -/
inductive LedgerCall where
  | add (amount : Int)
  | deduct (amount : Int)
  | markTrial
  | setPending (password : String) (days : Int)
  | clearPending
  | incCount
  deriving DecidableEq, Repr

/-- The Go function that a ledger call runs, for customer `c`. -/
def runCall (d : Disk) (c : Int) : LedgerCall → IOResult
  | .add a => addBalance d c a
  | .deduct x => deductBalance d c x
  | .markTrial => markTrialUsed d c
  | .setPending pw n => setPendingPurchase d c pw n
  | .clearPending => clearPendingPurchase d c
  | .incCount => incrementCreatedCount d c

/-- The update a ledger call applies to the record it finds. -/
def callUpdate : LedgerCall → WalletEntry → WalletEntry
  | .add a => creditEntry a
  | .deduct x => debitEntry x
  | .markTrial => trialEntry
  | .setPending pw n => pendingEntry pw n
  | .clearPending => clearEntry
  | .incCount => countEntry

/-- The record a ledger call appends when it finds none (`deductBalance` and
`clearPendingPurchase` append nothing). -/
def callFresh (c : Int) : LedgerCall → Option WalletEntry
  | .add a => some { zeroEntry c with Balance := a }
  | .deduct _ => none
  | .markTrial => some { zeroEntry c with TrialUsed := true }
  | .setPending pw n => some { zeroEntry c with PendingPassword := pw, PendingDays := n }
  | .clearPending => none
  | .incCount => some { zeroEntry c with CreatedCount := 1 }

/-- The record list a ledger call writes, from the list it loaded. -/
def callRecords (ws : List WalletEntry) (c : Int) (call : LedgerCall) : List WalletEntry :=
  match callFresh c call with
  | some e => upsert ws c (callUpdate call) e
  | none => modifyEntry ws c (callUpdate call)

/-- The record written by the admin ban handler for an existing customer. -/
def banEntry (w : WalletEntry) : WalletEntry := { w with Banned := true }

/-- The record written by the admin unban handler. -/
def unbanEntry (w : WalletEntry) : WalletEntry := { w with Banned := false }

/-- Each record has an empty pending credential exactly when its pending days are 0. -/
def PendingWF (d : Disk) : Prop :=
  ∀ e ∈ records d, (e.PendingPassword = "" ↔ e.PendingDays = 0)

instance (d : Disk) : Decidable (PendingWF d) := by unfold PendingWF; infer_instance

/-- No two records share a `TelegramID`. -/
def UniqueIDs (d : Disk) : Prop := ((records d).map (·.TelegramID)).Nodup

instance (d : Disk) : Decidable (UniqueIDs d) := by unfold UniqueIDs; infer_instance

/-- The created-account counter of a customer as `showMainMenu` reads it: 0 without a record. -/
def createdCountOf (d : Disk) (c : Int) : Int :=
  match findEntry (records d) c with
  | none => 0
  | some e => e.CreatedCount

/-- The metrics sequence as `appendMetric` reads it: empty when the file is absent or cannot
be read, the decoded entries when `json.Unmarshal` fails. -/
def metricsOf (d : Disk) : List MetricsEntry :=
  match d.metricsFile with
  | .content es => es
  | .malformed es => es
  | _ => []

/-- The precondition under which the handlers call a ledger function: `setPendingPurchase`
gets a credential that passed `validatePassword` (so not empty) and days that passed
`validateNumber` with a minimum of 1. -/
def LedgerCall.validated : LedgerCall → Prop
  | .setPending pw n => pw ≠ "" ∧ 1 ≤ n
  | _ => True

instance (call : LedgerCall) : Decidable call.validated := by
  cases call <;> unfold LedgerCall.validated <;> infer_instance

/-! ## Time (`time.Time` at the resolution of a second) -/

/-- A `time.Time`: the instant in Unix seconds and the offset of its zone east of UTC in
seconds. Locations are fixed offsets; the nanoseconds play no part in what the metrics
read. -/
structure Time where
  unix : Int
  offset : Int
  deriving DecidableEq, Repr

/-- Days from 0001-01-01 to the civil day of `t` in its zone (Go's absolute day count, up to
a whole number of 400-year cycles). -/
def Time.absDays (t : Time) : Int := (t.unix + t.offset) / 86400 + 719162

/-- Go `absDate`, year part: the year and the zero-based day of the year of a day count,
cutting 400-year, 100-year, 4-year and 1-year cycles. -/
def yearAndDay (days : Int) : Int × Int :=
  let n400 := days / 146097
  let d1 := days - 146097 * n400
  let n100 := d1 / 36524 - d1 / 36524 / 4
  let d2 := d1 - 36524 * n100
  let n4 := d2 / 1461
  let d3 := d2 - 1461 * n4
  let n1 := d3 / 365 - d3 / 365 / 4
  let d4 := d3 - 365 * n1
  (1 + 400 * n400 + 100 * n100 + 4 * n4 + n1, d4)

/-- Go `isLeap`. -/
def isLeap (year : Int) : Bool :=
  year % 4 = 0 ∧ (year % 100 ≠ 0 ∨ year % 400 = 0)

/-- Go `daysBefore[m]`: days of a non-leap year before month `m + 1`. -/
def daysBefore (m : Int) : Int :=
  if m ≤ 0 then 0 else if m = 1 then 31 else if m = 2 then 59 else if m = 3 then 90
  else if m = 4 then 120 else if m = 5 then 151 else if m = 6 then 181 else if m = 7 then 212
  else if m = 8 then 243 else if m = 9 then 273 else if m = 10 then 304
  else if m = 11 then 334 else 365

/-- Go `absDate`, month part: month (1..12) and day of the month of a zero-based day of the
year. -/
def monthAndDay (leap : Bool) (yday : Int) : Int × Int :=
  if leap ∧ yday = 59 then (2, 29)
  else
    let day := if leap ∧ yday > 59 then yday - 1 else yday
    let month := day / 31
    if day ≥ daysBefore (month + 1) then (month + 2, day - daysBefore (month + 1) + 1)
    else (month + 1, day - daysBefore month + 1)

/-- Go `Time.Year`. -/
def Time.Year (t : Time) : Int := (yearAndDay t.absDays).1

/-- Go `Time.YearDay`: 1 for January 1. -/
def Time.YearDay (t : Time) : Int := (yearAndDay t.absDays).2 + 1

/-- Go `Time.Month`: 1 for January. -/
def Time.Month (t : Time) : Int := (monthAndDay (isLeap t.Year) (yearAndDay t.absDays).2).1

/-- Go `Time.Day`: the day of the month. -/
def Time.Day (t : Time) : Int := (monthAndDay (isLeap t.Year) (yearAndDay t.absDays).2).2

/-- Go `Time.Weekday`: 0 for Sunday. 0001-01-01 was a Monday. -/
def Time.Weekday (t : Time) : Int := (t.absDays + 1) % 7

/-- Go `Time.ISOWeek`: the year and the week number of the Thursday of the Monday-to-Sunday
week of `t`. -/
def Time.ISOWeek (t : Time) : Int × Int :=
  let d := if 4 - t.Weekday = 4 then -3 else 4 - t.Weekday
  let yd := yearAndDay (t.absDays + d)
  (yd.1, yd.2 / 7 + 1)

/-- Go `Time.Before`. -/
def Time.Before (t u : Time) : Bool := t.unix < u.unix

/-- The value `time.Date(now.Year(), now.Month(), 1, 0, 0, 0, 0, now.Location())` of
`computeMetrics`: midnight of the first day of `now`'s month, in `now`'s zone. -/
def monthStart (now : Time) : Time :=
  { unix := (now.absDays - (now.Day - 1) - 719162) * 86400 - now.offset, offset := now.offset }

/-- The loop body of `computeMetrics`; `parse` is `time.Parse(time.RFC3339, ·)`. -/
def metricsStep (parse : String → Option Time) (now : Time) (acc : Nat × Nat × Nat)
    (e : MetricsEntry) : Nat × Nat × Nat :=
  match parse e.Timestamp with
  | none => acc
  | some t =>
    let today := if t.Year = now.Year ∧ t.YearDay = now.YearDay then acc.1 + 1 else acc.1
    let week := if t.ISOWeek.1 = now.ISOWeek.1 ∧ t.ISOWeek.2 = now.ISOWeek.2 then acc.2.1 + 1
      else acc.2.1
    let month := if ¬ t.Before (monthStart now) then acc.2.2 + 1 else acc.2.2
    (today, week, month)

/-- Go `computeMetrics`: the counts `(today, week, month)`, or `none` for the error. `parse`
is `time.Parse(time.RFC3339, ·)` and `now` is `time.Now()`. -/
def computeMetrics (parse : String → Option Time) (d : Disk) (now : Time) :
    Option (Nat × Nat × Nat) :=
  match d.metricsFile with
  | .absent => some (0, 0, 0)
  | .unreadable => none
  | .malformed _ => none
  | .content entries => some (entries.foldl (metricsStep parse now) (0, 0, 0))

/-! ## Calendar, specification side -/

/-- Day of the year (from 0) on which month `m` (1 to 12; 13 stands for the next January)
starts, in a leap or a common year. -/
def monthFirstYday (leap : Bool) (m : Int) : Int :=
  daysBefore (m - 1) + (if leap = true ∧ m ≥ 3 then 1 else 0)

/-- Spec: two times have the same calendar date, each read in its own offset. -/
def sameDate (t u : Time) : Bool := t.Year = u.Year ∧ t.Month = u.Month ∧ t.Day = u.Day

/-- Spec: two times lie in the same ISO-8601 year and week. -/
def sameISOWeek (t u : Time) : Bool := t.ISOWeek.1 = u.ISOWeek.1 ∧ t.ISOWeek.2 = u.ISOWeek.2

/-- Spec: two times lie in the same calendar month of the same year. -/
def sameMonth (t u : Time) : Bool := t.Year = u.Year ∧ t.Month = u.Month

/-- Calendar month of `t` is the month of `u` or a later one. -/
def monthOrLater (t u : Time) : Bool := u.Year < t.Year ∨ (t.Year = u.Year ∧ u.Month ≤ t.Month)

/-- Number of events whose timestamp parses to a time satisfying `p`. -/
def countEvents (parse : String → Option Time) (p : Time → Bool) (entries : List MetricsEntry) :
    Nat :=
  entries.countP (fun e => match parse e.Timestamp with
    | some t => p t
    | none => false)

/-- The order identifier built in case `"topup_amount"` of `handleState`:
`fmt.Sprintf("ZIVPN-TOPUP-%d-%d", userID, time.Now().Unix())`. -/
def topupOrderID (userID nowUnix : Int) : String :=
  "ZIVPN-TOPUP-" ++ Itoa userID ++ "-" ++ Itoa nowUnix

/-- Successive ticks of `startPaymentChecker`, one world per tick. -/
def runTicks (cfg : BotConfig) : List World → Bot → Bot
  | [], s => s
  | w :: ws, s => runTicks cfg ws (tick cfg w s)

/-! ## Provisioning API: renewal (`renewUser` of `zivpn-api.go`) -/

/-- Worker of `splitBar`: `cur` is the field being read, in reverse. -/
def splitBarAux : List Char → List Char → List String
  | [], cur => [String.mk cur.reverse]
  | c :: cs, cur =>
    if c = '|' then String.mk cur.reverse :: splitBarAux cs [] else splitBarAux cs (c :: cur)

/-- Go `strings.Split(line, "|")`. -/
def splitBar (line : String) : List String := splitBarAux line.data []

/-- The expression `time.Duration(req.Days) * 24 * time.Hour`: nanoseconds in an `int64`, each
product wrapping around. -/
def daysDuration (days : Int) : Int := wrapInt64 (wrapInt64 (days * 24) * 3600000000000)

/-- A `time.Time` with its nanoseconds, as `time.Now()` returns it. -/
structure Instant where
  time : Time
  nsec : Int
  deriving DecidableEq, Repr

/-- Go `Time.Before` at the resolution of a nanosecond. -/
def Instant.Before (t u : Instant) : Bool :=
  t.time.unix < u.time.unix ∨ (t.time.unix = u.time.unix ∧ t.nsec < u.nsec)

/-- Go `Time.Add`: the duration is added to the instant, the location is kept. Go splits the
duration with a truncating division and then brings the nanoseconds back into `0 ≤ nsec <
10^9`, carrying into the seconds; that is the floor division and remainder used here. -/
def Instant.Add (t : Instant) (d : Int) : Instant :=
  { time := { unix := t.time.unix + (t.nsec + d) / 1000000000, offset := t.time.offset },
    nsec := (t.nsec + d) % 1000000000 }

/-- Go `appendInt` of package `time`: the decimal numeral padded with zeros to `width`, behind
a minus sign for a negative number. -/
def appendInt (x : Int) (width : Nat) : List Char :=
  (if x < 0 then ['-'] else []) ++
    List.replicate (width - (natToDec x.natAbs).length) '0' ++ natToDec x.natAbs

/-- Go `t.Format("2006-01-02")`. -/
def formatDate (t : Time) : String :=
  String.mk (appendInt t.Year 4 ++ '-' :: (appendInt t.Month 2 ++ '-' :: appendInt t.Day 2))

/-- The variables `found`, `newUsers` and `newExpDate` of `renewUser`. -/
structure RenewAcc where
  found : Bool
  newUsers : List String
  newExpDate : String
  deriving DecidableEq, Repr

/-- Body of the loop of `renewUser` for one line of the user database. `parseDate` is
`time.Parse("2006-01-02", ·)`, whose result has no nanoseconds, and `now` is `time.Now()`. -/
def renewStep (parseDate : String → Option Time) (now : Instant) (password : String)
    (days : Int) (acc : RenewAcc) (line : String) : RenewAcc :=
  let parts := splitBar line
  if parts.length ≥ 2 ∧ TrimSpace (parts.getD 0 "") = password then
    let currentExpStr := TrimSpace (parts.getD 1 "")
    let currentExp : Instant := match parseDate currentExpStr with
      | some t => { time := t, nsec := 0 }
      | none => now
    let currentExp := if currentExp.Before now then now else currentExp
    let newExp := currentExp.Add (daysDuration days)
    let newExpDate := formatDate newExp.time
    { found := true, newUsers := acc.newUsers ++ [password ++ " | " ++ newExpDate],
      newExpDate := newExpDate }
  else { acc with newUsers := acc.newUsers ++ [line] }

/-- What `ioutil.ReadFile(UserDB)` can meet; the content is kept as its lines. -/
inductive UserFile where
  | absent
  | unreadable
  | lines (ls : List String)
  deriving DecidableEq, Repr

/-- The user database of the API server and whether a write to it succeeds. -/
structure ApiDisk where
  users : UserFile
  usersWritable : Bool
  deriving DecidableEq, Repr

/-- Go `loadUsers`: the lines that are not blank; a missing file is the empty list. -/
def loadUsers (d : ApiDisk) : Option (List String) :=
  match d.users with
  | .absent => some []
  | .unreadable => none
  | .lines ls => some (ls.filter fun l => decide (TrimSpace l ≠ ""))

/-- The JSON replies of `renewUser`. -/
inductive RenewReply where
  | loadFailed
  | notFound
  | saveFailed
  | restartFailed
  | renewed (password expired : String)
  deriving DecidableEq, Repr

/-- Go `renewUser` for a `POST` request whose body decodes to `password` and `days`:
the disk afterwards and the reply. `restartOk` tells whether `restartService` succeeds. -/
def renewUser (parseDate : String → Option Time) (now : Instant) (restartOk : Bool)
    (d : ApiDisk) (password : String) (days : Int) : ApiDisk × RenewReply :=
  match loadUsers d with
  | none => (d, .loadFailed)
  | some users =>
    let r := users.foldl (renewStep parseDate now password days)
      { found := false, newUsers := [], newExpDate := "" }
    if !r.found then (d, .notFound)
    else if !d.usersWritable then (d, .saveFailed)
    else
      let d1 := { d with users := .lines r.newUsers }
      if !restartOk then (d1, .restartFailed)
      else (d1, .renewed password r.newExpDate)

/-- Spec: the later of `now` and the stored expiry, `now` when the stored text does not parse;
a stored expiry at the very instant of `now` counts as not earlier. -/
def expiryBase (parseDate : String → Option Time) (now : Instant) (stored : String) : Time :=
  match parseDate stored with
  | none => now.time
  | some e => if Instant.Before { time := e, nsec := 0 } now then now.time else e

/-- Spec: the date written by a renewal, `days` times 24 hours after `expiryBase`, read in
the offset of that time. -/
def renewedDate (parseDate : String → Option Time) (now : Instant) (days : Int)
    (stored : String) : String :=
  formatDate { unix := (expiryBase parseDate now stored).unix + days * 86400,
               offset := (expiryBase parseDate now stored).offset }

/-- The condition under which the loop of `renewUser` rewrites a line. -/
def lineMatches (line password : String) : Bool :=
  decide ((splitBar line).length ≥ 2 ∧ TrimSpace ((splitBar line).getD 0 "") = password)

/-- The second field of a line, trimmed: the stored expiry. -/
def storedExpiry (line : String) : String := TrimSpace ((splitBar line).getD 1 "")

/-- Spec: what a renewal leaves of one line: the credential and the renewed date when the line
is the account's, the line itself otherwise. -/
def rewriteLine (parseDate : String → Option Time) (now : Instant) (password : String)
    (days : Int) (line : String) : String :=
  if lineMatches line password = true then
    password ++ " | " ++ renewedDate parseDate now days (storedExpiry line)
  else line

/-- Spec: the account lines of the user database, its lines that are not blank. -/
def accountLines (ls : List String) : List String :=
  ls.filter fun l => decide (TrimSpace l ≠ "")

/-! ## Concrete stores and collaborators used to run the code -/

/-- A wallet file with the given records that can be read and written; no metrics yet. -/
def diskOf (ws : List WalletEntry) : Disk :=
  { walletFile := .content ws, walletWritable := true, metricsFile := .absent,
    metricsWritable := true }

/-- A bot with the given conversation maps and wallet records and empty traces. -/
def botOf (states : List (Int × String)) (temp : List (Int × List (String × String)))
    (ws : List WalletEntry) : Bot :=
  { userStates := states, tempUserData := temp, disk := diskOf ws, apiLog := [],
    gatewayLog := [], outbox := [] }

/-- Admin 1, unit price 1000 per day. -/
def cfg1000 : BotConfig := { AdminID := 1, DailyPrice := 1000 }

/-- Collaborators that always succeed: the API creates what is asked, the gateway reports
every order as `completed`. -/
def happyWorld : World :=
  { api := fun _ c => .success c.password "2030-01-01"
    createTransaction := fun _ _ => some { PaymentNumber := "QR", ExpiredAt := "soon" }
    checkStatus := fun _ _ => some "completed"
    nowUnix := 1700000000
    nowStamp := "2023-11-14T22:13:20Z" }

/-- A disk whose metrics file holds the given events. -/
def metricsDiskOf (es : List MetricsEntry) : Disk :=
  { diskOf [] with metricsFile := .content es }

/-- The query time 2024-03-10T12:00:00Z, a Sunday in ISO week 10 of 2024. -/
def sampleNow : Time := { unix := 1710072000, offset := 0 }

/-- What `time.Parse(time.RFC3339, ·)` returns on the timestamps used below, all in UTC;
any other string is taken as one that does not parse. -/
def sampleParse (s : String) : Option Time :=
  if s = "2024-03-10T08:00:00Z" then some { unix := 1710057600, offset := 0 }
  else if s = "2024-03-09T23:59:59Z" then some { unix := 1710028799, offset := 0 }
  else if s = "2024-03-03T12:00:00Z" then some { unix := 1709467200, offset := 0 }
  else if s = "2024-02-29T23:59:59Z" then some { unix := 1709251199, offset := 0 }
  else if s = "2024-04-01T00:00:00Z" then some { unix := 1711929600, offset := 0 }
  else none

/-- Events of the same day as `sampleNow`, of the day before, of the week before in the same
month, of the month before and of the month after, and one whose timestamp does not parse. -/
def sampleEvents : List MetricsEntry :=
  [{ Timestamp := "2024-03-10T08:00:00Z", Owner := 7 },
    { Timestamp := "2024-03-09T23:59:59Z", Owner := 7 },
    { Timestamp := "2024-03-03T12:00:00Z", Owner := 8 },
    { Timestamp := "2024-02-29T23:59:59Z", Owner := 8 },
    { Timestamp := "2024-04-01T00:00:00Z", Owner := 9 },
    { Timestamp := "yesterday", Owner := 9 }]

/-- A disk whose wallet file exists and cannot be read as a collection (a read error or
malformed JSON), while the directory accepts writes. -/
def brokenWalletDisk : Disk :=
  { walletFile := .unreadable, walletWritable := true, metricsFile := .absent,
    metricsWritable := true }

/-- What `time.Parse("2006-01-02", ·)` returns on the dates used below: midnight UTC. Any
other string is taken as one that does not parse. -/
def sampleParseDate (s : String) : Option Time :=
  if s = "2024-06-01" then some { unix := 1717200000, offset := 0 }
  else if s = "2024-01-01" then some { unix := 1704067200, offset := 0 }
  else none

/-- A user database with one account that has not expired at `sampleNow`, one that has, one
with an unreadable date, and a line without a second field. -/
def sampleUsers : ApiDisk :=
  { users := .lines ["alice | 2024-06-01", "bob | 2024-01-01", "carol|soon|x", "dave"],
    usersWritable := true }

/-- A wallet file with the given records that can be read and cannot be written. -/
def readOnlyDiskOf (ws : List WalletEntry) : Disk :=
  { diskOf ws with walletWritable := false }

/-- The registry entry of customer 7 for an open top-up session of the given amount. -/
def topupSession (price : String) : List (String × String) :=
  [("chat_id", "7"), ("order_id", "ZIVPN-TOPUP-7-1700000000"), ("price", price),
    ("action", "topup")]

/-- The registry entry of customer 7 after `startCreateUser` and `create_password`. -/
def createSession : List (String × String) := [("chat_id", "7"), ("password", "secret")]

/-! ## Lemmas on Go integers -/

theorem wrapInt64_of_in (x : Int) (h : inInt64 x) : wrapInt64 x = x := by
  unfold inInt64 at h
  unfold wrapInt64
  omega

/-- The conversion lands in the range. -/
theorem wrapInt64_inInt64 (x : Int) : inInt64 (wrapInt64 x) := by
  unfold inInt64 wrapInt64
  omega

/-- The range is closed under the three operations, so the values that the code computes
from values in the range are in the range. -/
theorem inInt64_closed (a b : Int) (ha : inInt64 a) (hb : inInt64 b) :
    inInt64 (addInt64 a b) ∧ inInt64 (subInt64 a b) ∧ inInt64 (mulInt64 a b) := by
  unfold addInt64 subInt64 mulInt64
  rw [if_pos ⟨ha, hb⟩, if_pos ⟨ha, hb⟩, if_pos ⟨ha, hb⟩]
  exact ⟨wrapInt64_inInt64 _, wrapInt64_inInt64 _, wrapInt64_inInt64 _⟩

/-- A sum that fits is the exact sum. -/
theorem addInt64_exact (a b : Int) (h : inInt64 (a + b)) : addInt64 a b = a + b := by
  unfold addInt64
  split
  · exact wrapInt64_of_in _ h
  · rfl

/-- A difference that fits is the exact difference. -/
theorem subInt64_exact (a b : Int) (h : inInt64 (a - b)) : subInt64 a b = a - b := by
  unfold subInt64
  split
  · exact wrapInt64_of_in _ h
  · rfl

/-- A product that fits is the exact product. -/
theorem mulInt64_exact (a b : Int) (h : inInt64 (a * b)) : mulInt64 a b = a * b := by
  unfold mulInt64
  split
  · exact wrapInt64_of_in _ h
  · rfl

theorem addInt64_zero (a : Int) : addInt64 a 0 = a := by
  unfold addInt64
  split
  · rename_i h; rw [Int.add_zero]; exact wrapInt64_of_in _ h.1
  · exact Int.add_zero a

theorem subInt64_zero (a : Int) : subInt64 a 0 = a := by
  unfold subInt64
  split
  · rename_i h; rw [Int.sub_zero]; exact wrapInt64_of_in _ h.1
  · exact Int.sub_zero a

theorem zero_addInt64 (a : Int) : addInt64 0 a = a := by
  unfold addInt64
  split
  · rename_i h; rw [Int.zero_add]; exact wrapInt64_of_in _ h.2
  · exact Int.zero_add a

/-- A debit of an amount that is not negative from a balance that is not negative does not
wrap around. -/
theorem subInt64_of_nonneg (a b : Int) (ha : 0 ≤ a) (hb : 0 ≤ b) : subInt64 a b = a - b := by
  unfold subInt64
  split
  · rename_i h
    apply wrapInt64_of_in
    have h1 := h.1
    have h2 := h.2
    unfold inInt64 at h1 h2 ⊢
    omega
  · rfl

/-! ## Lemmas on the record list -/

theorem getWalletIndex_entryAt (ws : List WalletEntry) (c : Int) (i : Nat)
    (h : getWalletIndex ws c = some i) : ∃ e, entryAt ws i = some e ∧ e.TelegramID = c := by
  induction ws generalizing i with
  | nil => simp [getWalletIndex] at h
  | cons w ws ih =>
    by_cases hw : w.TelegramID = c
    · simp [getWalletIndex, hw] at h
      subst h
      exact ⟨w, rfl, hw⟩
    · simp only [getWalletIndex, hw, if_false, Option.map_eq_some'] at h
      obtain ⟨j, hj, rfl⟩ := h
      exact ih j hj

theorem findEntry_nil (c : Int) : findEntry [] c = none := rfl

theorem findEntry_cons (w : WalletEntry) (ws : List WalletEntry) (c : Int) :
    findEntry (w :: ws) c = if w.TelegramID = c then some w else findEntry ws c := by
  by_cases hw : w.TelegramID = c
  · simp [findEntry, getWalletIndex, hw, entryAt]
  · simp only [findEntry, getWalletIndex, hw, if_false]
    cases getWalletIndex ws c <;> simp [entryAt]

theorem findEntry_id (ws : List WalletEntry) (c : Int) (e : WalletEntry)
    (h : findEntry ws c = some e) : e.TelegramID = c := by
  induction ws with
  | nil => simp [findEntry_nil] at h
  | cons w ws ih =>
    rw [findEntry_cons] at h
    by_cases hw : w.TelegramID = c
    · simp [hw] at h; subst h; exact hw
    · simp [hw] at h; exact ih h

theorem getWalletIndex_none_iff (ws : List WalletEntry) (c : Int) :
    getWalletIndex ws c = none ↔ findEntry ws c = none := by
  constructor
  · intro h; simp [findEntry, h]
  · intro h
    cases hi : getWalletIndex ws c with
    | none => rfl
    | some i =>
      obtain ⟨e, he, _⟩ := getWalletIndex_entryAt ws c i hi
      simp [findEntry, hi, he] at h

theorem upsert_nil (c : Int) (f : WalletEntry → WalletEntry) (e : WalletEntry) :
    upsert [] c f e = [e] := rfl

theorem upsert_cons (w : WalletEntry) (ws : List WalletEntry) (c : Int)
    (f : WalletEntry → WalletEntry) (e : WalletEntry) :
    upsert (w :: ws) c f e = if w.TelegramID = c then f w :: ws else w :: upsert ws c f e := by
  by_cases hw : w.TelegramID = c
  · simp [upsert, getWalletIndex, hw, updateAt]
  · simp only [upsert, getWalletIndex, hw, if_false]
    cases getWalletIndex ws c <;> simp [updateAt]

theorem modifyEntry_nil (c : Int) (f : WalletEntry → WalletEntry) : modifyEntry [] c f = [] := rfl

theorem modifyEntry_cons (w : WalletEntry) (ws : List WalletEntry) (c : Int)
    (f : WalletEntry → WalletEntry) :
    modifyEntry (w :: ws) c f = if w.TelegramID = c then f w :: ws else w :: modifyEntry ws c f := by
  by_cases hw : w.TelegramID = c
  · simp [modifyEntry, getWalletIndex, hw, updateAt]
  · simp only [modifyEntry, getWalletIndex, hw, if_false]
    cases getWalletIndex ws c <;> simp [updateAt]

theorem findEntry_upsert_same (ws : List WalletEntry) (c : Int) (f : WalletEntry → WalletEntry)
    (e : WalletEntry) (hf : ∀ x, (f x).TelegramID = x.TelegramID) (he : e.TelegramID = c) :
    findEntry (upsert ws c f e) c = some (((findEntry ws c).map f).getD e) := by
  induction ws with
  | nil => simp [upsert_nil, findEntry_cons, findEntry_nil, he]
  | cons w ws ih =>
    rw [upsert_cons, findEntry_cons]
    by_cases hw : w.TelegramID = c
    · simp [hw, findEntry_cons, hf]
    · simp [hw, findEntry_cons, ih]

theorem findEntry_upsert_other (ws : List WalletEntry) (c c' : Int)
    (f : WalletEntry → WalletEntry) (e : WalletEntry)
    (hf : ∀ x, (f x).TelegramID = x.TelegramID) (he : e.TelegramID = c) (hc : c' ≠ c) :
    findEntry (upsert ws c f e) c' = findEntry ws c' := by
  induction ws with
  | nil =>
    have : ¬ e.TelegramID = c' := by rw [he]; exact fun h => hc h.symm
    simp [upsert_nil, findEntry_cons, findEntry_nil, this]
  | cons w ws ih =>
    rw [upsert_cons, findEntry_cons]
    by_cases hw : w.TelegramID = c
    · have hcc : ¬ c = c' := fun h => hc h.symm
      simp [hw, findEntry_cons, hf, hcc]
    · simp [hw, findEntry_cons, ih]

theorem findEntry_modify_same (ws : List WalletEntry) (c : Int) (f : WalletEntry → WalletEntry)
    (hf : ∀ x, (f x).TelegramID = x.TelegramID) :
    findEntry (modifyEntry ws c f) c = (findEntry ws c).map f := by
  induction ws with
  | nil => simp [modifyEntry_nil, findEntry_nil]
  | cons w ws ih =>
    rw [modifyEntry_cons, findEntry_cons]
    by_cases hw : w.TelegramID = c
    · simp [hw, findEntry_cons, hf]
    · simp [hw, findEntry_cons, ih]

theorem findEntry_modify_other (ws : List WalletEntry) (c c' : Int)
    (f : WalletEntry → WalletEntry) (hf : ∀ x, (f x).TelegramID = x.TelegramID) (hc : c' ≠ c) :
    findEntry (modifyEntry ws c f) c' = findEntry ws c' := by
  induction ws with
  | nil => simp [modifyEntry_nil, findEntry_nil]
  | cons w ws ih =>
    rw [modifyEntry_cons, findEntry_cons]
    by_cases hw : w.TelegramID = c
    · have hcc : ¬ c = c' := fun h => hc h.symm
      simp [hw, findEntry_cons, hf, hcc]
    · simp [hw, findEntry_cons, ih]

theorem modifyEntry_of_none (ws : List WalletEntry) (c : Int) (f : WalletEntry → WalletEntry)
    (h : findEntry ws c = none) : modifyEntry ws c f = ws := by
  have := (getWalletIndex_none_iff ws c).2 h
  simp [modifyEntry, this]

/-! ## Lemmas on the ledger operations -/

theorem healthy_load {d : Disk} (h : Healthy d) : loadWallets d = some (records d) := by
  unfold Healthy at h
  cases hl : loadWallets d with
  | none => exact absurd hl h.1
  | some ws => simp [records, hl]

theorem saveWallets_healthy {d : Disk} (h : Healthy d) (ws : List WalletEntry) :
    saveWallets d ws = { disk := { d with walletFile := .content ws }, failed := false } := by
  simp [saveWallets, h.2]

theorem healthy_save {d : Disk} (h : Healthy d) (ws : List WalletEntry) :
    Healthy (saveWallets d ws).disk := by
  rw [saveWallets_healthy h]
  exact ⟨by simp [loadWallets], h.2⟩

theorem records_save {d : Disk} (h : Healthy d) (ws : List WalletEntry) :
    records (saveWallets d ws).disk = ws := by
  rw [saveWallets_healthy h]
  simp [records, loadWallets]

theorem getBalance_eq (d : Disk) (c : Int) :
    getBalance d c = ((findEntry (records d) c).map (·.Balance)).getD 0 := by
  unfold getBalance records findEntry
  cases loadWallets d with
  | none => simp [getWalletIndex]
  | some ws =>
    simp only [Option.getD_some]
    cases getWalletIndex ws c with
    | none => simp
    | some i => dsimp only; cases entryAt ws i <;> simp

theorem hasUsedTrial_eq (d : Disk) (c : Int) :
    hasUsedTrial d c = ((findEntry (records d) c).map (·.TrialUsed)).getD false := by
  unfold hasUsedTrial records findEntry
  cases loadWallets d with
  | none => simp [getWalletIndex]
  | some ws =>
    simp only [Option.getD_some]
    cases getWalletIndex ws c with
    | none => simp
    | some i => dsimp only; cases entryAt ws i <;> simp

theorem addBalance_eq {d : Disk} (h : Healthy d) (c amount : Int) :
    addBalance d c amount =
      saveWallets d (upsert (records d) c (creditEntry amount)
        { zeroEntry c with Balance := amount }) := by
  unfold addBalance upsert
  rw [healthy_load h]
  dsimp only
  cases getWalletIndex (records d) c <;> rfl

theorem deductBalance_eq {d : Disk} (h : Healthy d) (c amount : Int) :
    deductBalance d c amount =
      match getWalletIndex (records d) c with
      | none => { disk := d, failed := false }
      | some _ => saveWallets d (modifyEntry (records d) c (debitEntry amount)) := by
  unfold deductBalance modifyEntry
  rw [healthy_load h]
  dsimp only
  cases getWalletIndex (records d) c <;> rfl

theorem markTrialUsed_eq {d : Disk} (h : Healthy d) (c : Int) :
    markTrialUsed d c =
      saveWallets d (upsert (records d) c (fun w => { w with TrialUsed := true })
        { zeroEntry c with TrialUsed := true }) := by
  unfold markTrialUsed upsert
  rw [healthy_load h]
  dsimp only
  cases getWalletIndex (records d) c <;> rfl

theorem setPendingPurchase_eq {d : Disk} (h : Healthy d) (c : Int) (password : String)
    (days : Int) :
    setPendingPurchase d c password days =
      saveWallets d (upsert (records d) c
        (fun w => { w with PendingPassword := password, PendingDays := days })
        { zeroEntry c with PendingPassword := password, PendingDays := days }) := by
  unfold setPendingPurchase upsert
  rw [healthy_load h]
  dsimp only
  cases getWalletIndex (records d) c <;> rfl

theorem clearPendingPurchase_eq {d : Disk} (h : Healthy d) (c : Int) :
    clearPendingPurchase d c =
      match getWalletIndex (records d) c with
      | none => { disk := d, failed := false }
      | some _ =>
        saveWallets d (modifyEntry (records d) c
          fun w => { w with PendingPassword := "", PendingDays := 0 }) := by
  unfold clearPendingPurchase modifyEntry
  rw [healthy_load h]
  dsimp only
  cases getWalletIndex (records d) c <;> rfl

theorem incrementCreatedCount_eq {d : Disk} (h : Healthy d) (c : Int) :
    incrementCreatedCount d c =
      saveWallets d (upsert (records d) c
        (fun w => { w with CreatedCount := addInt64 w.CreatedCount 1 })
        { zeroEntry c with CreatedCount := 1 }) := by
  unfold incrementCreatedCount upsert
  rw [healthy_load h]
  dsimp only
  cases getWalletIndex (records d) c <;> rfl

theorem addBalance_healthy {d : Disk} (h : Healthy d) (c amount : Int) :
    Healthy (addBalance d c amount).disk := by
  rw [addBalance_eq h]; exact healthy_save h _

theorem addBalance_records {d : Disk} (h : Healthy d) (c amount : Int) :
    records (addBalance d c amount).disk =
      upsert (records d) c (creditEntry amount) { zeroEntry c with Balance := amount } := by
  rw [addBalance_eq h]; exact records_save h _

theorem deductBalance_healthy {d : Disk} (h : Healthy d) (c amount : Int) :
    Healthy (deductBalance d c amount).disk := by
  rw [deductBalance_eq h]
  cases getWalletIndex (records d) c with
  | none => exact h
  | some i => exact healthy_save h _

theorem deductBalance_records {d : Disk} (h : Healthy d) (c amount : Int) :
    records (deductBalance d c amount).disk = modifyEntry (records d) c (debitEntry amount) := by
  rw [deductBalance_eq h]
  cases hi : getWalletIndex (records d) c with
  | none => simp [modifyEntry, hi]
  | some i => exact records_save h _

theorem deductBalance_failed {d : Disk} (h : Healthy d) (c amount : Int) :
    (deductBalance d c amount).failed = false := by
  rw [deductBalance_eq h]
  cases getWalletIndex (records d) c with
  | none => rfl
  | some i => simp [saveWallets_healthy h]

theorem addBalance_failed {d : Disk} (h : Healthy d) (c amount : Int) :
    (addBalance d c amount).failed = false := by
  rw [addBalance_eq h]; simp [saveWallets_healthy h]

theorem getBalance_addBalance {d : Disk} (h : Healthy d) (c amount : Int) :
    getBalance (addBalance d c amount).disk c = addInt64 (getBalance d c) amount := by
  rw [getBalance_eq, getBalance_eq, addBalance_records h,
    findEntry_upsert_same (records d) c (creditEntry amount) _ (fun _ => rfl) rfl]
  cases findEntry (records d) c with
  | none => simp [zeroEntry, zero_addInt64]
  | some e => simp [creditEntry]

theorem getBalance_deductBalance {d : Disk} (h : Healthy d) (c amount : Int) :
    getBalance (deductBalance d c amount).disk c =
      if findEntry (records d) c = none then 0
      else max 0 (subInt64 (getBalance d c) amount) := by
  have hid : ∀ x, (debitEntry amount x).TelegramID = x.TelegramID := by
    intro x; unfold debitEntry; dsimp only; split <;> rfl
  rw [getBalance_eq, getBalance_eq, deductBalance_records h,
    findEntry_modify_same (records d) c (debitEntry amount) hid]
  cases findEntry (records d) c with
  | none => simp
  | some e =>
    simp only [Option.map_some', Option.getD_some, debitEntry]
    by_cases hlt : subInt64 e.Balance amount < 0
    · simp [hlt, max_eq_left (le_of_lt hlt)]
    · simp [hlt, max_eq_right (not_lt.mp hlt)]

/-- One ledger operation with a strictly positive amount, on a balance that is not negative
and with a result that fits a Go integer, is one step of the specification. -/
theorem applyOp_step {d : Disk} (h : Healthy d) (c : Int) (op : LedgerOp) (hp : op.positive)
    (hb : 0 ≤ getBalance d c) (hfit : specStep (getBalance d c) op ≤ 9223372036854775807) :
    Healthy (applyOp c d op) ∧ getBalance (applyOp c d op) c = specStep (getBalance d c) op := by
  cases op with
  | credit a =>
    refine ⟨addBalance_healthy h c a, ?_⟩
    have ha : 0 < a := hp
    have hf : getBalance d c + a ≤ 9223372036854775807 := hfit
    show getBalance (addBalance d c a).disk c = getBalance d c + a
    rw [getBalance_addBalance h]
    apply addInt64_exact
    unfold inInt64
    omega
  | debit x =>
    refine ⟨deductBalance_healthy h c x, ?_⟩
    have hx : 0 < x := hp
    show getBalance (deductBalance d c x).disk c = max 0 (getBalance d c - x)
    rw [getBalance_deductBalance h]
    by_cases hn : findEntry (records d) c = none
    · have hb0 : getBalance d c = 0 := by rw [getBalance_eq, hn]; rfl
      rw [if_pos hn, hb0]
      exact (max_eq_left (by omega)).symm
    · rw [if_neg hn, subInt64_of_nonneg _ _ hb (by omega)]

theorem getBalance_addBalance_other {d : Disk} (h : Healthy d) (c c' amount : Int)
    (hc : c' ≠ c) : getBalance (addBalance d c amount).disk c' = getBalance d c' := by
  rw [getBalance_eq, getBalance_eq, addBalance_records h,
    findEntry_upsert_other (records d) c c' (creditEntry amount) _ (fun _ => rfl) rfl hc]

theorem debitEntry_id (amount : Int) (x : WalletEntry) :
    (debitEntry amount x).TelegramID = x.TelegramID := by
  unfold debitEntry; dsimp only; split <;> rfl

theorem getBalance_deductBalance_other {d : Disk} (h : Healthy d) (c c' amount : Int)
    (hc : c' ≠ c) : getBalance (deductBalance d c amount).disk c' = getBalance d c' := by
  rw [getBalance_eq, getBalance_eq, deductBalance_records h,
    findEntry_modify_other (records d) c c' (debitEntry amount) (debitEntry_id amount) hc]

/-! ## Lemmas on the remaining ledger operations -/

theorem clearPendingPurchase_healthy {d : Disk} (h : Healthy d) (c : Int) :
    Healthy (clearPendingPurchase d c).disk := by
  rw [clearPendingPurchase_eq h]
  cases getWalletIndex (records d) c with
  | none => exact h
  | some i => exact healthy_save h _

theorem clearPendingPurchase_records {d : Disk} (h : Healthy d) (c : Int) :
    records (clearPendingPurchase d c).disk =
      modifyEntry (records d) c clearEntry := by
  rw [clearPendingPurchase_eq h]
  cases hi : getWalletIndex (records d) c with
  | none => simp [modifyEntry, hi]
  | some i => exact records_save h _

theorem incrementCreatedCount_healthy {d : Disk} (h : Healthy d) (c : Int) :
    Healthy (incrementCreatedCount d c).disk := by
  rw [incrementCreatedCount_eq h]; exact healthy_save h _

theorem incrementCreatedCount_records {d : Disk} (h : Healthy d) (c : Int) :
    records (incrementCreatedCount d c).disk =
      upsert (records d) c countEntry { zeroEntry c with CreatedCount := 1 } := by
  rw [incrementCreatedCount_eq h]; exact records_save h _

theorem markTrialUsed_healthy {d : Disk} (h : Healthy d) (c : Int) :
    Healthy (markTrialUsed d c).disk := by
  rw [markTrialUsed_eq h]; exact healthy_save h _

theorem markTrialUsed_records {d : Disk} (h : Healthy d) (c : Int) :
    records (markTrialUsed d c).disk =
      upsert (records d) c trialEntry { zeroEntry c with TrialUsed := true } := by
  rw [markTrialUsed_eq h]; exact records_save h _

theorem setPendingPurchase_healthy {d : Disk} (h : Healthy d) (c : Int) (pw : String)
    (days : Int) : Healthy (setPendingPurchase d c pw days).disk := by
  rw [setPendingPurchase_eq h]; exact healthy_save h _

theorem setPendingPurchase_records {d : Disk} (h : Healthy d) (c : Int) (pw : String)
    (days : Int) :
    records (setPendingPurchase d c pw days).disk =
      upsert (records d) c (pendingEntry pw days)
        { zeroEntry c with PendingPassword := pw, PendingDays := days } := by
  rw [setPendingPurchase_eq h]; exact records_save h _

theorem appendMetric_records (d : Disk) (owner : Int) (stamp : String) :
    records (appendMetric d owner stamp).disk = records d := by
  unfold appendMetric
  dsimp only
  cases d.metricsWritable <;> rfl

theorem appendMetric_healthy {d : Disk} (h : Healthy d) (owner : Int) (stamp : String) :
    Healthy (appendMetric d owner stamp).disk := by
  unfold appendMetric
  dsimp only
  cases hw : d.metricsWritable
  · exact h
  · exact ⟨h.1, h.2⟩

theorem getBalance_congr {d d' : Disk} (h : records d' = records d) (c : Int) :
    getBalance d' c = getBalance d c := by
  rw [getBalance_eq, getBalance_eq, h]

theorem pendingOf_congr {d d' : Disk} (h : records d' = records d) (c : Int) :
    pendingOf d' c = pendingOf d c := by
  unfold pendingOf; rw [h]

theorem findEntry_incrementCreatedCount {d : Disk} (h : Healthy d) (c : Int) :
    findEntry (records (incrementCreatedCount d c).disk) c =
      some (((findEntry (records d) c).map countEntry).getD
        { zeroEntry c with CreatedCount := 1 }) := by
  rw [incrementCreatedCount_records h]
  exact findEntry_upsert_same (records d) c countEntry _ (fun _ => rfl) rfl

theorem getBalance_incrementCreatedCount {d : Disk} (h : Healthy d) (c : Int) :
    getBalance (incrementCreatedCount d c).disk c = getBalance d c := by
  rw [getBalance_eq, getBalance_eq, findEntry_incrementCreatedCount h]
  cases findEntry (records d) c <;> simp [zeroEntry, countEntry]

theorem pendingOf_incrementCreatedCount {d : Disk} (h : Healthy d) (c : Int) :
    pendingOf (incrementCreatedCount d c).disk c = pendingOf d c := by
  unfold pendingOf
  rw [findEntry_incrementCreatedCount h]
  cases findEntry (records d) c <;> simp [zeroEntry, countEntry]

/-- What `createUser` does to the trace, the customer's balance and the pending slot. -/
theorem createUser_effect (cfg : BotConfig) (w : World) (s : Bot) (chatID c : Int)
    (pw : String) (days : Int) (h : Healthy s.disk) :
    (createUser cfg w s chatID c pw days).apiLog
        = s.apiLog ++ [{ endpoint := "/user/create", password := pw, days := days }] ∧
      getBalance (createUser cfg w s chatID c pw days).disk c = getBalance s.disk c ∧
      pendingOf (createUser cfg w s chatID c pw days).disk c = pendingOf s.disk c ∧
      Healthy (createUser cfg w s chatID c pw days).disk := by
  unfold createUser apiCall
  cases w.api s.apiLog { endpoint := "/user/create", password := pw, days := days } with
  | error => exact ⟨rfl, rfl, rfl, h⟩
  | refused m => exact ⟨rfl, rfl, rfl, h⟩
  | success p e =>
    refine ⟨rfl, ?_, ?_, ?_⟩
    · show getBalance (appendMetric (incrementCreatedCount s.disk c).disk c w.nowStamp).disk c = _
      rw [getBalance_congr (appendMetric_records _ _ _), getBalance_incrementCreatedCount h]
    · show pendingOf (appendMetric (incrementCreatedCount s.disk c).disk c w.nowStamp).disk c = _
      rw [pendingOf_congr (appendMetric_records _ _ _), pendingOf_incrementCreatedCount h]
    · exact appendMetric_healthy (incrementCreatedCount_healthy h c) _ _

/-! ## Lemmas on settlement -/

@[simp] theorem sendMessage_disk (s : Bot) (chatID : Int) (m : Msg) :
    (sendMessage s chatID m).disk = s.disk := rfl

@[simp] theorem sendMessage_apiLog (s : Bot) (chatID : Int) (m : Msg) :
    (sendMessage s chatID m).apiLog = s.apiLog := rfl

@[simp] theorem sendMessage_gatewayLog (s : Bot) (chatID : Int) (m : Msg) :
    (sendMessage s chatID m).gatewayLog = s.gatewayLog := rfl

@[simp] theorem sendMessage_tempUserData (s : Bot) (chatID : Int) (m : Msg) :
    (sendMessage s chatID m).tempUserData = s.tempUserData := rfl

@[simp] theorem sendMessage_userStates (s : Bot) (chatID : Int) (m : Msg) :
    (sendMessage s chatID m).userStates = s.userStates := rfl

@[simp] theorem resetState_disk (s : Bot) (u : Int) : (resetState s u).disk = s.disk := rfl

@[simp] theorem resetState_apiLog (s : Bot) (u : Int) : (resetState s u).apiLog = s.apiLog := rfl

@[simp] theorem resetState_gatewayLog (s : Bot) (u : Int) :
    (resetState s u).gatewayLog = s.gatewayLog := rfl

@[simp] theorem resetState_tempUserData (s : Bot) (u : Int) :
    (resetState s u).tempUserData = s.tempUserData := rfl

@[simp] theorem closeSession_disk (s : Bot) (u : Int) : (closeSession s u).disk = s.disk := rfl

@[simp] theorem closeSession_apiLog (s : Bot) (u : Int) :
    (closeSession s u).apiLog = s.apiLog := rfl

theorem match_index_entry {α : Type} (ws : List WalletEntry) (c : Int) (k : WalletEntry → α)
    (z : α) :
    (match getWalletIndex ws c with
      | none => z
      | some idx =>
        match entryAt ws idx with
        | none => z
        | some e => k e) =
      match findEntry ws c with
      | none => z
      | some e => k e := by
  unfold findEntry
  cases getWalletIndex ws c <;> rfl

theorem findEntry_addBalance {d : Disk} (h : Healthy d) (c amount : Int) :
    findEntry (records (addBalance d c amount).disk) c =
      some (((findEntry (records d) c).map (creditEntry amount)).getD
        { zeroEntry c with Balance := amount }) := by
  rw [addBalance_records h]
  exact findEntry_upsert_same (records d) c _ _ (fun _ => rfl) rfl

theorem pendingOf_addBalance {d : Disk} (h : Healthy d) (c amount : Int) :
    pendingOf (addBalance d c amount).disk c = pendingOf d c := by
  unfold pendingOf
  rw [findEntry_addBalance h]
  cases findEntry (records d) c <;> simp [zeroEntry, creditEntry]

theorem getBalance_clearPendingPurchase {d : Disk} (h : Healthy d) (c : Int) :
    getBalance (clearPendingPurchase d c).disk c = getBalance d c := by
  rw [getBalance_eq, getBalance_eq, clearPendingPurchase_records h,
    findEntry_modify_same (records d) c clearEntry (fun _ => rfl)]
  cases findEntry (records d) c <;> simp [clearEntry]

theorem pendingOf_clearPendingPurchase {d : Disk} (h : Healthy d) (c : Int) :
    pendingOf (clearPendingPurchase d c).disk c = ("", 0) := by
  unfold pendingOf
  rw [clearPendingPurchase_records h,
    findEntry_modify_same (records d) c clearEntry (fun _ => rfl)]
  cases findEntry (records d) c <;> simp [clearEntry]

theorem createUser_maps (cfg : BotConfig) (w : World) (s : Bot) (chatID c : Int)
    (pw : String) (days : Int) :
    (createUser cfg w s chatID c pw days).tempUserData = s.tempUserData ∧
      (createUser cfg w s chatID c pw days).userStates = s.userStates ∧
      (createUser cfg w s chatID c pw days).gatewayLog = s.gatewayLog := by
  unfold createUser apiCall
  cases w.api s.apiLog { endpoint := "/user/create", password := pw, days := days } <;>
    exact ⟨rfl, rfl, rfl⟩

/-- The settlement of a confirmed top-up on a store that loads and saves, in terms of the
balance `b`, the amount `a` and the pending slot before the tick; `cur` is the balance that
the credit leaves and `req` the price that the code computes. -/
theorem settleTopup_effect (cfg : BotConfig) (w : World) (s : Bot) (c chatID : Int)
    (price : String) (h : Healthy s.disk) :
    let a := (Atoi price).getD 0
    let cur := addInt64 (getBalance s.disk c) a
    let pw := (pendingOf s.disk c).1
    let dd := (pendingOf s.disk c).2
    let req := mulInt64 dd cfg.DailyPrice
    let s' := settleTopup cfg w s c chatID price
    Healthy s'.disk ∧ s'.tempUserData = s.tempUserData ∧ s'.userStates = s.userStates ∧
    ((pw ≠ "" ∧ 0 < dd ∧ req ≤ cur) →
      getBalance s'.disk c = max 0 (subInt64 cur req) ∧ pendingOf s'.disk c = ("", 0) ∧
        s'.apiLog = s.apiLog ++ [{ endpoint := "/user/create", password := pw, days := dd }]) ∧
    (¬ (pw ≠ "" ∧ 0 < dd ∧ req ≤ cur) →
      getBalance s'.disk c = cur ∧ pendingOf s'.disk c = pendingOf s.disk c ∧
        s'.apiLog = s.apiLog) := by
  intro a cur pw dd req s'
  have h1 : Healthy (addBalance s.disk c a).disk := addBalance_healthy h c a
  have hb1 : getBalance (addBalance s.disk c a).disk c = cur := getBalance_addBalance h c a
  have hp1 : pendingOf (addBalance s.disk c a).disk c = pendingOf s.disk c :=
    pendingOf_addBalance h c a
  obtain ⟨e, he⟩ : ∃ e, findEntry (records (addBalance s.disk c a).disk) c = some e :=
    ⟨_, findEntry_addBalance h c a⟩
  have hpe : (e.PendingPassword, e.PendingDays) = pendingOf s.disk c := by
    rw [← hp1]; unfold pendingOf; rw [he]
  have hpw : e.PendingPassword = pw := congrArg Prod.fst hpe
  have hdd : e.PendingDays = dd := congrArg Prod.snd hpe
  have hs' : s' =
      if pw ≠ "" ∧ dd > 0 then
        if cur ≥ req then
          sendMessage
            (createUser cfg w
              { sendMessage { s with disk := (addBalance s.disk c a).disk } chatID
                  (.topupDone a cur) with
                disk := (clearPendingPurchase
                  (deductBalance (addBalance s.disk c a).disk c req).disk c).disk }
              chatID c pw dd) chatID
            (.autoPurchaseDone (getBalance (createUser cfg w
              { sendMessage { s with disk := (addBalance s.disk c a).disk } chatID
                  (.topupDone a cur) with
                disk := (clearPendingPurchase
                  (deductBalance (addBalance s.disk c a).disk c req).disk c).disk }
              chatID c pw dd).disk c))
        else sendMessage { s with disk := (addBalance s.disk c a).disk } chatID
          (.topupDone a cur)
      else sendMessage { s with disk := (addBalance s.disk c a).disk } chatID
        (.topupDone a cur) := by
    show settleTopup cfg w s c chatID price = _
    unfold settleTopup
    simp only [match_index_entry, sendMessage_disk]
    rw [show (loadWallets (addBalance s.disk c ((Atoi price).getD 0)).disk).getD []
        = records (addBalance s.disk c a).disk from rfl, he]
    simp only [hb1, hpw, hdd]
  by_cases hfit : pw ≠ "" ∧ 0 < dd ∧ req ≤ cur
  · have hcond : pw ≠ "" ∧ dd > 0 := ⟨hfit.1, hfit.2.1⟩
    have hge : cur ≥ req := hfit.2.2
    have h3 : Healthy (deductBalance (addBalance s.disk c a).disk c req).disk :=
      deductBalance_healthy h1 c _
    have h4 : Healthy (clearPendingPurchase
        (deductBalance (addBalance s.disk c a).disk c req).disk c).disk :=
      clearPendingPurchase_healthy h3 c
    have hb3 : getBalance (deductBalance (addBalance s.disk c a).disk c req).disk c
        = max 0 (subInt64 cur req) := by
      rw [getBalance_deductBalance h1, he, hb1]
      simp only [reduceCtorEq, if_false]
    have hcu := createUser_effect cfg w
      { sendMessage { s with disk := (addBalance s.disk c a).disk } chatID
          (.topupDone a cur) with
        disk := (clearPendingPurchase
          (deductBalance (addBalance s.disk c a).disk c req).disk c).disk }
      chatID c pw dd h4
    have hcm := createUser_maps cfg w
      { sendMessage { s with disk := (addBalance s.disk c a).disk } chatID
          (.topupDone a cur) with
        disk := (clearPendingPurchase
          (deductBalance (addBalance s.disk c a).disk c req).disk c).disk }
      chatID c pw dd
    rw [hs', if_pos hcond, if_pos hge]
    simp only [sendMessage_disk, sendMessage_apiLog, sendMessage_tempUserData,
      sendMessage_userStates]
    refine ⟨hcu.2.2.2, hcm.1, hcm.2.1, ?_, fun hn => absurd hfit hn⟩
    intro _
    exact ⟨hcu.2.1.trans ((getBalance_clearPendingPurchase h3 c).trans hb3),
      hcu.2.2.1.trans (pendingOf_clearPendingPurchase h3 c), hcu.1⟩
  · have hs2 : s' = sendMessage { s with disk := (addBalance s.disk c a).disk } chatID
        (.topupDone a cur) := by
      rw [hs']
      by_cases hcond : pw ≠ "" ∧ dd > 0
      · have hlt : ¬ cur ≥ req := fun hge => hfit ⟨hcond.1, hcond.2, hge⟩
        rw [if_pos hcond, if_neg hlt]
      · rw [if_neg hcond]
    rw [hs2]
    exact ⟨h1, rfl, rfl, fun hy => absurd hy hfit, fun _ => ⟨hb1, hp1, rfl⟩⟩

theorem checkSession_skip (cfg : BotConfig) (w : World) (s : Bot) (u : Int)
    (data : List (String × String)) (h : sessionConfirmed w data = false) :
    checkSession cfg w s u data = s := by
  unfold sessionConfirmed at h
  unfold checkSession
  cases ho : mapGet data "order_id" with
  | none => rfl
  | some oid =>
    rw [ho] at h
    dsimp only at h ⊢
    cases hst : w.checkStatus oid (strGet data "price") with
    | none => rfl
    | some st =>
      rw [hst] at h
      dsimp only at h ⊢
      rw [if_neg (by simpa using h)]

theorem checkSession_topup (cfg : BotConfig) (w : World) (s : Bot) (u : Int)
    (data : List (String × String)) (h : sessionConfirmed w data = true)
    (ha : strGet data "action" = "topup") :
    checkSession cfg w s u data =
      closeSession (settleTopup cfg w s u ((Atoi (strGet data "chat_id")).getD 0)
        (strGet data "price")) u := by
  unfold sessionConfirmed at h
  unfold checkSession
  cases ho : mapGet data "order_id" with
  | none => rw [ho] at h; exact absurd h Bool.false_ne_true
  | some oid =>
    rw [ho] at h
    dsimp only at h ⊢
    cases hst : w.checkStatus oid (strGet data "price") with
    | none => rw [hst] at h; exact absurd h Bool.false_ne_true
    | some st =>
      rw [hst] at h
      dsimp only at h ⊢
      rw [if_pos (by simpa using h), if_pos ha]
      rfl

theorem foldl_checkSession_skip (cfg : BotConfig) (w : World)
    (l : List (Int × List (String × String))) (s : Bot)
    (h : ∀ kv ∈ l, sessionConfirmed w kv.2 = false) :
    l.foldl (fun acc kv => checkSession cfg w acc kv.1 kv.2) s = s := by
  induction l with
  | nil => rfl
  | cons kv l ih =>
    rw [List.foldl_cons, checkSession_skip cfg w s kv.1 kv.2 (h kv (List.mem_cons_self _ _))]
    exact ih fun x hx => h x (List.mem_cons_of_mem _ hx)

/-- A tick in which the gateway confirms the session of `c` and no other entry runs the
loop body once, on that session. -/
theorem tick_one_confirmed (cfg : BotConfig) (w : World) (s : Bot) (c : Int)
    (data : List (String × String)) (pre post : List (Int × List (String × String)))
    (hreg : s.tempUserData = pre ++ (c, data) :: post)
    (hothers : ∀ kv ∈ pre ++ post, sessionConfirmed w kv.2 = false) :
    tick cfg w s = checkSession cfg w s c data := by
  unfold tick
  rw [hreg, List.foldl_append, List.foldl_cons,
    foldl_checkSession_skip cfg w pre s fun x hx => hothers x (List.mem_append_left _ hx)]
  exact foldl_checkSession_skip cfg w post _ fun x hx => hothers x (List.mem_append_right _ hx)

/-! ## Lemmas on the maps -/


theorem mapGet_mapSet_same {κ ν : Type} [DecidableEq κ] (m : List (κ × ν)) (k : κ) (v : ν) :
    mapGet (mapSet m k v) k = some v := by
  induction m with
  | nil => simp [mapSet, mapGet]
  | cons kv m ih =>
    obtain ⟨k0, v0⟩ := kv
    by_cases hk : k0 = k
    · simp [mapSet, mapGet, hk]
    · simp [mapSet, mapGet, hk, ih]

theorem mapGet_mapSet_ne {κ ν : Type} [DecidableEq κ] (m : List (κ × ν)) (k k' : κ) (v : ν)
    (h : k' ≠ k) : mapGet (mapSet m k v) k' = mapGet m k' := by
  induction m with
  | nil => simp [mapSet, mapGet, Ne.symm h]
  | cons kv m ih =>
    obtain ⟨k0, v0⟩ := kv
    by_cases hk : k0 = k
    · have : ¬ k = k' := Ne.symm h
      simp [mapSet, mapGet, hk, this]
    · simp only [mapSet, hk, if_false, mapGet, ih]

@[simp] theorem getTemp_sendMessage (s : Bot) (chatID : Int) (m : Msg) (u : Int) (k : String) :
    getTemp (sendMessage s chatID m) u k = getTemp s u k := rfl

/-! ## Lemmas on numerals -/

theorem parseDigits_append (xs ys : List Char) (acc : Nat) :
    parseDigits (xs ++ ys) acc = (parseDigits xs acc).bind (parseDigits ys) := by
  induction xs generalizing acc with
  | nil => rfl
  | cons c cs ih =>
    simp only [List.cons_append, parseDigits]
    cases digitVal c with
    | none => rfl
    | some v => exact ih _

theorem digitVal_digitChar (d : Nat) (h : d < 10) : digitVal (digitChar d) = some d := by
  interval_cases d <;> rfl

theorem decDigits_acc (fuel n : Nat) (acc : List Char) :
    decDigits fuel n acc = decDigits fuel n [] ++ acc := by
  induction fuel generalizing n acc with
  | zero => rfl
  | succ fuel ih =>
    simp only [decDigits]
    split
    · rfl
    · rw [ih (n / 10) (digitChar (n % 10) :: acc), ih (n / 10) [digitChar (n % 10)]]
      simp

theorem parseDigits_decDigits (fuel n : Nat) (h : n < fuel) :
    parseDigits (decDigits fuel n []) 0 = some n := by
  induction fuel generalizing n with
  | zero => omega
  | succ fuel ih =>
    simp only [decDigits]
    split
    · rename_i h0
      have hlt : n % 10 < 10 := Nat.mod_lt _ (by decide)
      simp only [parseDigits, digitVal_digitChar _ hlt]
      congr 1
      omega
    · rename_i h0
      have hlt : n % 10 < 10 := Nat.mod_lt _ (by decide)
      rw [decDigits_acc, parseDigits_append, ih (n / 10) (by omega)]
      simp only [Option.bind, parseDigits, digitVal_digitChar _ hlt]
      congr 1
      omega

theorem decDigits_ne_nil (fuel n : Nat) (acc : List Char) : decDigits (fuel + 1) n acc ≠ [] := by
  simp only [decDigits]
  split
  · simp
  · rw [decDigits_acc]; simp

theorem Atoi_natToDec (n : Nat) : Atoi (String.mk (natToDec n)) = some (n : Int) := by
  have hp : parseDigits (natToDec n) 0 = some n := parseDigits_decDigits (n + 1) n (by omega)
  have hne : natToDec n ≠ [] := decDigits_ne_nil n n []
  unfold Atoi
  cases hl : natToDec n with
  | nil => exact absurd hl hne
  | cons c cs =>
    rw [hl] at hp
    have hc : digitVal c ≠ none := by
      intro hnone
      simp [parseDigits, hnone] at hp
    have h1 : c ≠ '-' := by rintro rfl; exact hc (by decide)
    have h2 : c ≠ '+' := by rintro rfl; exact hc (by decide)
    simp only
    split
    · rename_i heq; simp at heq
    · rename_i heq; simp at heq; exact absurd heq.1 h1
    · rename_i heq; simp at heq; exact absurd heq.1 h2
    · simp [hp]

theorem Atoi_Itoa (x : Int) : Atoi (Itoa x) = some x := by
  unfold Itoa
  split
  · rename_i hneg
    have hp : parseDigits (natToDec x.natAbs) 0 = some x.natAbs :=
      parseDigits_decDigits (x.natAbs + 1) x.natAbs (by omega)
    have hne : natToDec x.natAbs ≠ [] := decDigits_ne_nil _ _ []
    unfold Atoi
    simp [hne, hp]
    rw [abs_of_neg hneg]
    omega
  · rename_i hpos
    rw [Atoi_natToDec]
    congr 1
    omega

/-- A top-up message with an amount of at least 5000 that the gateway accepts opens a session:
the customer's entry then holds the order id, the amount as a numeral and the action
`topup`, which is what the checker reads back. -/
theorem handleTopupAmount_opens_session (w : World) (s : Bot) (u chatID amt : Int)
    (text : String) (data : List (String × String)) (payment : PakasirPayment)
    (htext : Atoi text = some amt) (hamt : 5000 ≤ amt)
    (htemp : mapGet s.tempUserData u = some data)
    (hgw : w.createTransaction ("ZIVPN-TOPUP-" ++ Itoa u ++ "-" ++ Itoa w.nowUnix) amt
      = some payment) :
    ∃ s' data', handleTopupAmount w s u chatID text = some s' ∧
      mapGet s'.tempUserData u = some data' ∧
      mapGet data' "order_id" = some ("ZIVPN-TOPUP-" ++ Itoa u ++ "-" ++ Itoa w.nowUnix) ∧
      Atoi (strGet data' "price") = some amt ∧ strGet data' "action" = "topup" ∧
      s'.disk = s.disk := by
  have hlt : ¬ amt < 5000 := by omega
  simp only [handleTopupAmount, htext, if_neg hlt, hgw, setTemp, htemp, mapGet_mapSet_same]
  refine ⟨_, mapSet (mapSet (mapSet data "order_id"
      ("ZIVPN-TOPUP-" ++ Itoa u ++ "-" ++ Itoa w.nowUnix)) "price" (Itoa amt)) "action" "topup",
    rfl, ?_, ?_, ?_, ?_, rfl⟩
  · simp only [sendMessage_tempUserData, mapGet_mapSet_same]
  · rw [mapGet_mapSet_ne _ "action" "order_id" _ (by decide),
      mapGet_mapSet_ne _ "price" "order_id" _ (by decide), mapGet_mapSet_same]
  · unfold strGet
    rw [mapGet_mapSet_ne _ "action" "price" _ (by decide), mapGet_mapSet_same]
    exact Atoi_Itoa amt
  · unfold strGet
    rw [mapGet_mapSet_same]; rfl

/-! ## Lemmas on the purchase handler -/

theorem findEntry_setPendingPurchase {d : Disk} (h : Healthy d) (c : Int) (pw : String)
    (days : Int) :
    findEntry (records (setPendingPurchase d c pw days).disk) c =
      some (((findEntry (records d) c).map (pendingEntry pw days)).getD
        { zeroEntry c with PendingPassword := pw, PendingDays := days }) := by
  rw [setPendingPurchase_records h]
  exact findEntry_upsert_same (records d) c (pendingEntry pw days) _ (fun _ => rfl) rfl

theorem getBalance_setPendingPurchase {d : Disk} (h : Healthy d) (c : Int) (pw : String)
    (days : Int) : getBalance (setPendingPurchase d c pw days).disk c = getBalance d c := by
  rw [getBalance_eq, getBalance_eq, findEntry_setPendingPurchase h]
  cases findEntry (records d) c <;> simp [zeroEntry, pendingEntry]

theorem pendingOf_setPendingPurchase {d : Disk} (h : Healthy d) (c : Int) (pw : String)
    (days : Int) : pendingOf (setPendingPurchase d c pw days).disk c = (pw, days) := by
  unfold pendingOf
  rw [findEntry_setPendingPurchase h]
  cases findEntry (records d) c <;> simp [zeroEntry, pendingEntry]

/-! ## Lemmas on the trial handler -/

theorem validatePassword_ok (s : Bot) (chatID : Int) (text : String)
    (h : (validatePassword s chatID text).2 = true) : validatePassword s chatID text = (s, true) := by
  unfold validatePassword at h ⊢
  split
  · rename_i hlen; rw [if_pos hlen] at h; exact absurd h Bool.false_ne_true
  · rename_i hlen
    rw [if_neg hlen] at h
    split
    · rename_i hpat; rw [if_pos hpat] at h; exact absurd h Bool.false_ne_true
    · rfl

theorem validatePassword_fail (s : Bot) (chatID : Int) (text : String)
    (h : (validatePassword s chatID text).2 = false) :
    ∃ m, validatePassword s chatID text = (sendMessage s chatID m, false) := by
  unfold validatePassword at h ⊢
  split
  · exact ⟨_, rfl⟩
  · rename_i hlen
    rw [if_neg hlen] at h
    split
    · exact ⟨_, rfl⟩
    · rename_i hpat; rw [if_neg hpat] at h; exact absurd h.symm Bool.false_ne_true

theorem findEntry_markTrialUsed {d : Disk} (h : Healthy d) (c : Int) :
    findEntry (records (markTrialUsed d c).disk) c =
      some (((findEntry (records d) c).map trialEntry).getD
        { zeroEntry c with TrialUsed := true }) := by
  rw [markTrialUsed_records h]
  exact findEntry_upsert_same (records d) c trialEntry _ (fun _ => rfl) rfl

theorem getBalance_markTrialUsed {d : Disk} (h : Healthy d) (c : Int) :
    getBalance (markTrialUsed d c).disk c = getBalance d c := by
  rw [getBalance_eq, getBalance_eq, findEntry_markTrialUsed h]
  cases findEntry (records d) c <;> simp [zeroEntry, trialEntry]

theorem hasUsedTrial_markTrialUsed {d : Disk} (h : Healthy d) (c : Int) :
    hasUsedTrial (markTrialUsed d c).disk c = true := by
  rw [hasUsedTrial_eq, findEntry_markTrialUsed h]
  cases findEntry (records d) c <;> simp [zeroEntry, trialEntry]

/-- The refusal branch of the trial handler: nothing but the conversation state and the
outbox changes. -/
theorem handleTrialPassword_refused (cfg : BotConfig) (w : World) (s : Bot) (u chatID : Int)
    (text : String)
    (hgate : u ≠ cfg.AdminID ∧ getBalance s.disk u = 0 ∧ hasUsedTrial s.disk u = true) :
    (handleTrialPassword cfg w s u chatID text).apiLog = s.apiLog ∧
      (handleTrialPassword cfg w s u chatID text).disk = s.disk := by
  unfold handleTrialPassword
  cases hv : (validatePassword s chatID text).2 with
  | false =>
    obtain ⟨m, hm⟩ := validatePassword_fail s chatID text hv
    rw [hm]; exact ⟨rfl, rfl⟩
  | true =>
    rw [validatePassword_ok s chatID text hv]
    dsimp only
    rw [if_pos hgate]
    exact ⟨rfl, rfl⟩

theorem handleState_trial (cfg : BotConfig) (w : World) (s : Bot) (msg : Message) :
    handleState cfg w s msg "trial_password" =
      some (handleTrialPassword cfg w s msg.fromID msg.chatID (TrimSpace msg.text)) := by
  have hstate1 : ("trial_password" : String) ≠ "create_password" := by decide
  have hstate2 : ("trial_password" : String) ≠ "create_days" := by decide
  simp only [handleState, hstate1, hstate2, if_false, if_true]

/-- Once the gate is closed for `c`, further trial messages of `c` change neither the trace
of provisioning calls nor the disk. -/
theorem runTrialRequests_refused (cfg : BotConfig) (w : World) (c : Int) (ms : List Message)
    (s : Bot) (hfrom : ∀ m ∈ ms, m.fromID = c)
    (hgate : c ≠ cfg.AdminID ∧ getBalance s.disk c = 0 ∧ hasUsedTrial s.disk c = true) :
    ∃ sN, runTrialRequests cfg w s ms = some sN ∧ sN.apiLog = s.apiLog ∧ sN.disk = s.disk := by
  induction ms generalizing s with
  | nil => exact ⟨s, rfl, rfl, rfl⟩
  | cons m ms ih =>
    have hm : m.fromID = c := hfrom m (List.mem_cons_self _ _)
    have href := handleTrialPassword_refused cfg w s m.fromID m.chatID (TrimSpace m.text)
      (by rw [hm]; exact hgate)
    obtain ⟨sN, hrun, hlog, hdisk⟩ :=
      ih (handleTrialPassword cfg w s m.fromID m.chatID (TrimSpace m.text))
        (fun x hx => hfrom x (List.mem_cons_of_mem _ hx)) (by rw [href.2]; exact hgate)
    refine ⟨sN, ?_, hlog.trans href.1, hdisk.trans href.2⟩
    simp only [runTrialRequests, handleState_trial]
    exact hrun

/-! ## Lemmas on the sign of the balances -/

theorem forall_mem_upsert (P : WalletEntry → Prop) (ws : List WalletEntry) (c : Int)
    (f : WalletEntry → WalletEntry) (e : WalletEntry) (hws : ∀ x ∈ ws, P x)
    (hf : ∀ x, P x → P (f x)) (he : P e) : ∀ x ∈ upsert ws c f e, P x := by
  induction ws with
  | nil => intro x hx; simp [upsert_nil] at hx; subst hx; exact he
  | cons w ws ih =>
    have hw : P w := hws w (List.mem_cons_self _ _)
    have hrest : ∀ x ∈ ws, P x := fun x hx => hws x (List.mem_cons_of_mem _ hx)
    intro x hx
    rw [upsert_cons] at hx
    split at hx
    · rcases List.mem_cons.1 hx with h | h
      · subst h; exact hf w hw
      · exact hrest x h
    · rcases List.mem_cons.1 hx with h | h
      · subst h; exact hw
      · exact ih hrest x h

theorem forall_mem_modifyEntry (P : WalletEntry → Prop) (ws : List WalletEntry) (c : Int)
    (f : WalletEntry → WalletEntry) (hws : ∀ x ∈ ws, P x) (hf : ∀ x, P x → P (f x)) :
    ∀ x ∈ modifyEntry ws c f, P x := by
  induction ws with
  | nil => intro x hx; simp [modifyEntry_nil] at hx
  | cons w ws ih =>
    have hw : P w := hws w (List.mem_cons_self _ _)
    have hrest : ∀ x ∈ ws, P x := fun x hx => hws x (List.mem_cons_of_mem _ hx)
    intro x hx
    rw [modifyEntry_cons] at hx
    split at hx
    · rcases List.mem_cons.1 hx with h | h
      · subst h; exact hf w hw
      · exact hrest x h
    · rcases List.mem_cons.1 hx with h | h
      · subst h; exact hw
      · exact ih hrest x h

theorem mem_upsert_cases (ws : List WalletEntry) (c : Int) (f : WalletEntry → WalletEntry)
    (e : WalletEntry) : ∀ y ∈ upsert ws c f e, y ∈ ws ∨ (∃ x ∈ ws, y = f x) ∨ y = e := by
  induction ws with
  | nil => intro y hy; simp [upsert_nil] at hy; exact Or.inr (Or.inr hy)
  | cons w ws ih =>
    intro y hy
    rw [upsert_cons] at hy
    split at hy
    · rcases List.mem_cons.1 hy with h | h
      · exact Or.inr (Or.inl ⟨w, List.mem_cons_self _ _, h⟩)
      · exact Or.inl (List.mem_cons_of_mem _ h)
    · rcases List.mem_cons.1 hy with h | h
      · exact Or.inl (by rw [h]; exact List.mem_cons_self _ _)
      · rcases ih y h with h' | ⟨x, hx, h'⟩ | h'
        · exact Or.inl (List.mem_cons_of_mem _ h')
        · exact Or.inr (Or.inl ⟨x, List.mem_cons_of_mem _ hx, h'⟩)
        · exact Or.inr (Or.inr h')

/-- On a store that loads and saves, non-negative balances are kept by every ledger
operation, provided the amount given to `addBalance` is not negative and no sum leaves the
range of a Go integer. -/
theorem nonNegBalances_kept (d : Disk) (c : Int) (hd : Healthy d) (hnn : NonNegBalances d) :
    (∀ a, 0 ≤ a → (∀ e ∈ records d, e.Balance + a ≤ 9223372036854775807) →
      NonNegBalances (addBalance d c a).disk) ∧
    (∀ x, NonNegBalances (deductBalance d c x).disk) ∧
    NonNegBalances (markTrialUsed d c).disk ∧
    (∀ pw n, NonNegBalances (setPendingPurchase d c pw n).disk) ∧
    NonNegBalances (clearPendingPurchase d c).disk ∧
    NonNegBalances (incrementCreatedCount d c).disk := by
  unfold NonNegBalances at hnn ⊢
  refine ⟨?_, ?_, ?_, ?_, ?_, ?_⟩
  · intro a ha hfit
    rw [addBalance_records hd]
    intro y hy
    rcases mem_upsert_cases _ _ _ _ y hy with h | ⟨x, hx, rfl⟩ | rfl
    · exact hnn y h
    · have he : (creditEntry a x).Balance = x.Balance + a := by
        show addInt64 x.Balance a = x.Balance + a
        apply addInt64_exact
        have h0 := hnn x hx
        have h1 := hfit x hx
        unfold inInt64
        omega
      rw [he]
      have h0 := hnn x hx
      omega
    · exact ha
  · intro x
    rw [deductBalance_records hd]
    refine forall_mem_modifyEntry _ _ _ _ hnn fun e _ => ?_
    unfold debitEntry
    dsimp only
    split
    · exact le_refl _
    · rename_i h; exact not_lt.mp h
  · rw [markTrialUsed_records hd]
    exact forall_mem_upsert _ _ _ _ _ hnn (fun _ hx => hx) (le_refl _)
  · intro pw n
    rw [setPendingPurchase_records hd]
    exact forall_mem_upsert _ _ _ _ _ hnn (fun _ hx => hx) (le_refl _)
  · rw [clearPendingPurchase_records hd]
    exact forall_mem_modifyEntry _ _ _ _ hnn (fun _ hx => hx)
  · rw [incrementCreatedCount_records hd]
    exact forall_mem_upsert _ _ _ _ _ hnn (fun _ hx => hx) (le_refl _)

/-! ## Lemmas on ledger calls, for any disk -/

theorem saveWallets_unwritable {d : Disk} (h : d.walletWritable = false)
    (ws : List WalletEntry) : (saveWallets d ws).disk = d := by
  simp [saveWallets, h]

theorem runCall_unhealthy {d : Disk} (h : ¬ Healthy d) (c : Int) (call : LedgerCall) :
    (runCall d c call).disk = d := by
  unfold Healthy at h
  cases hl : loadWallets d with
  | none =>
    cases call <;>
      simp [runCall, addBalance, deductBalance, markTrialUsed, setPendingPurchase,
        clearPendingPurchase, incrementCreatedCount, hl]
  | some ws =>
    have hw : d.walletWritable = false := by
      cases hw : d.walletWritable with
      | false => rfl
      | true => exact absurd ⟨by rw [hl]; simp, hw⟩ h
    cases call <;>
      simp only [runCall, addBalance, deductBalance, markTrialUsed, setPendingPurchase,
        clearPendingPurchase, incrementCreatedCount, hl] <;>
      split <;> first | rfl | exact saveWallets_unwritable hw _

theorem runCall_healthy_records {d : Disk} (h : Healthy d) (c : Int) (call : LedgerCall) :
    records (runCall d c call).disk = callRecords (records d) c call := by
  cases call with
  | add a => exact addBalance_records h c a
  | deduct x => exact deductBalance_records h c x
  | markTrial => exact markTrialUsed_records h c
  | setPending pw n => exact setPendingPurchase_records h c pw n
  | clearPending => exact clearPendingPurchase_records h c
  | incCount => exact incrementCreatedCount_records h c

/-- What a ledger call leaves in the wallet file: the records it loaded, or those with the
update of the call applied. -/
theorem runCall_records (d : Disk) (c : Int) (call : LedgerCall) :
    records (runCall d c call).disk = records d ∨
      records (runCall d c call).disk = callRecords (records d) c call := by
  by_cases h : Healthy d
  · exact Or.inr (runCall_healthy_records h c call)
  · exact Or.inl (by rw [runCall_unhealthy h])

theorem callUpdate_id (call : LedgerCall) (x : WalletEntry) :
    (callUpdate call x).TelegramID = x.TelegramID := by
  cases call <;> first | rfl | exact debitEntry_id _ x

theorem callFresh_id (c : Int) (call : LedgerCall) (e : WalletEntry)
    (h : callFresh c call = some e) : e.TelegramID = c := by
  cases call <;> simp [callFresh] at h <;> subst h <;> rfl

theorem findEntry_callRecords_other (ws : List WalletEntry) (u c : Int) (call : LedgerCall)
    (hc : c ≠ u) : findEntry (callRecords ws u call) c = findEntry ws c := by
  unfold callRecords
  cases hf : callFresh u call with
  | none => exact findEntry_modify_other ws u c _ (callUpdate_id call) hc
  | some e =>
    exact findEntry_upsert_other ws u c _ e (callUpdate_id call) (callFresh_id u call e hf) hc

theorem findEntry_callRecords_same (ws : List WalletEntry) (c : Int) (call : LedgerCall)
    (e : WalletEntry) (h : findEntry ws c = some e) :
    findEntry (callRecords ws c call) c = some (callUpdate call e) := by
  unfold callRecords
  cases hf : callFresh c call with
  | none =>
    dsimp only
    rw [findEntry_modify_same ws c _ (callUpdate_id call), h]; rfl
  | some e0 =>
    dsimp only
    rw [findEntry_upsert_same ws c _ e0 (callUpdate_id call) (callFresh_id c call e0 hf), h]; rfl

/-- A ledger call on customer `u` leaves the record of every other customer as it was. -/
theorem findEntry_runCall_other (d : Disk) (u c : Int) (call : LedgerCall) (hc : c ≠ u) :
    findEntry (records (runCall d u call).disk) c = findEntry (records d) c := by
  rcases runCall_records d u call with h | h
  · rw [h]
  · rw [h]; exact findEntry_callRecords_other _ u c call hc

/-! ## Invariants of the record list -/

theorem callRecords_forall (P : WalletEntry → Prop) (ws : List WalletEntry) (c : Int)
    (call : LedgerCall) (hws : ∀ x ∈ ws, P x) (hf : ∀ x, P x → P (callUpdate call x))
    (he : ∀ e, callFresh c call = some e → P e) : ∀ x ∈ callRecords ws c call, P x := by
  unfold callRecords
  cases hfr : callFresh c call with
  | none => exact forall_mem_modifyEntry P ws c _ hws hf
  | some e => exact forall_mem_upsert P ws c _ e hws hf (he e hfr)

theorem getWalletIndex_none_iff_not_mem (ws : List WalletEntry) (c : Int) :
    getWalletIndex ws c = none ↔ c ∉ ws.map (·.TelegramID) := by
  induction ws with
  | nil => simp [getWalletIndex]
  | cons w ws ih =>
    by_cases hw : w.TelegramID = c
    · simp [getWalletIndex, hw]
    · have hne : ¬ c = w.TelegramID := fun h => hw h.symm
      simp only [getWalletIndex, hw, if_false, Option.map_eq_none', ih, List.map_cons,
        List.mem_cons, hne, false_or]

theorem map_id_modifyEntry (ws : List WalletEntry) (c : Int) (f : WalletEntry → WalletEntry)
    (hf : ∀ x, (f x).TelegramID = x.TelegramID) :
    (modifyEntry ws c f).map (·.TelegramID) = ws.map (·.TelegramID) := by
  induction ws with
  | nil => rfl
  | cons w ws ih =>
    rw [modifyEntry_cons]
    split
    · simp [hf]
    · simp [ih]

theorem map_id_upsert (ws : List WalletEntry) (c : Int) (f : WalletEntry → WalletEntry)
    (e : WalletEntry) (hf : ∀ x, (f x).TelegramID = x.TelegramID) (he : e.TelegramID = c) :
    (upsert ws c f e).map (·.TelegramID) =
      if c ∈ ws.map (·.TelegramID) then ws.map (·.TelegramID)
      else ws.map (·.TelegramID) ++ [c] := by
  induction ws with
  | nil => simp [upsert_nil, he]
  | cons w ws ih =>
    rw [upsert_cons]
    by_cases hw : w.TelegramID = c
    · simp [hw, hf]
    · have hne : ¬ c = w.TelegramID := fun h => hw h.symm
      simp only [hw, if_false, List.map_cons, ih, List.mem_cons, hne, false_or]
      split <;> simp

theorem nodup_ids_callRecords (ws : List WalletEntry) (c : Int) (call : LedgerCall)
    (h : (ws.map (·.TelegramID)).Nodup) : ((callRecords ws c call).map (·.TelegramID)).Nodup := by
  unfold callRecords
  cases hfr : callFresh c call with
  | none =>
    dsimp only
    rw [map_id_modifyEntry ws c _ (callUpdate_id call)]; exact h
  | some e =>
    dsimp only
    rw [map_id_upsert ws c _ e (callUpdate_id call) (callFresh_id c call e hfr)]
    split
    · exact h
    · rename_i hnot
      exact List.Nodup.append h (List.nodup_singleton c) (by simpa using hnot)

theorem nodup_ids_upsert (ws : List WalletEntry) (c : Int) (f : WalletEntry → WalletEntry)
    (e : WalletEntry) (hf : ∀ x, (f x).TelegramID = x.TelegramID) (he : e.TelegramID = c)
    (h : (ws.map (·.TelegramID)).Nodup) : ((upsert ws c f e).map (·.TelegramID)).Nodup := by
  rw [map_id_upsert ws c f e hf he]
  split
  · exact h
  · rename_i hnot
    exact List.Nodup.append h (List.nodup_singleton c) (by simpa using hnot)

/-- Positions are kept by an in-place update: the record at each index keeps its id, and is
the same record unless it is the one found for `c`. -/
theorem entryAt_modifyEntry (ws : List WalletEntry) (c : Int) (f : WalletEntry → WalletEntry)
    (hf : ∀ x, (f x).TelegramID = x.TelegramID) (i : Nat) :
    (∀ x, entryAt ws i = some x →
      ∃ x', entryAt (modifyEntry ws c f) i = some x' ∧ x'.TelegramID = x.TelegramID ∧
        (x.TelegramID ≠ c → x' = x)) ∧
    (entryAt ws i = none → entryAt (modifyEntry ws c f) i = none) := by
  induction ws generalizing i with
  | nil => simp [modifyEntry_nil, entryAt]
  | cons w ws ih =>
    rw [modifyEntry_cons]
    by_cases hw : w.TelegramID = c
    · rw [if_pos hw]
      cases i with
      | zero =>
        refine ⟨fun x hx => ?_, fun hx => by simp [entryAt] at hx⟩
        simp only [entryAt, Option.some.injEq] at hx
        subst hx
        exact ⟨f w, rfl, hf w, fun hne => absurd hw hne⟩
      | succ i => exact ⟨fun x hx => ⟨x, hx, rfl, fun _ => rfl⟩, fun hx => hx⟩
    · rw [if_neg hw]
      cases i with
      | zero =>
        refine ⟨fun x hx => ?_, fun hx => by simp [entryAt] at hx⟩
        simp only [entryAt, Option.some.injEq] at hx
        subst hx
        exact ⟨w, rfl, rfl, fun _ => rfl⟩
      | succ i => exact ih i

theorem entryAt_append_singleton (ws : List WalletEntry) (e : WalletEntry) (i : Nat) :
    (∀ x, entryAt ws i = some x → entryAt (ws ++ [e]) i = some x) ∧
    (entryAt ws i = none → ∀ x', entryAt (ws ++ [e]) i = some x' → x' = e) := by
  induction ws generalizing i with
  | nil =>
    cases i with
    | zero => simp [entryAt]
    | succ i => simp [entryAt]
  | cons w ws ih =>
    cases i with
    | zero => simp [entryAt]
    | succ i => simpa [entryAt] using ih i

theorem entryAt_upsert (ws : List WalletEntry) (c : Int) (f : WalletEntry → WalletEntry)
    (e : WalletEntry) (hf : ∀ x, (f x).TelegramID = x.TelegramID) (i : Nat) :
    (∀ x, entryAt ws i = some x →
      ∃ x', entryAt (upsert ws c f e) i = some x' ∧ x'.TelegramID = x.TelegramID ∧
        (x.TelegramID ≠ c → x' = x)) ∧
    (entryAt ws i = none → ∀ x', entryAt (upsert ws c f e) i = some x' → x' = e) := by
  cases hi : getWalletIndex ws c with
  | none =>
    have hu : upsert ws c f e = ws ++ [e] := by simp [upsert, hi]
    rw [hu]
    exact ⟨fun x hx => ⟨x, (entryAt_append_singleton ws e i).1 x hx, rfl, fun _ => rfl⟩,
      (entryAt_append_singleton ws e i).2⟩
  | some idx =>
    have hu : upsert ws c f e = modifyEntry ws c f := by simp [upsert, modifyEntry, hi]
    rw [hu]
    refine ⟨(entryAt_modifyEntry ws c f hf i).1, fun hn x' hx' => ?_⟩
    rw [(entryAt_modifyEntry ws c f hf i).2 hn] at hx'
    exact absurd hx' (by simp)

/-- Positions are kept by a ledger call; a record that was not there before is the customer's. -/
theorem entryAt_callRecords (ws : List WalletEntry) (c : Int) (call : LedgerCall) (i : Nat) :
    (∀ x, entryAt ws i = some x →
      ∃ x', entryAt (callRecords ws c call) i = some x' ∧ x'.TelegramID = x.TelegramID ∧
        (x.TelegramID ≠ c → x' = x)) ∧
    (entryAt ws i = none → ∀ x', entryAt (callRecords ws c call) i = some x' →
      x'.TelegramID = c) := by
  unfold callRecords
  cases hfr : callFresh c call with
  | none =>
    refine ⟨(entryAt_modifyEntry ws c _ (callUpdate_id call) i).1, fun hn x' hx' => ?_⟩
    dsimp only at hx'
    rw [(entryAt_modifyEntry ws c _ (callUpdate_id call) i).2 hn] at hx'
    exact absurd hx' (by simp)
  | some e =>
    refine ⟨(entryAt_upsert ws c _ e (callUpdate_id call) i).1, fun hn x' hx' => ?_⟩
    rw [(entryAt_upsert ws c _ e (callUpdate_id call) i).2 hn x' hx']
    exact callFresh_id c call e hfr

/-! ## Lemmas on the admin ban and unban handlers -/

theorem saveWallets_records_cases (d : Disk) (ws : List WalletEntry) :
    records (saveWallets d ws).disk = records d ∨ records (saveWallets d ws).disk = ws := by
  unfold saveWallets
  cases d.walletWritable with
  | false => exact Or.inl rfl
  | true => exact Or.inr rfl

theorem handleAdminBan_records (cfg : BotConfig) (s : Bot) (userID chatID : Int)
    (text : String) :
    records (handleAdminBan cfg s userID chatID text).disk = records s.disk ∨
      ∃ tid, records (handleAdminBan cfg s userID chatID text).disk =
        upsert (records s.disk) tid banEntry { zeroEntry tid with Banned := true } := by
  unfold handleAdminBan
  split
  · exact Or.inl rfl
  · cases Atoi text with
    | none => exact Or.inl rfl
    | some tid =>
      dsimp only
      rcases saveWallets_records_cases s.disk
        (upsert (records s.disk) tid banEntry { zeroEntry tid with Banned := true }) with h | h
      · exact Or.inl h
      · exact Or.inr ⟨tid, h⟩

theorem handleAdminUnban_records (cfg : BotConfig) (s : Bot) (userID chatID : Int)
    (text : String) :
    records (handleAdminUnban cfg s userID chatID text).disk = records s.disk ∨
      ∃ tid, records (handleAdminUnban cfg s userID chatID text).disk =
        modifyEntry (records s.disk) tid unbanEntry := by
  unfold handleAdminUnban
  split
  · exact Or.inl rfl
  · cases Atoi text with
    | none => exact Or.inl rfl
    | some tid =>
      dsimp only
      cases hi : getWalletIndex ((loadWallets s.disk).getD []) tid with
      | none => exact Or.inl rfl
      | some idx =>
        dsimp only
        rcases saveWallets_records_cases s.disk
          (updateAt (records s.disk) idx unbanEntry) with h | h
        · exact Or.inl h
        · refine Or.inr ⟨tid, ?_⟩
          rw [show modifyEntry (records s.disk) tid unbanEntry
              = updateAt (records s.disk) idx unbanEntry from by
            unfold modifyEntry; rw [show getWalletIndex (records s.disk) tid = some idx from hi]]
          exact h

/-! ## Lemmas on the trial flag -/

theorem hasUsedTrial_true_iff (d : Disk) (c : Int) :
    hasUsedTrial d c = true ↔ ∃ e, findEntry (records d) c = some e ∧ e.TrialUsed = true := by
  rw [hasUsedTrial_eq]
  cases findEntry (records d) c <;> simp

theorem trialUsed_upsert (ws : List WalletEntry) (u c : Int) (f : WalletEntry → WalletEntry)
    (e0 : WalletEntry) (hf : ∀ x, (f x).TelegramID = x.TelegramID) (he : e0.TelegramID = u)
    (hkeep : ∀ x, x.TrialUsed = true → (f x).TrialUsed = true)
    (h : ∃ e, findEntry ws c = some e ∧ e.TrialUsed = true) :
    ∃ e, findEntry (upsert ws u f e0) c = some e ∧ e.TrialUsed = true := by
  obtain ⟨e, hfe, ht⟩ := h
  by_cases hc : c = u
  · subst hc
    refine ⟨f e, ?_, hkeep e ht⟩
    rw [findEntry_upsert_same ws c f e0 hf he, hfe]; rfl
  · exact ⟨e, by rw [findEntry_upsert_other ws u c f e0 hf he hc]; exact hfe, ht⟩

theorem trialUsed_modifyEntry (ws : List WalletEntry) (u c : Int)
    (f : WalletEntry → WalletEntry) (hf : ∀ x, (f x).TelegramID = x.TelegramID)
    (hkeep : ∀ x, x.TrialUsed = true → (f x).TrialUsed = true)
    (h : ∃ e, findEntry ws c = some e ∧ e.TrialUsed = true) :
    ∃ e, findEntry (modifyEntry ws u f) c = some e ∧ e.TrialUsed = true := by
  obtain ⟨e, hfe, ht⟩ := h
  by_cases hc : c = u
  · subst hc
    refine ⟨f e, ?_, hkeep e ht⟩
    rw [findEntry_modify_same ws c f hf, hfe]; rfl
  · exact ⟨e, by rw [findEntry_modify_other ws u c f hf hc]; exact hfe, ht⟩

theorem callUpdate_trialUsed (call : LedgerCall) (x : WalletEntry) (h : x.TrialUsed = true) :
    (callUpdate call x).TrialUsed = true := by
  cases call with
  | deduct a => unfold callUpdate debitEntry; dsimp only; split <;> exact h
  | markTrial => rfl
  | add a => exact h
  | setPending pw n => exact h
  | clearPending => exact h
  | incCount => exact h

theorem handleState_ban (cfg : BotConfig) (w : World) (s : Bot) (msg : Message) :
    handleState cfg w s msg "admin_ban_input" =
      some (handleAdminBan cfg s msg.fromID msg.chatID (TrimSpace msg.text)) := by
  simp only [handleState]
  rw [if_neg (by decide), if_neg (by decide), if_neg (by decide), if_neg (by decide),
    if_neg (by decide), if_neg (by decide), if_neg (by decide), if_neg (by decide),
    if_pos trivial]

theorem handleState_unban (cfg : BotConfig) (w : World) (s : Bot) (msg : Message) :
    handleState cfg w s msg "admin_unban_input" =
      some (handleAdminUnban cfg s msg.fromID msg.chatID (TrimSpace msg.text)) := by
  simp only [handleState]
  rw [if_neg (by decide), if_neg (by decide), if_neg (by decide), if_neg (by decide),
    if_neg (by decide), if_neg (by decide), if_neg (by decide), if_neg (by decide),
    if_neg (by decide), if_pos trivial]

theorem pendingWF_callUpdate (call : LedgerCall) (hval : call.validated) (x : WalletEntry)
    (h : x.PendingPassword = "" ↔ x.PendingDays = 0) :
    ((callUpdate call x).PendingPassword = "" ↔ (callUpdate call x).PendingDays = 0) := by
  cases call with
  | deduct a => unfold callUpdate debitEntry; dsimp only; split <;> exact h
  | setPending pw n =>
    have hv : pw ≠ "" ∧ 1 ≤ n := hval
    show (pw = "" ↔ n = 0)
    constructor
    · intro hp; exact absurd hp hv.1
    · intro hn; omega
  | clearPending => exact ⟨fun _ => rfl, fun _ => rfl⟩
  | add a => exact h
  | markTrial => exact h
  | incCount => exact h

theorem pendingWF_callFresh (c : Int) (call : LedgerCall) (hval : call.validated)
    (e : WalletEntry) (he : callFresh c call = some e) :
    (e.PendingPassword = "" ↔ e.PendingDays = 0) := by
  cases call with
  | setPending pw n =>
    have hv : pw ≠ "" ∧ 1 ≤ n := hval
    simp only [callFresh, Option.some.injEq] at he
    subst he
    show (pw = "" ↔ n = 0)
    constructor
    · intro hp; exact absurd hp hv.1
    · intro hn; omega
  | deduct a => simp [callFresh] at he
  | clearPending => simp [callFresh] at he
  | add a =>
    simp only [callFresh, Option.some.injEq] at he
    subst he; exact ⟨fun _ => rfl, fun _ => rfl⟩
  | markTrial =>
    simp only [callFresh, Option.some.injEq] at he
    subst he; exact ⟨fun _ => rfl, fun _ => rfl⟩
  | incCount =>
    simp only [callFresh, Option.some.injEq] at he
    subst he; exact ⟨fun _ => rfl, fun _ => rfl⟩

/-! ## Lemmas on the checker, for any disk and any registry -/

theorem mapGet_mapDelete_ne {κ ν : Type} [DecidableEq κ] (m : List (κ × ν)) (k k' : κ)
    (h : k' ≠ k) : mapGet (mapDelete m k) k' = mapGet m k' := by
  induction m with
  | nil => rfl
  | cons kv m ih =>
    obtain ⟨k0, v0⟩ := kv
    have ih' : mapGet (m.filter fun kv => decide (kv.1 ≠ k)) k' = mapGet m k' := ih
    show mapGet (((k0, v0) :: m).filter fun kv => decide (kv.1 ≠ k)) k' = mapGet ((k0, v0) :: m) k'
    by_cases hk : k0 = k
    · have hne : ¬ k0 = k' := by rw [hk]; exact fun h' => h h'.symm
      rw [List.filter_cons_of_neg (by simp [hk])]
      simp only [mapGet, hne, if_false]
      exact ih'
    · rw [List.filter_cons_of_pos (by simp [hk])]
      simp only [mapGet]
      rw [ih']

theorem mem_mapDelete {κ ν : Type} [DecidableEq κ] (m : List (κ × ν)) (k : κ) (kv : κ × ν)
    (h : kv ∈ mapDelete m k) : kv ∈ m ∧ kv.1 ≠ k := by
  unfold mapDelete at h
  simpa using h

theorem mapGet_none_of_no_key {κ ν : Type} [DecidableEq κ] (m : List (κ × ν)) (k : κ)
    (h : ∀ kv ∈ m, kv.1 ≠ k) : mapGet m k = none := by
  induction m with
  | nil => rfl
  | cons kv m ih =>
    obtain ⟨k0, v0⟩ := kv
    have h0 : k0 ≠ k := h (k0, v0) (List.mem_cons_self _ _)
    simp only [mapGet, h0, if_false]
    exact ih fun x hx => h x (List.mem_cons_of_mem _ hx)

theorem findEntry_addBalance_other (d : Disk) (u c a : Int) (hc : c ≠ u) :
    findEntry (records (addBalance d u a).disk) c = findEntry (records d) c :=
  findEntry_runCall_other d u c (.add a) hc

theorem findEntry_deductBalance_other (d : Disk) (u c x : Int) (hc : c ≠ u) :
    findEntry (records (deductBalance d u x).disk) c = findEntry (records d) c :=
  findEntry_runCall_other d u c (.deduct x) hc

theorem findEntry_clearPendingPurchase_other (d : Disk) (u c : Int) (hc : c ≠ u) :
    findEntry (records (clearPendingPurchase d u).disk) c = findEntry (records d) c :=
  findEntry_runCall_other d u c .clearPending hc

theorem findEntry_incrementCreatedCount_other (d : Disk) (u c : Int) (hc : c ≠ u) :
    findEntry (records (incrementCreatedCount d u).disk) c = findEntry (records d) c :=
  findEntry_runCall_other d u c .incCount hc

theorem createUser_frame (cfg : BotConfig) (w : World) (s : Bot) (chatID u c : Int)
    (pw : String) (days : Int) (hc : c ≠ u) :
    findEntry (records (createUser cfg w s chatID u pw days).disk) c
      = findEntry (records s.disk) c := by
  unfold createUser apiCall
  cases w.api s.apiLog { endpoint := "/user/create", password := pw, days := days } with
  | error => rfl
  | refused m => rfl
  | success p e =>
    show findEntry (records (appendMetric (incrementCreatedCount s.disk u).disk u
      w.nowStamp).disk) c = _
    rw [appendMetric_records]
    exact findEntry_incrementCreatedCount_other s.disk u c hc

theorem settleTopup_maps (cfg : BotConfig) (w : World) (s : Bot) (u chatID : Int)
    (price : String) :
    (settleTopup cfg w s u chatID price).tempUserData = s.tempUserData ∧
      (settleTopup cfg w s u chatID price).userStates = s.userStates := by
  unfold settleTopup
  dsimp only
  split
  · exact ⟨rfl, rfl⟩
  · split
    · exact ⟨rfl, rfl⟩
    · split
      · split
        · simp only [sendMessage_tempUserData, sendMessage_userStates]
          exact ⟨(createUser_maps cfg w _ chatID u _ _).1, (createUser_maps cfg w _ chatID u _ _).2.1⟩
        · exact ⟨rfl, rfl⟩
      · exact ⟨rfl, rfl⟩

theorem settleBuyAccount_maps (cfg : BotConfig) (w : World) (s : Bot) (u chatID : Int)
    (data : List (String × String)) :
    (settleBuyAccount cfg w s u chatID data).tempUserData = s.tempUserData ∧
      (settleBuyAccount cfg w s u chatID data).userStates = s.userStates := by
  unfold settleBuyAccount
  dsimp only
  split
  · exact ⟨(createUser_maps cfg w _ chatID u _ _).1, (createUser_maps cfg w _ chatID u _ _).2.1⟩
  · exact ⟨rfl, rfl⟩

theorem settleTopup_frame (cfg : BotConfig) (w : World) (s : Bot) (u chatID c : Int)
    (price : String) (hc : c ≠ u) :
    findEntry (records (settleTopup cfg w s u chatID price).disk) c
      = findEntry (records s.disk) c := by
  have h1 : findEntry (records (addBalance s.disk u ((Atoi price).getD 0)).disk) c
      = findEntry (records s.disk) c :=
    findEntry_addBalance_other s.disk u c _ hc
  unfold settleTopup
  dsimp only
  split
  · exact h1
  · split
    · exact h1
    · split
      · split
        · simp only [sendMessage_disk]
          rw [createUser_frame cfg w _ chatID u c _ _ hc]
          dsimp only
          rw [findEntry_clearPendingPurchase_other _ u c hc,
            findEntry_deductBalance_other _ u c _ hc]
          exact h1
        · exact h1
      · exact h1

theorem settleBuyAccount_frame (cfg : BotConfig) (w : World) (s : Bot) (u chatID c : Int)
    (data : List (String × String)) (hc : c ≠ u) :
    findEntry (records (settleBuyAccount cfg w s u chatID data).disk) c
      = findEntry (records s.disk) c := by
  unfold settleBuyAccount
  dsimp only
  split
  · rw [createUser_frame cfg w _ chatID u c _ _ hc]
    exact findEntry_deductBalance_other s.disk u c _ hc
  · rfl

/-- The literal condition of the checker and `sessionConfirmed` agree. -/
theorem sessionConfirmed_iff (w : World) (data : List (String × String)) :
    sessionConfirmed w data = true ↔
      ∃ oid st, mapGet data "order_id" = some oid ∧
        w.checkStatus oid (strGet data "price") = some st ∧
        (st = "completed" ∨ st = "success") := by
  unfold sessionConfirmed
  cases mapGet data "order_id" with
  | none => simp
  | some oid =>
    cases hst : w.checkStatus oid (strGet data "price") with
    | none => simp [hst]
    | some st => simp [hst]

/-- The loop body on a confirmed entry: one of the two settlements (or nothing, for an
unknown action), then the two `delete` statements. -/
theorem checkSession_confirmed (cfg : BotConfig) (w : World) (s : Bot) (u : Int)
    (data : List (String × String)) (h : sessionConfirmed w data = true) :
    checkSession cfg w s u data =
      closeSession
        (if strGet data "action" = "topup" then
          settleTopup cfg w s u ((Atoi (strGet data "chat_id")).getD 0) (strGet data "price")
        else if strGet data "action" = "buy_account" then
          settleBuyAccount cfg w s u ((Atoi (strGet data "chat_id")).getD 0) data
        else s) u := by
  obtain ⟨oid, st, ho, hst, hok⟩ := (sessionConfirmed_iff w data).1 h
  unfold checkSession
  rw [ho]
  dsimp only
  rw [hst]
  dsimp only
  rw [if_pos hok]
  rfl

theorem checkSession_temp (cfg : BotConfig) (w : World) (s : Bot) (u : Int)
    (data : List (String × String)) :
    (checkSession cfg w s u data).tempUserData =
      if sessionConfirmed w data = true then mapDelete s.tempUserData u
      else s.tempUserData := by
  cases h : sessionConfirmed w data with
  | false => rw [checkSession_skip cfg w s u data h]; rfl
  | true =>
    rw [checkSession_confirmed cfg w s u data h, if_pos rfl]
    show mapDelete _ u = _
    split
    · rw [(settleTopup_maps cfg w s u _ _).1]
    · split
      · rw [(settleBuyAccount_maps cfg w s u _ _).1]
      · rfl

theorem checkSession_frame (cfg : BotConfig) (w : World) (s : Bot) (u c : Int)
    (data : List (String × String)) (hc : c ≠ u) :
    findEntry (records (checkSession cfg w s u data).disk) c = findEntry (records s.disk) c := by
  cases h : sessionConfirmed w data with
  | false => rw [checkSession_skip cfg w s u data h]
  | true =>
    rw [checkSession_confirmed cfg w s u data h, closeSession_disk]
    split
    · exact settleTopup_frame cfg w s u _ c _ hc
    · split
      · exact settleBuyAccount_frame cfg w s u _ c data hc
      · rfl

/-- Entries of other customers, and unconfirmed entries, leave the registry entry and the
wallet record of `c` as they are, whatever the loop does for them. -/
theorem foldl_checkSession_untouched (cfg : BotConfig) (w : World) (c : Int)
    (l : List (Int × List (String × String))) (s : Bot)
    (h : ∀ kv ∈ l, kv.1 ≠ c ∨ sessionConfirmed w kv.2 = false) :
    mapGet (l.foldl (fun acc kv => checkSession cfg w acc kv.1 kv.2) s).tempUserData c
        = mapGet s.tempUserData c ∧
      findEntry (records (l.foldl (fun acc kv => checkSession cfg w acc kv.1 kv.2) s).disk) c
        = findEntry (records s.disk) c := by
  induction l generalizing s with
  | nil => exact ⟨rfl, rfl⟩
  | cons kv l ih =>
    rw [List.foldl_cons]
    have ih' := ih (checkSession cfg w s kv.1 kv.2) fun x hx => h x (List.mem_cons_of_mem _ hx)
    rcases h kv (List.mem_cons_self _ _) with hk | hk
    · refine ⟨ih'.1.trans ?_, ih'.2.trans (checkSession_frame cfg w s kv.1 c kv.2 hk.symm)⟩
      rw [checkSession_temp]
      split
      · exact mapGet_mapDelete_ne _ _ _ hk.symm
      · rfl
    · rw [checkSession_skip cfg w s kv.1 kv.2 hk] at ih' ⊢
      exact ih'

theorem foldl_checkSession_subset (cfg : BotConfig) (w : World)
    (l : List (Int × List (String × String))) (s : Bot) :
    ∀ kv ∈ (l.foldl (fun acc kv => checkSession cfg w acc kv.1 kv.2) s).tempUserData,
      kv ∈ s.tempUserData := by
  induction l generalizing s with
  | nil => exact fun kv hkv => hkv
  | cons x l ih =>
    rw [List.foldl_cons]
    intro kv hkv
    have hmem := ih (checkSession cfg w s x.1 x.2) kv hkv
    rw [checkSession_temp] at hmem
    split at hmem
    · exact (mem_mapDelete _ _ _ hmem).1
    · exact hmem

theorem foldl_checkSession_removed (cfg : BotConfig) (w : World) (c : Int)
    (data : List (String × String)) (l : List (Int × List (String × String))) (s : Bot)
    (hmem : (c, data) ∈ l) (hconf : sessionConfirmed w data = true) :
    ∀ kv ∈ (l.foldl (fun acc kv => checkSession cfg w acc kv.1 kv.2) s).tempUserData,
      kv.1 ≠ c := by
  induction l generalizing s with
  | nil => simp at hmem
  | cons x l ih =>
    rw [List.foldl_cons]
    rcases List.mem_cons.1 hmem with hx | hx
    · subst hx
      intro kv hkv
      have hsub := foldl_checkSession_subset cfg w l _ kv hkv
      rw [checkSession_temp, if_pos hconf] at hsub
      exact (mem_mapDelete _ _ _ hsub).2
    · exact ih _ hx

/-! ## Lemmas on the purchase from balance -/

theorem handleState_create_days (cfg : BotConfig) (w : World) (s : Bot) (msg : Message) :
    handleState cfg w s msg "create_days" =
      handleCreateDays cfg w s msg.fromID msg.chatID (TrimSpace msg.text) := by
  simp only [handleState]
  rw [if_neg (by decide), if_pos trivial]

theorem createdCountOf_congr {d d' : Disk} (h : records d' = records d) (c : Int) :
    createdCountOf d' c = createdCountOf d c := by
  unfold createdCountOf; rw [h]

theorem createdCountOf_incrementCreatedCount {d : Disk} (h : Healthy d) (c : Int) :
    createdCountOf (incrementCreatedCount d c).disk c = addInt64 (createdCountOf d c) 1 := by
  unfold createdCountOf
  rw [findEntry_incrementCreatedCount h]
  cases findEntry (records d) c with
  | none => simp [zeroEntry, zero_addInt64]
  | some e => simp [countEntry]

theorem createdCountOf_deductBalance {d : Disk} (h : Healthy d) (c x : Int) :
    createdCountOf (deductBalance d c x).disk c = createdCountOf d c := by
  unfold createdCountOf
  rw [deductBalance_records h, findEntry_modify_same (records d) c _ (debitEntry_id x)]
  cases findEntry (records d) c with
  | none => rfl
  | some e =>
    simp only [Option.map_some', debitEntry]
    split <;> rfl

theorem saveWallets_metrics (d : Disk) (ws : List WalletEntry) :
    (saveWallets d ws).disk.metricsFile = d.metricsFile ∧
      (saveWallets d ws).disk.metricsWritable = d.metricsWritable := by
  unfold saveWallets
  cases d.walletWritable <;> exact ⟨rfl, rfl⟩

theorem deductBalance_metrics {d : Disk} (h : Healthy d) (c x : Int) :
    (deductBalance d c x).disk.metricsFile = d.metricsFile ∧
      (deductBalance d c x).disk.metricsWritable = d.metricsWritable := by
  rw [deductBalance_eq h]
  cases getWalletIndex (records d) c with
  | none => exact ⟨rfl, rfl⟩
  | some i => exact saveWallets_metrics d _

theorem incrementCreatedCount_metrics {d : Disk} (h : Healthy d) (c : Int) :
    (incrementCreatedCount d c).disk.metricsFile = d.metricsFile ∧
      (incrementCreatedCount d c).disk.metricsWritable = d.metricsWritable := by
  rw [incrementCreatedCount_eq h]
  exact saveWallets_metrics d _

theorem metricsOf_appendMetric (d : Disk) (owner : Int) (stamp : String)
    (h : d.metricsWritable = true) :
    metricsOf (appendMetric d owner stamp).disk
      = metricsOf d ++ [{ Timestamp := stamp, Owner := owner }] := by
  unfold appendMetric metricsOf
  cases d.metricsFile <;> simp [h]

/-- What `createUser` does to the created-account counter and to the metrics log. -/
theorem createUser_counts (cfg : BotConfig) (w : World) (s : Bot) (chatID c : Int)
    (pw : String) (days : Int) (h : Healthy s.disk) (hm : s.disk.metricsWritable = true) :
    ((∃ p e, w.api s.apiLog { endpoint := "/user/create", password := pw, days := days }
        = .success p e) →
      createdCountOf (createUser cfg w s chatID c pw days).disk c
          = addInt64 (createdCountOf s.disk c) 1 ∧
        metricsOf (createUser cfg w s chatID c pw days).disk
          = metricsOf s.disk ++ [{ Timestamp := w.nowStamp, Owner := c }]) ∧
    ((∀ p e, w.api s.apiLog { endpoint := "/user/create", password := pw, days := days }
        ≠ .success p e) →
      (createUser cfg w s chatID c pw days).disk = s.disk) := by
  unfold createUser apiCall
  cases hres : w.api s.apiLog { endpoint := "/user/create", password := pw, days := days } with
  | error => exact ⟨fun ⟨p, e, hpe⟩ => by simp at hpe, fun _ => rfl⟩
  | refused m => exact ⟨fun ⟨p, e, hpe⟩ => by simp at hpe, fun _ => rfl⟩
  | success p e =>
    refine ⟨fun _ => ⟨?_, ?_⟩, fun hno => absurd rfl (hno p e)⟩
    · show createdCountOf (appendMetric (incrementCreatedCount s.disk c).disk c
        w.nowStamp).disk c = _
      rw [createdCountOf_congr (appendMetric_records _ _ _),
        createdCountOf_incrementCreatedCount h]
    · show metricsOf (appendMetric (incrementCreatedCount s.disk c).disk c w.nowStamp).disk = _
      rw [metricsOf_appendMetric _ _ _ (by rw [(incrementCreatedCount_metrics h c).2]; exact hm)]
      unfold metricsOf
      rw [(incrementCreatedCount_metrics h c).1]

/-! ## Lemmas on the calendar -/

/-- The cycles cut by `yearAndDay`, with the bounds that make the cut unique: `b` centuries,
`c` four-year groups and `e` years, and the day of the year `yd`. -/
theorem yearAndDay_decompose (days : Int) :
    ∃ a b c e : Int, 0 ≤ b ∧ b ≤ 3 ∧ 0 ≤ c ∧ c ≤ 24 ∧ 0 ≤ e ∧ e ≤ 3 ∧
      0 ≤ (yearAndDay days).2 ∧
      365 * e + (yearAndDay days).2 ≤ 1460 ∧
      (c = 24 → b ≠ 3 → 365 * e + (yearAndDay days).2 ≤ 1459) ∧
      (e ≠ 3 → (yearAndDay days).2 ≤ 364) ∧
      (yearAndDay days).1 = 1 + 400 * a + 100 * b + 4 * c + e ∧
      days = 146097 * a + 36524 * b + 1461 * c + 365 * e + (yearAndDay days).2 := by
  have h1 : 0 ≤ days - 146097 * (days / 146097) ∧ days - 146097 * (days / 146097) ≤ 146096 := by
    omega
  generalize hd1 : days - 146097 * (days / 146097) = d1 at h1
  have h2 : 0 ≤ d1 / 36524 - d1 / 36524 / 4 ∧ d1 / 36524 - d1 / 36524 / 4 ≤ 3 ∧
      0 ≤ d1 - 36524 * (d1 / 36524 - d1 / 36524 / 4) ∧
      d1 - 36524 * (d1 / 36524 - d1 / 36524 / 4) ≤ 36524 ∧
      (d1 / 36524 - d1 / 36524 / 4 ≠ 3 →
        d1 - 36524 * (d1 / 36524 - d1 / 36524 / 4) ≤ 36523) := by
    omega
  generalize hb : d1 / 36524 - d1 / 36524 / 4 = b at h2
  generalize hd2 : d1 - 36524 * b = d2 at h2
  have h3 : 0 ≤ d2 / 1461 ∧ d2 / 1461 ≤ 24 ∧ 0 ≤ d2 - 1461 * (d2 / 1461) ∧
      d2 - 1461 * (d2 / 1461) ≤ 1460 ∧
      (d2 / 1461 = 24 → d2 ≤ 36523 → d2 - 1461 * (d2 / 1461) ≤ 1459) := by
    omega
  generalize hc : d2 / 1461 = c at h3
  generalize hd3 : d2 - 1461 * c = d3 at h3
  have h4 : 0 ≤ d3 / 365 - d3 / 365 / 4 ∧ d3 / 365 - d3 / 365 / 4 ≤ 3 ∧
      0 ≤ d3 - 365 * (d3 / 365 - d3 / 365 / 4) ∧
      (d3 / 365 - d3 / 365 / 4 ≠ 3 → d3 - 365 * (d3 / 365 - d3 / 365 / 4) ≤ 364) := by
    omega
  generalize he : d3 / 365 - d3 / 365 / 4 = e at h4
  have hy : yearAndDay days = (1 + 400 * (days / 146097) + 100 * b + 4 * c + e, d3 - 365 * e) := by
    unfold yearAndDay
    simp only [hd1, hb, hd2, hc, hd3, he]
  rw [hy]
  refine ⟨days / 146097, b, c, e, h2.1, h2.2.1, h3.1, h3.2.1, h4.1, h4.2.1, h4.2.2.1, ?_, ?_,
    h4.2.2.2, rfl, ?_⟩
  · show 365 * e + (d3 - 365 * e) ≤ 1460
    omega
  · intro hc24 hb3
    show 365 * e + (d3 - 365 * e) ≤ 1459
    have := h3.2.2.2.2 hc24 (h2.2.2.2.2 hb3)
    omega
  · show days = 146097 * (days / 146097) + 36524 * b + 1461 * c + 365 * e + (d3 - 365 * e)
    omega

/-- A cut with those bounds is the one `yearAndDay` makes. -/
theorem yearAndDay_of_decomposition (a b c e yd : Int) (hb0 : 0 ≤ b) (hb : b ≤ 3)
    (hc0 : 0 ≤ c) (hc : c ≤ 24) (he0 : 0 ≤ e) (he : e ≤ 3) (hyd0 : 0 ≤ yd)
    (h1460 : 365 * e + yd ≤ 1460) (h1459 : c = 24 → b ≠ 3 → 365 * e + yd ≤ 1459)
    (h364 : e ≠ 3 → yd ≤ 364) :
    yearAndDay (146097 * a + 36524 * b + 1461 * c + 365 * e + yd)
      = (1 + 400 * a + 100 * b + 4 * c + e, yd) := by
  have hr2 : 1461 * c + 365 * e + yd ≤ 36524 ∧ (b ≠ 3 → 1461 * c + 365 * e + yd ≤ 36523) := by
    constructor
    · omega
    · intro hb3
      by_cases hc24 : c = 24
      · have := h1459 hc24 hb3; omega
      · omega
  have hr20 : 0 ≤ 1461 * c + 365 * e + yd := by omega
  have hr3 : (1461 * c + 365 * e + yd) = 1461 * c + (365 * e + yd) := by omega
  generalize hr3v : 365 * e + yd = r3 at hr3 h1460
  have hr30 : 0 ≤ r3 := by omega
  have q4 : r3 / 365 - r3 / 365 / 4 = e := by
    by_cases he3 : e = 3
    · subst he3; omega
    · have := h364 he3; omega
  have d4 : r3 - 365 * e = yd := by omega
  have q3 : (1461 * c + r3) / 1461 = c := by omega
  have d3 : 1461 * c + r3 - 1461 * c = r3 := by omega
  rw [hr3] at hr2 hr20
  generalize hr2v : 1461 * c + r3 = r2 at hr2 hr20 q3 d3
  have q2 : (36524 * b + r2) / 36524 - (36524 * b + r2) / 36524 / 4 = b := by
    by_cases hb3 : b = 3
    · subst hb3
      have := hr2.1
      omega
    · have := hr2.2 hb3
      have hq : (36524 * b + r2) / 36524 = b := by omega
      rw [hq]; omega
  have d2 : 36524 * b + r2 - 36524 * b = r2 := by omega
  have hr1 : 0 ≤ 36524 * b + r2 ∧ 36524 * b + r2 ≤ 146096 := by
    by_cases hb3 : b = 3
    · subst hb3
      have := hr2.1
      omega
    · have := hr2.2 hb3
      omega
  generalize hr1v : 36524 * b + r2 = r1 at hr1 q2 d2
  have q1 : (146097 * a + r1) / 146097 = a := by omega
  have d1 : 146097 * a + r1 - 146097 * a = r1 := by omega
  have hsum : 146097 * a + 36524 * b + 1461 * c + 365 * e + yd = 146097 * a + r1 := by omega
  rw [hsum]
  unfold yearAndDay
  simp only [q1, d1, q2, d2, q3, d3, q4, d4]

/-- The cycles are determined by the year. -/
theorem cycles_of_year (a b c e a' b' c' e' : Int) (hb0 : 0 ≤ b) (hb : b ≤ 3)
    (hc0 : 0 ≤ c) (hc : c ≤ 24) (he0 : 0 ≤ e) (he : e ≤ 3) (hb0' : 0 ≤ b') (hb' : b' ≤ 3)
    (hc0' : 0 ≤ c') (hc' : c' ≤ 24) (he0' : 0 ≤ e') (he' : e' ≤ 3)
    (h : 400 * a + 100 * b + 4 * c + e = 400 * a' + 100 * b' + 4 * c' + e') :
    a = a' ∧ b = b' ∧ c = c' ∧ e = e' := by
  have ha : a = a' := by omega
  subst ha
  have hbb : b = b' := by omega
  subst hbb
  have hcc : c = c' := by omega
  subst hcc
  exact ⟨rfl, rfl, rfl, by omega⟩

/-- Two day numbers with the same year and day of the year are the same day. -/
theorem yearAndDay_inj (x y : Int) (h : yearAndDay x = yearAndDay y) : x = y := by
  obtain ⟨a, b, c, e, hb0, hb, hc0, hc, he0, he, -, -, -, -, hy, hx⟩ := yearAndDay_decompose x
  obtain ⟨a', b', c', e', hb0', hb', hc0', hc', he0', he', -, -, -, -, hy', hx'⟩ :=
    yearAndDay_decompose y
  rw [h] at hy hx
  have hyy : 400 * a + 100 * b + 4 * c + e = 400 * a' + 100 * b' + 4 * c' + e' := by omega
  obtain ⟨rfl, rfl, rfl, rfl⟩ :=
    cycles_of_year a b c e a' b' c' e' hb0 hb hc0 hc he0 he hb0' hb' hc0' hc' he0' he' hyy
  omega

/-- Within one year the day numbers differ as the days of the year do. -/
theorem yearAndDay_same_year (x y : Int) (h : (yearAndDay x).1 = (yearAndDay y).1) :
    x - y = (yearAndDay x).2 - (yearAndDay y).2 := by
  obtain ⟨a, b, c, e, hb0, hb, hc0, hc, he0, he, -, -, -, -, hy, hx⟩ := yearAndDay_decompose x
  obtain ⟨a', b', c', e', hb0', hb', hc0', hc', he0', he', -, -, -, -, hy', hx'⟩ :=
    yearAndDay_decompose y
  have hyy : 400 * a + 100 * b + 4 * c + e = 400 * a' + 100 * b' + 4 * c' + e' := by omega
  obtain ⟨rfl, rfl, rfl, rfl⟩ :=
    cycles_of_year a b c e a' b' c' e' hb0 hb hc0 hc he0 he hb0' hb' hc0' hc' he0' he' hyy
  omega

/-- Leap years in terms of the cycles: the last year of a four-year group, unless it ends a
century that does not end a 400-year cycle. -/
theorem isLeap_cycles (a b c e : Int) (hb0 : 0 ≤ b) (hb : b ≤ 3)
    (hc0 : 0 ≤ c) (hc : c ≤ 24) (he0 : 0 ≤ e) (he : e ≤ 3) :
    isLeap (1 + 400 * a + 100 * b + 4 * c + e) = true ↔ e = 3 ∧ (c ≠ 24 ∨ b = 3) := by
  unfold isLeap
  rw [decide_eq_true_eq]
  constructor
  · rintro ⟨h4, h⟩
    have he3 : e = 3 := by omega
    refine ⟨he3, ?_⟩
    rcases h with h | h
    · left; omega
    · right; omega
  · rintro ⟨he3, h⟩
    refine ⟨by omega, ?_⟩
    by_cases hc24 : c = 24
    · have hb3 : b = 3 := h.resolve_left (fun hn => hn hc24)
      right; omega
    · left; omega

/-- The day of the year is between 0 and 364, or 365 in a leap year. -/
theorem yearAndDay_yday_bounds (x : Int) :
    0 ≤ (yearAndDay x).2 ∧
      (yearAndDay x).2 < 365 + (if isLeap (yearAndDay x).1 = true then 1 else 0) := by
  obtain ⟨a, b, c, e, hb0, hb, hc0, hc, he0, he, h0, h1460, h1459, h364, hy, hx⟩ :=
    yearAndDay_decompose x
  have hleap := isLeap_cycles a b c e hb0 hb hc0 hc he0 he
  rw [← hy] at hleap
  generalize (yearAndDay x).2 = yd at *
  generalize (yearAndDay x).1 = yr at *
  refine ⟨h0, ?_⟩
  by_cases hl : isLeap yr = true
  · rw [if_pos hl]
    by_cases he3 : e = 3
    · omega
    · have := h364 he3; omega
  · rw [if_neg hl]
    by_cases he3 : e = 3
    · by_cases hc24 : c = 24
      · by_cases hb3 : b = 3
        · exact absurd (hleap.2 ⟨he3, Or.inr hb3⟩) hl
        · have := h1459 hc24 hb3; omega
      · exact absurd (hleap.2 ⟨he3, Or.inl hc24⟩) hl
    · have := h364 he3; omega

/-- A later day is not in an earlier year. -/
theorem yearAndDay_mono (x y : Int) (h : x ≤ y) : (yearAndDay x).1 ≤ (yearAndDay y).1 := by
  obtain ⟨a, b, c, e, hb0, hb, hc0, hc, he0, he, h0, h1460, h1459, h364, hy, hx⟩ :=
    yearAndDay_decompose x
  obtain ⟨a', b', c', e', hb0', hb', hc0', hc', he0', he', h0', h1460', h1459', h364', hy', hx'⟩ :=
    yearAndDay_decompose y
  generalize (yearAndDay x).2 = yd at *
  generalize (yearAndDay y).2 = yd' at *
  rw [hy, hy']
  have hr2 : ∀ b c e yd : Int, 0 ≤ c → c ≤ 24 → 0 ≤ e → 0 ≤ yd → 365 * e + yd ≤ 1460 →
      (c = 24 → b ≠ 3 → 365 * e + yd ≤ 1459) →
      0 ≤ 1461 * c + (365 * e + yd) ∧ 1461 * c + (365 * e + yd) ≤ 36524 ∧
        (b ≠ 3 → 1461 * c + (365 * e + yd) ≤ 36523) := by
    intro b c e yd hc0 hc he0 hyd0 h1 h2
    refine ⟨by omega, by omega, ?_⟩
    intro hb3
    by_cases hc24 : c = 24
    · have := h2 hc24 hb3; omega
    · omega
  have hA := hr2 b c e yd hc0 hc he0 h0 h1460 h1459
  have hB := hr2 b' c' e' yd' hc0' hc' he0' h0' h1460' h1459'
  by_contra hlt
  have hlt' : 400 * a' + 100 * b' + 4 * c' + e' < 400 * a + 100 * b + 4 * c + e := by omega
  have haa : a' ≤ a := by omega
  rcases lt_or_eq_of_le haa with ha | ha
  · -- an earlier 400-year cycle ends before the later one starts
    have h1 : 36524 * b' + (1461 * c' + (365 * e' + yd')) ≤ 146096 := by
      by_cases hb3 : b' = 3
      · omega
      · have := hB.2.2 hb3; omega
    have h2 : 0 ≤ 36524 * b + (1461 * c + (365 * e + yd)) := by omega
    omega
  · subst ha
    have hbb : b' ≤ b := by omega
    rcases lt_or_eq_of_le hbb with hb1 | hb1
    · have hb3 : b' ≠ 3 := by omega
      have := hB.2.2 hb3
      omega
    · subst hb1
      have hcc : c' ≤ c := by omega
      rcases lt_or_eq_of_le hcc with hc1 | hc1
      · omega
      · subst hc1
        have hee : e' < e := by omega
        have := h364' (by omega)
        omega

/-- Going back within the year keeps the year and lowers the day of the year. -/
theorem yearAndDay_sub (x k : Int) (h0 : 0 ≤ k) (hk : k ≤ (yearAndDay x).2) :
    yearAndDay (x - k) = ((yearAndDay x).1, (yearAndDay x).2 - k) := by
  obtain ⟨a, b, c, e, hb0, hb, hc0, hc, he0, he, h0', h1460, h1459, h364, hy, hx⟩ :=
    yearAndDay_decompose x
  have hd := yearAndDay_of_decomposition a b c e ((yearAndDay x).2 - k) hb0 hb hc0 hc he0 he
    (by omega) (by omega) (fun h1 h2 => by have := h1459 h1 h2; omega)
    (fun h1 => by have := h364 h1; omega)
  have hxk : x - k = 146097 * a + 36524 * b + 1461 * c + 365 * e + ((yearAndDay x).2 - k) := by
    omega
  rw [hxk, hd, hy]

set_option maxRecDepth 100000 in
/-- The month table, checked day by day for a common and for a leap year. -/
theorem monthAndDay_table : ∀ n : Fin 366, ∀ leap : Bool, (n.val < 365 ∨ leap = true) →
    1 ≤ (monthAndDay leap n.val).1 ∧ (monthAndDay leap n.val).1 ≤ 12 ∧
    1 ≤ (monthAndDay leap n.val).2 ∧
    (n.val : Int) = monthFirstYday leap (monthAndDay leap n.val).1
      + (monthAndDay leap n.val).2 - 1 ∧
    (n.val : Int) < monthFirstYday leap ((monthAndDay leap n.val).1 + 1) := by
  decide

/-- The month table for any day of the year: the month is 1 to 12, the day of the month starts
at 1, and the day lies in its month. -/
theorem monthAndDay_spec (leap : Bool) (yd : Int) (h0 : 0 ≤ yd)
    (h : yd < 365 + (if leap = true then 1 else 0)) :
    1 ≤ (monthAndDay leap yd).1 ∧ (monthAndDay leap yd).1 ≤ 12 ∧
    1 ≤ (monthAndDay leap yd).2 ∧
    yd = monthFirstYday leap (monthAndDay leap yd).1 + (monthAndDay leap yd).2 - 1 ∧
    yd < monthFirstYday leap ((monthAndDay leap yd).1 + 1) := by
  have hlt : yd.toNat < 366 := by
    split at h <;> omega
  have hcast : ((yd.toNat : Nat) : Int) = yd := Int.toNat_of_nonneg h0
  have hcond : yd.toNat < 365 ∨ leap = true := by
    by_cases hl : leap = true
    · exact Or.inr hl
    · left; rw [if_neg hl] at h; omega
  have ht := monthAndDay_table ⟨yd.toNat, hlt⟩ leap hcond
  simp only [hcast] at ht
  exact ht

set_option maxRecDepth 100000 in
/-- Months start in order. -/
theorem monthFirstYday_table : ∀ leap : Bool, ∀ m n : Fin 14, 1 ≤ m.val → m.val ≤ n.val →
    monthFirstYday leap (m.val : Int) ≤ monthFirstYday leap (n.val : Int) := by
  decide

/-- Months start in order, for month numbers 1 to 13. -/
theorem monthFirstYday_mono (leap : Bool) (m n : Int) (h1 : 1 ≤ m) (hmn : m ≤ n) (hn : n ≤ 13) :
    monthFirstYday leap m ≤ monthFirstYday leap n := by
  have hm : m.toNat < 14 := by omega
  have hn' : n.toNat < 14 := by omega
  have ht := monthFirstYday_table leap ⟨m.toNat, hm⟩ ⟨n.toNat, hn'⟩ (by show 1 ≤ m.toNat; omega)
    (by show m.toNat ≤ n.toNat; omega)
  have e1 : ((m.toNat : Nat) : Int) = m := Int.toNat_of_nonneg (by omega)
  have e2 : ((n.toNat : Nat) : Int) = n := Int.toNat_of_nonneg (by omega)
  simp only [e1, e2] at ht
  exact ht

/-- The date fields of a time: its day of the year lies in its month. -/
theorem Time.date_spec (t : Time) :
    1 ≤ t.Month ∧ t.Month ≤ 12 ∧ 1 ≤ t.Day ∧
    (yearAndDay t.absDays).2 = monthFirstYday (isLeap t.Year) t.Month + t.Day - 1 ∧
    (yearAndDay t.absDays).2 < monthFirstYday (isLeap t.Year) (t.Month + 1) := by
  have hb := yearAndDay_yday_bounds t.absDays
  exact monthAndDay_spec (isLeap t.Year) (yearAndDay t.absDays).2 hb.1 hb.2

/-- The test of the code for the day bucket, same year and same day of the year, is the same
calendar date. -/
theorem sameDate_iff (t u : Time) :
    (t.Year = u.Year ∧ t.YearDay = u.YearDay) ↔ sameDate t u = true := by
  unfold sameDate
  rw [decide_eq_true_eq]
  constructor
  · rintro ⟨hy, hd⟩
    have hyd : (yearAndDay t.absDays).2 = (yearAndDay u.absDays).2 := by
      unfold Time.YearDay at hd; omega
    refine ⟨hy, ?_, ?_⟩
    · unfold Time.Month; rw [hy, hyd]
    · unfold Time.Day; rw [hy, hyd]
  · rintro ⟨hy, hm, hd⟩
    refine ⟨hy, ?_⟩
    have h1 := (Time.date_spec t).2.2.2.1
    have h2 := (Time.date_spec u).2.2.2.1
    rw [hy, hm, hd] at h1
    unfold Time.YearDay
    rw [h1, h2]

/-- The same calendar date is the same day number. -/
theorem sameDate_iff_absDays (t u : Time) : sameDate t u = true ↔ t.absDays = u.absDays := by
  rw [← sameDate_iff]
  constructor
  · rintro ⟨hy, hd⟩
    apply yearAndDay_inj
    have hyd : (yearAndDay t.absDays).2 = (yearAndDay u.absDays).2 := by
      unfold Time.YearDay at hd; omega
    exact Prod.ext hy hyd
  · intro h
    unfold Time.Year Time.YearDay
    rw [h]
    exact ⟨rfl, rfl⟩

/-- The ISO week of a time is read off the Thursday of its Monday-to-Sunday week. -/
theorem Time.ISOWeek_eq (t : Time) :
    t.ISOWeek = ((yearAndDay (7 * (t.absDays / 7) + 3)).1,
      (yearAndDay (7 * (t.absDays / 7) + 3)).2 / 7 + 1) := by
  have h : t.absDays + (if 4 - t.Weekday = 4 then -3 else 4 - t.Weekday)
      = 7 * (t.absDays / 7) + 3 := by
    unfold Time.Weekday
    split <;> omega
  unfold Time.ISOWeek
  simp only [h]

/-- Two times are in the same ISO year and week exactly when their day numbers fall in the
same block of seven days starting on a Monday. -/
theorem sameISOWeek_iff (t u : Time) :
    sameISOWeek t u = true ↔ t.absDays / 7 = u.absDays / 7 := by
  unfold sameISOWeek
  rw [decide_eq_true_eq, Time.ISOWeek_eq t, Time.ISOWeek_eq u]
  constructor
  · rintro ⟨hy, hw⟩
    have hs := yearAndDay_same_year _ _ hy
    have h1 := (yearAndDay_yday_bounds (7 * (t.absDays / 7) + 3)).1
    have h2 := (yearAndDay_yday_bounds (7 * (u.absDays / 7) + 3)).1
    simp only at hw hs h1 h2
    generalize (yearAndDay (7 * (t.absDays / 7) + 3)).2 = a at hw hs h1
    generalize (yearAndDay (7 * (u.absDays / 7) + 3)).2 = b at hw hs h2
    generalize t.absDays / 7 = p at hs ⊢
    generalize u.absDays / 7 = q at hs ⊢
    omega
  · intro h
    rw [h]
    exact ⟨rfl, rfl⟩

/-- A time dated the day before another is in the same ISO week unless that other is a
Monday. -/
theorem sameISOWeek_yesterday (t now : Time) (h : t.absDays + 1 = now.absDays) :
    sameISOWeek t now = true ↔ now.Weekday ≠ 1 := by
  rw [sameISOWeek_iff]
  unfold Time.Weekday
  omega

/-- January starts on day 0 of the year. -/
theorem monthFirstYday_nonneg (leap : Bool) (m : Int) (h1 : 1 ≤ m) (h13 : m ≤ 13) :
    0 ≤ monthFirstYday leap m := by
  have h := monthFirstYday_mono leap 1 m (le_refl 1) h1 h13
  have h0 : monthFirstYday leap 1 = 0 := by cases leap <;> decide
  omega

/-- The first day of the month of a time: same year, on the day of the year the month
starts. -/
theorem yearAndDay_monthFirst (now : Time) :
    yearAndDay (now.absDays - (now.Day - 1))
      = (now.Year, monthFirstYday (isLeap now.Year) now.Month) := by
  obtain ⟨hm1, hm12, hd1, hyd, -⟩ := Time.date_spec now
  have hf := monthFirstYday_nonneg (isLeap now.Year) now.Month hm1 (by omega)
  rw [yearAndDay_sub now.absDays (now.Day - 1) (by omega) (by omega)]
  apply Prod.ext
  · rfl
  · show (yearAndDay now.absDays).2 - (now.Day - 1) = monthFirstYday (isLeap now.Year) now.Month
    omega

/-- Day numbers at or after the first day of the month of `now` are those of that month or
of a later one. -/
theorem monthFirst_le_iff (t now : Time) :
    now.absDays - (now.Day - 1) ≤ t.absDays ↔ monthOrLater t now = true := by
  unfold monthOrLater
  rw [decide_eq_true_eq]
  have hF := yearAndDay_monthFirst now
  have hFy : (yearAndDay (now.absDays - (now.Day - 1))).1 = now.Year := by rw [hF]
  have hFd : (yearAndDay (now.absDays - (now.Day - 1))).2
      = monthFirstYday (isLeap now.Year) now.Month := by rw [hF]
  obtain ⟨hm1, hm12, hd1, hyd, hnext⟩ := Time.date_spec t
  obtain ⟨hn1, hn12, -, -, -⟩ := Time.date_spec now
  rcases lt_trichotomy t.Year now.Year with hlt | heq | hgt
  · constructor
    · intro h
      have hle : now.Year ≤ t.Year := by
        have h2 := yearAndDay_mono _ _ h
        rw [hFy] at h2
        exact h2
      omega
    · rintro (h | ⟨h, -⟩) <;> omega
  · have hs := yearAndDay_same_year t.absDays (now.absDays - (now.Day - 1))
      (by rw [hFy]; exact heq)
    rw [hFd] at hs
    rw [heq] at hyd hnext
    constructor
    · intro h
      right
      refine ⟨heq, ?_⟩
      by_contra hcon
      have := monthFirstYday_mono (isLeap now.Year) (t.Month + 1) now.Month (by omega) (by omega)
        (by omega)
      omega
    · rintro (h | ⟨-, h⟩)
      · omega
      · have := monthFirstYday_mono (isLeap now.Year) now.Month t.Month hn1 h (by omega)
        omega
  · constructor
    · intro _
      exact Or.inl hgt
    · intro _
      by_contra hcon
      have hle : t.Year ≤ now.Year := by
        have h2 := yearAndDay_mono t.absDays (now.absDays - (now.Day - 1)) (by omega)
        rw [hFy] at h2
        exact h2
      omega

/-- The test of the code for the month bucket, for a time in the offset of `now`: not before
the first instant of the month of `now` exactly when in that month or a later one. -/
theorem not_before_monthStart_iff (t now : Time) (hoff : t.offset = now.offset) :
    t.Before (monthStart now) = false ↔ monthOrLater t now = true := by
  rw [← monthFirst_le_iff]
  unfold Time.Before monthStart
  rw [decide_eq_false_iff_not]
  simp only
  have ht : t.absDays = (t.unix + now.offset) / 86400 + 719162 := by
    unfold Time.absDays; rw [hoff]
  rw [ht]
  generalize now.absDays - (now.Day - 1) = F
  omega

/-! ## Lemmas on the metrics counters -/

/-- The three tests `computeMetrics` applies to a parsed timestamp. -/
theorem metricsStep_some (parse : String → Option Time) (now : Time) (acc : Nat × Nat × Nat)
    (e : MetricsEntry) (t : Time) (h : parse e.Timestamp = some t) :
    metricsStep parse now acc e =
      (acc.1 + (if sameDate t now = true then 1 else 0),
        acc.2.1 + (if sameISOWeek t now = true then 1 else 0),
        acc.2.2 + (if t.Before (monthStart now) = false then 1 else 0)) := by
  unfold metricsStep
  rw [h]
  simp only
  have h1 : (t.Year = now.Year ∧ t.YearDay = now.YearDay) ↔ sameDate t now = true :=
    sameDate_iff t now
  have h2 : (t.ISOWeek.1 = now.ISOWeek.1 ∧ t.ISOWeek.2 = now.ISOWeek.2)
      ↔ sameISOWeek t now = true := by
    unfold sameISOWeek; rw [decide_eq_true_eq]
  have h3 : (¬ t.Before (monthStart now) = true) ↔ t.Before (monthStart now) = false := by
    simp
  simp only [h1, h2, h3]
  cases sameDate t now <;> cases sameISOWeek t now <;> cases t.Before (monthStart now) <;>
    simp

/-- The loop of `computeMetrics` adds, to each counter, the number of events whose timestamp
parses and passes the test of that counter. -/
theorem foldl_metricsStep (parse : String → Option Time) (now : Time)
    (entries : List MetricsEntry) (acc : Nat × Nat × Nat) :
    entries.foldl (metricsStep parse now) acc =
      (acc.1 + countEvents parse (fun t => sameDate t now) entries,
        acc.2.1 + countEvents parse (fun t => sameISOWeek t now) entries,
        acc.2.2 + countEvents parse (fun t => ! t.Before (monthStart now)) entries) := by
  induction entries generalizing acc with
  | nil => rfl
  | cons e es ih =>
    rw [List.foldl_cons, ih]
    unfold countEvents
    simp only [List.countP_cons]
    cases hp : parse e.Timestamp with
    | none =>
      have hstep : metricsStep parse now acc e = acc := by
        unfold metricsStep; rw [hp]
      rw [hstep]
      simp
    | some t =>
      rw [metricsStep_some parse now acc e t hp]
      refine Prod.ext ?_ (Prod.ext ?_ ?_)
      · show (acc.1 + _) + _ = acc.1 + (_ + _)
        by_cases c : sameDate t now = true <;> simp [c, Nat.add_assoc, Nat.add_comm]
      · show (acc.2.1 + _) + _ = acc.2.1 + (_ + _)
        by_cases c : sameISOWeek t now = true <;> simp [c, Nat.add_assoc, Nat.add_comm]
      · show (acc.2.2 + _) + _ = acc.2.2 + (_ + _)
        by_cases c : t.Before (monthStart now) = true <;> simp [c, Nat.add_assoc, Nat.add_comm]

/-- Counting with two tests that agree on every time gives the same number. -/
theorem countEvents_congr (parse : String → Option Time) (p q : Time → Bool)
    (entries : List MetricsEntry)
    (h : ∀ e ∈ entries, ∀ t, parse e.Timestamp = some t → p t = q t) :
    countEvents parse p entries = countEvents parse q entries := by
  unfold countEvents
  apply List.countP_congr
  intro e he
  cases hp : parse e.Timestamp with
  | none => simp
  | some t => simp only [h e he t hp]

/-- The result of `computeMetrics` on a metrics file that loads. -/
theorem computeMetrics_content (parse : String → Option Time) (d : Disk) (now : Time)
    (entries : List MetricsEntry) (h : d.metricsFile = MetricsFile.content entries) :
    computeMetrics parse d now =
      some (countEvents parse (fun t => sameDate t now) entries,
        countEvents parse (fun t => sameISOWeek t now) entries,
        countEvents parse (fun t => ! t.Before (monthStart now)) entries) := by
  unfold computeMetrics
  rw [h]
  simp only
  rw [foldl_metricsStep]
  simp

/-- Counting over a list with one more event at the end. -/
theorem countEvents_append_one (parse : String → Option Time) (p : Time → Bool)
    (entries : List MetricsEntry) (e : MetricsEntry) (t : Time)
    (h : parse e.Timestamp = some t) :
    countEvents parse p (entries ++ [e])
      = countEvents parse p entries + (if p t = true then 1 else 0) := by
  unfold countEvents
  rw [List.countP_append, List.countP_cons, List.countP_nil, h]
  simp

set_option maxRecDepth 100000 in
/-- The day on which a month starts is day 1 of that month. -/
theorem monthAndDay_first_table : ∀ leap : Bool, ∀ m : Fin 13, 1 ≤ m.val →
    monthAndDay leap (monthFirstYday leap (m.val : Int)) = ((m.val : Int), 1) := by
  decide

/-- The day on which a month starts is day 1 of that month, for months 1 to 12. -/
theorem monthAndDay_first (leap : Bool) (m : Int) (h1 : 1 ≤ m) (h12 : m ≤ 12) :
    monthAndDay leap (monthFirstYday leap m) = (m, 1) := by
  have hm : m.toNat < 13 := by omega
  have ht := monthAndDay_first_table leap ⟨m.toNat, hm⟩ (by show 1 ≤ m.toNat; omega)
  have e1 : ((m.toNat : Nat) : Int) = m := Int.toNat_of_nonneg (by omega)
  simp only [e1] at ht
  exact ht

/-- The day number of `monthStart now`. -/
theorem monthStart_absDays (now : Time) :
    (monthStart now).absDays = now.absDays - (now.Day - 1) := by
  unfold monthStart Time.absDays
  simp only
  generalize (now.unix + now.offset) / 86400 + 719162 - (now.Day - 1) = F
  omega

/-- The embedding of `time.Date(now.Year(), now.Month(), 1, 0, 0, 0, 0, now.Location())` is
midnight of day 1 of the month and year of `now`, in the offset of `now`. -/
theorem monthStart_spec (now : Time) :
    (monthStart now).Year = now.Year ∧ (monthStart now).Month = now.Month ∧
    (monthStart now).Day = 1 ∧ (monthStart now).offset = now.offset ∧
    ((monthStart now).unix + (monthStart now).offset) % 86400 = 0 := by
  have hy : yearAndDay (monthStart now).absDays
      = (now.Year, monthFirstYday (isLeap now.Year) now.Month) := by
    rw [monthStart_absDays]; exact yearAndDay_monthFirst now
  obtain ⟨hn1, hn12, -, -, -⟩ := Time.date_spec now
  have hmd := monthAndDay_first (isLeap now.Year) now.Month hn1 hn12
  have hY : (monthStart now).Year = now.Year := by
    show (yearAndDay (monthStart now).absDays).1 = now.Year
    rw [hy]
  refine ⟨hY, ?_, ?_, rfl, ?_⟩
  · show (monthAndDay (isLeap (monthStart now).Year) (yearAndDay (monthStart now).absDays).2).1
      = now.Month
    simp only [hY, hy, hmd]
  · show (monthAndDay (isLeap (monthStart now).Year) (yearAndDay (monthStart now).absDays).2).2
      = 1
    simp only [hY, hy, hmd]
  · unfold monthStart
    simp only
    generalize now.absDays - (now.Day - 1) - 719162 = F
    omega

/-- A time of the month of `now` or a later one that is not dated after `now` is of the
month of `now`. -/
theorem sameMonth_of_not_later (t now : Time) (hle : t.absDays ≤ now.absDays)
    (h : monthOrLater t now = true) : sameMonth t now = true := by
  unfold monthOrLater at h
  unfold sameMonth
  rw [decide_eq_true_eq] at h ⊢
  have hyear : t.Year ≤ now.Year := yearAndDay_mono _ _ hle
  rcases h with h | ⟨hy, hm⟩
  · omega
  · refine ⟨hy, ?_⟩
    obtain ⟨ht1, ht12, htd, htyd, -⟩ := Time.date_spec t
    obtain ⟨hn1, hn12, hnd, -, hnnext⟩ := Time.date_spec now
    have hs := yearAndDay_same_year t.absDays now.absDays hy
    by_contra hne
    have hlt : now.Month + 1 ≤ t.Month := by omega
    have := monthFirstYday_mono (isLeap now.Year) (now.Month + 1) t.Month (by omega) hlt
      (by omega)
    rw [hy] at htyd
    omega

/-- A time of the month of `now` is of that month or a later one. -/
theorem monthOrLater_of_sameMonth (t now : Time) (h : sameMonth t now = true) :
    monthOrLater t now = true := by
  unfold sameMonth at h
  unfold monthOrLater
  rw [decide_eq_true_eq] at h ⊢
  exact Or.inr ⟨h.1, by omega⟩

/-! ## Lemmas on the handlers that reject or fail -/

theorem validateNumber_some_iff (s : Bot) (chatID : Int) (text : String) (lo hi v : Int) :
    (validateNumber s chatID text lo hi).2 = some v ↔ Atoi text = some v ∧ lo ≤ v ∧ v ≤ hi := by
  unfold validateNumber
  cases h : Atoi text with
  | none => simp
  | some x =>
    dsimp only
    by_cases hr : x < lo ∨ x > hi
    · rw [if_pos hr]
      simp only [Option.some.injEq, reduceCtorEq, false_iff]
      rintro ⟨rfl, h1, h2⟩
      omega
    · rw [if_neg hr]
      simp only [Option.some.injEq]
      constructor
      · rintro rfl; exact ⟨rfl, by omega, by omega⟩
      · exact fun h' => h'.1

theorem validateNumber_none (s : Bot) (chatID : Int) (text : String) (lo hi : Int)
    (h : (validateNumber s chatID text lo hi).2 = none) :
    validateNumber s chatID text lo hi = (sendMessage s chatID (.numberInvalid lo hi), none) := by
  unfold validateNumber at h ⊢
  cases hx : Atoi text with
  | none => rfl
  | some x =>
    rw [hx] at h
    dsimp only at h ⊢
    by_cases hr : x < lo ∨ x > hi
    · rw [if_pos hr]
    · rw [if_neg hr] at h; simp at h

theorem validateNumber_state (s : Bot) (chatID : Int) (text : String) (lo hi v : Int)
    (h : (validateNumber s chatID text lo hi).2 = some v) :
    validateNumber s chatID text lo hi = (s, some v) := by
  unfold validateNumber at h ⊢
  cases hx : Atoi text with
  | none => rw [hx] at h; simp at h
  | some x =>
    rw [hx] at h
    dsimp only at h ⊢
    by_cases hr : x < lo ∨ x > hi
    · rw [if_pos hr] at h; simp at h
    · rw [if_neg hr] at h ⊢
      simp only [Option.some.injEq] at h
      rw [h]

theorem runCall_load_failed (d : Disk) (c : Int) (call : LedgerCall)
    (h : loadWallets d = none) : runCall d c call = { disk := d, failed := true } := by
  cases call <;>
    simp [runCall, addBalance, deductBalance, markTrialUsed, setPendingPurchase,
      clearPendingPurchase, incrementCreatedCount, h]

/-! ## Lemmas on the order identifier -/

theorem decDigits_no_minus (fuel n : Nat) (acc : List Char) (hacc : ∀ c ∈ acc, c ≠ '-') :
    ∀ c ∈ decDigits fuel n acc, c ≠ '-' := by
  have hd : ∀ k : Nat, digitChar (k % 10) ≠ '-' := by
    intro k
    have hlt : k % 10 < 10 := Nat.mod_lt _ (by decide)
    intro heq
    have h1 := digitVal_digitChar (k % 10) hlt
    rw [heq] at h1
    have h2 : digitVal '-' = none := by decide
    rw [h2] at h1
    exact absurd h1 (by simp)
  induction fuel generalizing n acc with
  | zero => exact hacc
  | succ fuel ih =>
    simp only [decDigits]
    split
    · intro c hc
      rcases List.mem_cons.1 hc with rfl | hc
      · exact hd n
      · exact hacc c hc
    · apply ih
      intro c hc
      rcases List.mem_cons.1 hc with rfl | hc
      · exact hd n
      · exact hacc c hc

theorem natToDec_no_minus (n : Nat) : ∀ c ∈ natToDec n, c ≠ '-' :=
  decDigits_no_minus (n + 1) n [] (by simp)

/-- Two runs without `-`, each followed by `-`, that agree as a whole agree part by part. -/
theorem sep_cancel (xs ys r1 r2 : List Char) (hx : ∀ c ∈ xs, c ≠ '-')
    (hy : ∀ c ∈ ys, c ≠ '-') (h : xs ++ '-' :: r1 = ys ++ '-' :: r2) :
    xs = ys ∧ r1 = r2 := by
  induction xs generalizing ys with
  | nil =>
    cases ys with
    | nil => exact ⟨rfl, by simpa using h⟩
    | cons y ys =>
      simp only [List.nil_append, List.cons_append, List.cons.injEq] at h
      exact absurd h.1.symm (hy y (List.mem_cons_self _ _))
  | cons x xs ih =>
    cases ys with
    | nil =>
      simp only [List.nil_append, List.cons_append, List.cons.injEq] at h
      exact absurd h.1 (hx x (List.mem_cons_self _ _))
    | cons y ys =>
      simp only [List.cons_append, List.cons.injEq] at h
      obtain ⟨h1, h2⟩ := ih ys (fun c hc => hx c (List.mem_cons_of_mem _ hc))
        (fun c hc => hy c (List.mem_cons_of_mem _ hc)) h.2
      exact ⟨by rw [h.1, h1], h2⟩

theorem Itoa_injective (x y : Int) (h : Itoa x = Itoa y) : x = y := by
  have h1 := Atoi_Itoa x
  rw [h, Atoi_Itoa y] at h1
  exact (Option.some.inj h1).symm

/-- The numeral of `x` followed by `-` can be read back from the front of a string. -/
theorem Itoa_sep_cancel (x y : Int) (r1 r2 : List Char)
    (h : (Itoa x).data ++ '-' :: r1 = (Itoa y).data ++ '-' :: r2) : x = y ∧ r1 = r2 := by
  have hne : ∀ n : Nat, ∃ c cs, natToDec n = c :: cs ∧ c ≠ '-' := by
    intro n
    cases hl : natToDec n with
    | nil => exact absurd hl (decDigits_ne_nil n n [])
    | cons c cs => exact ⟨c, cs, rfl, natToDec_no_minus n c (by rw [hl]; exact List.mem_cons_self _ _)⟩
  have key : (Itoa x).data = (Itoa y).data ∧ r1 = r2 := by
    unfold Itoa at h ⊢
    by_cases hx : x < 0 <;> by_cases hy : y < 0
    · rw [if_pos hx, if_pos hy] at h ⊢
      simp only [List.cons_append, List.cons.injEq, true_and] at h
      obtain ⟨h1, h2⟩ := sep_cancel _ _ _ _ (natToDec_no_minus _) (natToDec_no_minus _) h
      exact ⟨by rw [h1], h2⟩
    · rw [if_pos hx, if_neg hy] at h
      obtain ⟨c, cs, hc, hcne⟩ := hne y.natAbs
      simp only [hc, List.cons_append, List.cons.injEq] at h
      exact absurd h.1.symm hcne
    · rw [if_neg hx, if_pos hy] at h
      obtain ⟨c, cs, hc, hcne⟩ := hne x.natAbs
      simp only [hc, List.cons_append, List.cons.injEq] at h
      exact absurd h.1 hcne
    · rw [if_neg hx, if_neg hy] at h ⊢
      obtain ⟨h1, h2⟩ := sep_cancel _ _ _ _ (natToDec_no_minus _) (natToDec_no_minus _) h
      exact ⟨by rw [h1], h2⟩
  exact ⟨Itoa_injective x y (String.ext key.1), key.2⟩

theorem topupOrderID_injective (u1 t1 u2 t2 : Int)
    (h : topupOrderID u1 t1 = topupOrderID u2 t2) : u1 = u2 ∧ t1 = t2 := by
  unfold topupOrderID at h
  have hd := congrArg String.data h
  simp only [String.data_append, List.append_assoc] at hd
  have hd2 := List.append_cancel_left hd
  obtain ⟨hu, ht⟩ := Itoa_sep_cancel u1 u2 _ _ hd2
  exact ⟨hu, Itoa_injective t1 t2 (String.ext ht)⟩

/-- Every transaction that the top-up handler requests from the gateway carries the order
identifier of the customer and the clock. -/
theorem handleTopupAmount_gatewayLog (w : World) (s s' : Bot) (u chatID : Int) (text : String)
    (h : handleTopupAmount w s u chatID text = some s') :
    s'.gatewayLog = s.gatewayLog ∨
      ∃ amt, s'.gatewayLog
        = s.gatewayLog ++ [{ orderID := topupOrderID u w.nowUnix, amount := amt }] := by
  unfold handleTopupAmount at h
  cases ha : Atoi text with
  | none =>
    rw [ha] at h
    simp only [Option.some.injEq] at h
    subst h; exact Or.inl rfl
  | some amt =>
    rw [ha] at h
    dsimp only at h
    by_cases hlt : amt < 5000
    · rw [if_pos hlt] at h
      simp only [Option.some.injEq] at h
      subst h; exact Or.inl rfl
    · rw [if_neg hlt] at h
      right
      refine ⟨amt, ?_⟩
      cases hc : w.createTransaction ("ZIVPN-TOPUP-" ++ Itoa u ++ "-" ++ Itoa w.nowUnix) amt with
      | none =>
        rw [hc] at h
        simp only [Option.some.injEq] at h
        subst h; rfl
      | some payment =>
        rw [hc] at h
        simp only [setTemp] at h
        cases ht : mapGet s.tempUserData u with
        | none => rw [ht] at h; simp at h
        | some data =>
          rw [ht] at h
          simp only [mapGet_mapSet_same, Option.some.injEq] at h
          subst h; rfl

/-! ## Lemmas on the paths that debit and then provision -/

theorem getBalance_deductBalance_covered {d : Disk} (h : Healthy d) (c x : Int) (h0 : 0 ≤ x)
    (hx : x ≤ getBalance d c) :
    getBalance (deductBalance d c x).disk c = getBalance d c - x := by
  rw [getBalance_deductBalance h]
  split
  · rename_i hnone
    have hb0 : getBalance d c = 0 := by rw [getBalance_eq, hnone]; rfl
    omega
  · rw [subInt64_of_nonneg _ _ (by omega) h0]
    exact max_eq_right (by omega)

theorem pendingOf_deductBalance {d : Disk} (h : Healthy d) (c x : Int) :
    pendingOf (deductBalance d c x).disk c = pendingOf d c := by
  unfold pendingOf
  rw [deductBalance_records h, findEntry_modify_same (records d) c _ (debitEntry_id x)]
  cases findEntry (records d) c with
  | none => rfl
  | some e =>
    simp only [Option.map_some', debitEntry]
    split <;> rfl

/-- The purchase handler on a number of days whose price, as the code computes it, the
balance covers: the debit, one run of `createUser`, and the two `delete` statements. -/
theorem handleCreateDays_paid (cfg : BotConfig) (w : World) (s : Bot) (msg : Message)
    (days : Int) (data : List (String × String))
    (hdays : Atoi (TrimSpace msg.text) = some days) (hlo : 1 ≤ days) (hhi : days ≤ 365)
    (htemp : mapGet s.tempUserData msg.fromID = some data)
    (hd : Healthy s.disk)
    (hbal : mulInt64 days cfg.DailyPrice ≤ getBalance s.disk msg.fromID) :
    handleState cfg w s msg "create_days" =
      some (closeSession (createUser cfg w
        { s with
          tempUserData :=
            mapSet s.tempUserData msg.fromID (mapSet data "days" (TrimSpace msg.text)),
          disk := (deductBalance s.disk msg.fromID (mulInt64 days cfg.DailyPrice)).disk }
        msg.chatID msg.fromID (strGet data "password") days) msg.fromID) := by
  have hrange : ¬ (days < 1 ∨ days > 365) := by omega
  have hnlt : ¬ getBalance s.disk msg.fromID < mulInt64 days cfg.DailyPrice := by omega
  have hpw : getTemp
      { s with
        tempUserData :=
          mapSet s.tempUserData msg.fromID (mapSet data "days" (TrimSpace msg.text)),
        disk := (deductBalance s.disk msg.fromID (mulInt64 days cfg.DailyPrice)).disk }
      msg.fromID "password" = strGet data "password" := by
    unfold getTemp strGet
    rw [mapGet_mapSet_same]
    simp only [Option.getD_some]
    rw [mapGet_mapSet_ne data "days" "password" _ (by decide)]
  rw [handleState_create_days]
  simp only [handleCreateDays, validateNumber, hdays, hrange, if_false, setTemp, htemp,
    if_neg hnlt, deductBalance_failed hd, hpw]
  rfl

theorem mem_mapSet {κ ν : Type} [DecidableEq κ] (m : List (κ × ν)) (k : κ) (v : ν)
    (hnd : (m.map Prod.fst).Nodup) :
    ∀ kv ∈ mapSet m k v, kv = (k, v) ∨ (kv ∈ m ∧ kv.1 ≠ k) := by
  induction m with
  | nil =>
    intro kv hkv
    simp only [mapSet, List.mem_singleton] at hkv
    exact Or.inl hkv
  | cons x m ih =>
    obtain ⟨k0, v0⟩ := x
    simp only [List.map_cons, List.nodup_cons] at hnd
    intro kv hkv
    simp only [mapSet] at hkv
    by_cases hk : k0 = k
    · rw [if_pos hk] at hkv
      rcases List.mem_cons.1 hkv with h | h
      · left; rw [h, hk]
      · right
        refine ⟨List.mem_cons_of_mem _ h, ?_⟩
        intro hkk
        apply hnd.1
        rw [hk, ← hkk]
        exact List.mem_map_of_mem Prod.fst h
    · rw [if_neg hk] at hkv
      rcases List.mem_cons.1 hkv with h | h
      · right
        rw [h]
        exact ⟨List.mem_cons_self _ _, hk⟩
      · rcases ih hnd.2 kv h with h' | h'
        · exact Or.inl h'
        · exact Or.inr ⟨List.mem_cons_of_mem _ h'.1, h'.2⟩

theorem sessionConfirmed_no_order (w : World) (data : List (String × String))
    (h : mapGet data "order_id" = none) : sessionConfirmed w data = false := by
  unfold sessionConfirmed
  rw [h]

/-- While no entry of customer `u` carries an order id, ticks leave the registry entry and
the wallet record of `u` as they are, whatever the gateway reports. -/
theorem runTicks_skips (cfg : BotConfig) (u : Int) (ws : List World) (s : Bot)
    (h : ∀ kv ∈ s.tempUserData, kv.1 = u → mapGet kv.2 "order_id" = none) :
    mapGet (runTicks cfg ws s).tempUserData u = mapGet s.tempUserData u ∧
      findEntry (records (runTicks cfg ws s).disk) u = findEntry (records s.disk) u := by
  induction ws generalizing s with
  | nil => exact ⟨rfl, rfl⟩
  | cons w ws ih =>
    have hskip : ∀ kv ∈ s.tempUserData, kv.1 ≠ u ∨ sessionConfirmed w kv.2 = false := by
      intro kv hkv
      by_cases hk : kv.1 = u
      · exact Or.inr (sessionConfirmed_no_order w kv.2 (h kv hkv hk))
      · exact Or.inl hk
    have h1 := foldl_checkSession_untouched cfg w u s.tempUserData s hskip
    have hsub := foldl_checkSession_subset cfg w s.tempUserData s
    have ih' := ih (tick cfg w s) (fun kv hkv hk => h kv (hsub kv hkv) hk)
    exact ⟨ih'.1.trans h1.1, ih'.2.trans h1.2⟩

/-- The registry after `tempUserData[userID] = make(...)` and the `chat_id` assignment. -/
theorem freshTemp_entries (s : Bot) (chatID u : Int)
    (hnd : (s.tempUserData.map Prod.fst).Nodup) :
    mapGet (freshTemp s chatID u).tempUserData u = some [("chat_id", Itoa chatID)] ∧
      ∀ kv ∈ (freshTemp s chatID u).tempUserData, kv.1 = u →
        mapGet kv.2 "order_id" = none := by
  refine ⟨mapGet_mapSet_same _ _ _, ?_⟩
  intro kv hkv hk
  rcases mem_mapSet s.tempUserData u [("chat_id", Itoa chatID)] hnd kv hkv with h | h
  · rw [h]; rfl
  · exact absurd hk h.2

/-! ## Lemmas on the renewal -/

/-- Up to 106751 days either way the duration does not wrap around. -/
theorem daysDuration_exact (days : Int) (hlo : -106751 ≤ days) (hhi : days ≤ 106751) :
    daysDuration days = days * 86400000000000 := by
  unfold daysDuration wrapInt64
  have h1 : (days * 24 + 9223372036854775808) % 18446744073709551616 - 9223372036854775808
      = days * 24 := by omega
  rw [h1]
  omega

/-- Adding whole seconds to an instant moves its Unix second by as much. -/
theorem Instant.Add_seconds (t : Instant) (secs : Int) (h0 : 0 ≤ t.nsec)
    (h1 : t.nsec < 1000000000) :
    (t.Add (secs * 1000000000)).time
      = { unix := t.time.unix + secs, offset := t.time.offset } := by
  unfold Instant.Add
  have h : (t.nsec + secs * 1000000000) / 1000000000 = secs := by omega
  simp only [h]

/-- The time that the loop of `renewUser` extends is `expiryBase`, and its nanoseconds are
those of a clock reading. -/
theorem currentExp_eq (parseDate : String → Option Time) (now : Instant) (stored : String)
    (h0 : 0 ≤ now.nsec) (h1 : now.nsec < 1000000000) :
    ∃ n, 0 ≤ n ∧ n < 1000000000 ∧
      (if Instant.Before (match parseDate stored with
            | some t => { time := t, nsec := 0 }
            | none => now) now = true then now
        else (match parseDate stored with
            | some t => ({ time := t, nsec := 0 } : Instant)
            | none => now))
        = { time := expiryBase parseDate now stored, nsec := n } := by
  unfold expiryBase
  cases parseDate stored with
  | none =>
    refine ⟨now.nsec, h0, h1, ?_⟩
    dsimp only
    split <;> rfl
  | some e =>
    dsimp only
    by_cases hb : Instant.Before { time := e, nsec := 0 } now = true
    · exact ⟨now.nsec, h0, h1, by rw [if_pos hb, if_pos hb]⟩
    · exact ⟨0, le_refl 0, by decide, by rw [if_neg hb, if_neg hb]⟩

/-- The loop body on a line: the line is replaced by `rewriteLine` and `found` is raised when
the line is the account's. -/
theorem renewStep_eq (parseDate : String → Option Time) (now : Instant) (password : String)
    (days : Int) (acc : RenewAcc) (line : String) (h0 : 0 ≤ now.nsec)
    (h1 : now.nsec < 1000000000) (hlo : -106751 ≤ days) (hhi : days ≤ 106751) :
    (renewStep parseDate now password days acc line).newUsers
        = acc.newUsers ++ [rewriteLine parseDate now password days line] ∧
      (renewStep parseDate now password days acc line).found
        = (acc.found || lineMatches line password) := by
  unfold renewStep rewriteLine lineMatches
  by_cases hm : (splitBar line).length ≥ 2 ∧ TrimSpace ((splitBar line).getD 0 "") = password
  · simp only [hm, and_self, if_true, decide_True, Bool.or_true]
    refine ⟨?_, trivial⟩
    obtain ⟨n, hn0, hn1, hcur⟩ := currentExp_eq parseDate now
      (TrimSpace ((splitBar line).getD 1 "")) h0 h1
    rw [hcur, daysDuration_exact days hlo hhi]
    have hsec : days * 86400000000000 = (days * 86400) * 1000000000 := by ring
    rw [hsec, Instant.Add_seconds _ _ hn0 hn1]
    rfl
  · simp only [hm, if_false, decide_False, Bool.or_false, Bool.false_eq_true]
    exact ⟨trivial, trivial⟩

/-- The loop of `renewUser`: every line is replaced by `rewriteLine`, in order. -/
theorem foldl_renewStep (parseDate : String → Option Time) (now : Instant) (password : String)
    (days : Int) (users : List String) (acc : RenewAcc) (h0 : 0 ≤ now.nsec)
    (h1 : now.nsec < 1000000000) (hlo : -106751 ≤ days) (hhi : days ≤ 106751) :
    (users.foldl (renewStep parseDate now password days) acc).newUsers
        = acc.newUsers ++ users.map (rewriteLine parseDate now password days) ∧
      (users.foldl (renewStep parseDate now password days) acc).found
        = (acc.found || users.any fun line => lineMatches line password) := by
  induction users generalizing acc with
  | nil => simp
  | cons line rest ih =>
    rw [List.foldl_cons]
    obtain ⟨e1, e2⟩ := renewStep_eq parseDate now password days acc line h0 h1 hlo hhi
    obtain ⟨i1, i2⟩ := ih (renewStep parseDate now password days acc line)
    rw [i1, i2, e1, e2]
    simp [Bool.or_assoc]

/-- The base of a renewal is the later of the two instants. -/
theorem expiryBase_unix (parseDate : String → Option Time) (now : Instant) (stored : String) :
    (parseDate stored = none → expiryBase parseDate now stored = now.time) ∧
    (∀ e, parseDate stored = some e →
      (expiryBase parseDate now stored).unix = max now.time.unix e.unix ∧
      (expiryBase parseDate now stored = now.time ∨ expiryBase parseDate now stored = e)) := by
  unfold expiryBase
  constructor
  · intro h; rw [h]
  · intro e h
    rw [h]
    dsimp only
    by_cases hb : Instant.Before { time := e, nsec := 0 } now = true
    · rw [if_pos hb]
      refine ⟨?_, Or.inl rfl⟩
      unfold Instant.Before at hb
      simp only [decide_eq_true_eq] at hb
      omega
    · rw [if_neg hb]
      refine ⟨?_, Or.inr rfl⟩
      unfold Instant.Before at hb
      simp only [decide_eq_true_eq] at hb
      omega

/-- Moving a time by whole days moves its day number by as much. -/
theorem absDays_add_days (t : Time) (days : Int) :
    Time.absDays { unix := t.unix + days * 86400, offset := t.offset } = t.absDays + days := by
  unfold Time.absDays
  simp only
  omega

/-! ## Lemmas on sequences of ledger operations -/

theorem foldFits_cons {b : Int} {op : LedgerOp} {ops : List LedgerOp}
    (h : foldFits b (op :: ops)) :
    specStep b op ≤ 9223372036854775807 ∧ foldFits (specStep b op) ops := by
  constructor
  · exact h 1 (by simp)
  · intro k hk
    exact h (k + 1) (by simpa using hk)

theorem specStep_nonneg (b : Int) (op : LedgerOp) (hp : op.positive) (hb : 0 ≤ b) :
    0 ≤ specStep b op := by
  cases op with
  | credit a =>
    have ha : 0 < a := hp
    show 0 ≤ b + a
    omega
  | debit x => exact le_max_left _ _

/-- The balance after a sequence of ledger operations is the fold of the specification, as
long as no balance along the fold exceeds the largest `int`. -/
theorem runOps_fold {d : Disk} (hd : Healthy d) (c : Int) (ops : List LedgerOp)
    (hpos : ∀ op ∈ ops, op.positive) (hb : 0 ≤ getBalance d c)
    (hfit : foldFits (getBalance d c) ops) :
    getBalance (runOps c d ops) c = ops.foldl specStep (getBalance d c) := by
  induction ops generalizing d with
  | nil => rfl
  | cons op ops ih =>
    have hp := hpos op (List.mem_cons_self _ _)
    have hf := foldFits_cons hfit
    have hstep := applyOp_step hd c op hp hb hf.1
    have hb1 : 0 ≤ getBalance (applyOp c d op) c := by
      rw [hstep.2]; exact specStep_nonneg _ _ hp hb
    have := ih hstep.1 (fun o ho => hpos o (List.mem_cons_of_mem _ ho)) hb1
      (by rw [hstep.2]; exact hf.2)
    simp only [runOps, List.foldl_cons] at this ⊢
    rw [this, hstep.2]

/-- A debit of more than the balance that does not fall below the smallest `int` leaves 0. -/
theorem getBalance_deductBalance_overdraw {d : Disk} (hd : Healthy d) (c amount : Int)
    (hlt : getBalance d c < amount)
    (hlow : -9223372036854775808 ≤ getBalance d c - amount) :
    getBalance (deductBalance d c amount).disk c = 0 := by
  rw [getBalance_deductBalance hd]
  split
  · rfl
  · rw [subInt64_exact _ _ (by unfold inInt64; omega)]
    exact max_eq_left (by omega)

/-! ## Lemmas on a tick over any registry -/

theorem settleBuyAccount_healthy (cfg : BotConfig) (w : World) (s : Bot) (u chatID : Int)
    (data : List (String × String)) (h : Healthy s.disk) :
    Healthy (settleBuyAccount cfg w s u chatID data).disk := by
  unfold settleBuyAccount
  dsimp only
  split
  · exact (createUser_effect cfg w _ chatID u _ _ (deductBalance_healthy h _ _)).2.2.2
  · exact h

theorem checkSession_healthy (cfg : BotConfig) (w : World) (s : Bot) (u : Int)
    (data : List (String × String)) (h : Healthy s.disk) :
    Healthy (checkSession cfg w s u data).disk := by
  cases hc : sessionConfirmed w data with
  | false => rw [checkSession_skip cfg w s u data hc]; exact h
  | true =>
    rw [checkSession_confirmed cfg w s u data hc, closeSession_disk]
    split
    · exact (settleTopup_effect cfg w s u _ _ h).1
    · split
      · exact settleBuyAccount_healthy cfg w s u _ data h
      · exact h

theorem tickUpTo_healthy (cfg : BotConfig) (w : World) (s : Bot)
    (pre : List (Int × List (String × String))) (h : Healthy s.disk) :
    Healthy (tickUpTo cfg w s pre).disk := by
  unfold tickUpTo
  induction pre generalizing s with
  | nil => exact h
  | cons kv l ih =>
    rw [List.foldl_cons]
    exact ih _ (checkSession_healthy cfg w s kv.1 kv.2 h)

/-- A tick around the registry entry of `c`: the entries visited before leave the wallet
record of `c` as it was, and the record after the tick is the one that the loop body leaves
when it is run on the entry of `c`. The keys of a Go map are distinct, so no other entry has
the key `c`. -/
theorem tick_around (cfg : BotConfig) (w : World) (s : Bot) (c : Int)
    (data : List (String × String)) (pre post : List (Int × List (String × String)))
    (hreg : s.tempUserData = pre ++ (c, data) :: post)
    (hkeys : ∀ kv ∈ pre ++ post, kv.1 ≠ c) :
    findEntry (records (tickUpTo cfg w s pre).disk) c = findEntry (records s.disk) c ∧
      findEntry (records (tick cfg w s).disk) c
        = findEntry (records (checkSession cfg w (tickUpTo cfg w s pre) c data).disk) c := by
  constructor
  · exact (foldl_checkSession_untouched cfg w c pre s
      fun kv hkv => Or.inl (hkeys kv (List.mem_append_left _ hkv))).2
  · unfold tick tickUpTo
    rw [hreg, List.foldl_append, List.foldl_cons]
    exact (foldl_checkSession_untouched cfg w c post _
      fun kv hkv => Or.inl (hkeys kv (List.mem_append_right _ hkv))).2

/-- A tick is the loop up to an entry, the loop body on that entry, and the loop over the
entries that follow. -/
theorem tick_eq_around (cfg : BotConfig) (w : World) (s : Bot) (c : Int)
    (data : List (String × String)) (pre post : List (Int × List (String × String)))
    (hreg : s.tempUserData = pre ++ (c, data) :: post) :
    tick cfg w s = tickUpTo cfg w (checkSession cfg w (tickUpTo cfg w s pre) c data) post := by
  unfold tick tickUpTo
  rw [hreg, List.foldl_append, List.foldl_cons]

theorem getBalance_of_findEntry {d d' : Disk} {c : Int}
    (h : findEntry (records d') c = findEntry (records d) c) :
    getBalance d' c = getBalance d c := by
  rw [getBalance_eq, getBalance_eq, h]

theorem pendingOf_of_findEntry {d d' : Disk} {c : Int}
    (h : findEntry (records d') c = findEntry (records d) c) :
    pendingOf d' c = pendingOf d c := by
  unfold pendingOf; rw [h]

theorem createdCountOf_of_findEntry {d d' : Disk} {c : Int}
    (h : findEntry (records d') c = findEntry (records d) c) :
    createdCountOf d' c = createdCountOf d c := by
  unfold createdCountOf; rw [h]

theorem tickUpTo_of_skip (cfg : BotConfig) (w : World) (s : Bot)
    (pre : List (Int × List (String × String)))
    (h : ∀ kv ∈ pre, sessionConfirmed w kv.2 = false) : tickUpTo cfg w s pre = s :=
  foldl_checkSession_skip cfg w pre s h

/-- The settlement of a confirmed top-up within a tick over any registry, on a store that
loads and saves: the balance and the pending slot of `c` after the tick in terms of those
before it, and the provisioning call that the loop body appends for the entry of `c`. -/
theorem tick_topup_effect (cfg : BotConfig) (w : World) (s : Bot) (c a : Int)
    (data : List (String × String)) (pre post : List (Int × List (String × String)))
    (hreg : s.tempUserData = pre ++ (c, data) :: post)
    (hkeys : ∀ kv ∈ pre ++ post, kv.1 ≠ c)
    (hconf : sessionConfirmed w data = true)
    (haction : strGet data "action" = "topup")
    (hprice : Atoi (strGet data "price") = some a)
    (hd : Healthy s.disk) :
    let cur := addInt64 (getBalance s.disk c) a
    let pw := (pendingOf s.disk c).1
    let dd := (pendingOf s.disk c).2
    let req := mulInt64 dd cfg.DailyPrice
    let mid := tickUpTo cfg w s pre
    ((pw ≠ "" ∧ 0 < dd ∧ req ≤ cur) →
      getBalance (tick cfg w s).disk c = max 0 (subInt64 cur req) ∧
        pendingOf (tick cfg w s).disk c = ("", 0) ∧
        (checkSession cfg w mid c data).apiLog
          = mid.apiLog ++ [{ endpoint := "/user/create", password := pw, days := dd }]) ∧
    (¬ (pw ≠ "" ∧ 0 < dd ∧ req ≤ cur) →
      getBalance (tick cfg w s).disk c = cur ∧
        pendingOf (tick cfg w s).disk c = pendingOf s.disk c ∧
        (checkSession cfg w mid c data).apiLog = mid.apiLog) := by
  intro cur pw dd req mid
  have har := tick_around cfg w s c data pre post hreg hkeys
  have hmid : Healthy mid.disk := tickUpTo_healthy cfg w s pre hd
  have hbm : getBalance mid.disk c = getBalance s.disk c := getBalance_of_findEntry har.1
  have hpm : pendingOf mid.disk c = pendingOf s.disk c := pendingOf_of_findEntry har.1
  have hbody : checkSession cfg w mid c data =
      closeSession (settleTopup cfg w mid c ((Atoi (strGet data "chat_id")).getD 0)
        (strGet data "price")) c := checkSession_topup cfg w mid c data hconf haction
  have heff := settleTopup_effect cfg w mid c ((Atoi (strGet data "chat_id")).getD 0)
    (strGet data "price") hmid
  simp only [hprice, Option.getD_some, hbm, hpm] at heff
  have hbt : getBalance (tick cfg w s).disk c
      = getBalance (settleTopup cfg w mid c ((Atoi (strGet data "chat_id")).getD 0)
        (strGet data "price")).disk c := by
    rw [getBalance_of_findEntry har.2, hbody, closeSession_disk]
  have hpt : pendingOf (tick cfg w s).disk c
      = pendingOf (settleTopup cfg w mid c ((Atoi (strGet data "chat_id")).getD 0)
        (strGet data "price")).disk c := by
    rw [pendingOf_of_findEntry har.2, hbody, closeSession_disk]
  rw [hbt, hpt, hbody, closeSession_apiLog]
  exact ⟨heff.2.2.2.1, heff.2.2.2.2⟩

/-! ## Lemmas on the purchase that is parked -/

/-- The purchase handler on a number of days whose price, as the code computes it, exceeds
the balance: the purchase is parked in the pending slot. -/
theorem handleCreateDays_parked (cfg : BotConfig) (w : World) (s : Bot) (msg : Message)
    (days : Int) (data : List (String × String))
    (hdays : Atoi (TrimSpace msg.text) = some days) (hlo : 1 ≤ days) (hhi : days ≤ 365)
    (htemp : mapGet s.tempUserData msg.fromID = some data)
    (hbal : getBalance s.disk msg.fromID < mulInt64 days cfg.DailyPrice) :
    handleState cfg w s msg "create_days" =
      some (resetState
        { sendMessage
            { s with tempUserData :=
                mapSet s.tempUserData msg.fromID (mapSet data "days" (TrimSpace msg.text)) }
            msg.chatID
            (.insufficientForCreate (getBalance s.disk msg.fromID)
              (mulInt64 days cfg.DailyPrice) days) with
          disk := (setPendingPurchase s.disk msg.fromID (strGet data "password") days).disk }
        msg.fromID) := by
  have hrange : ¬ (days < 1 ∨ days > 365) := by omega
  have hpw : getTemp
      { s with tempUserData :=
          mapSet s.tempUserData msg.fromID (mapSet data "days" (TrimSpace msg.text)) }
      msg.fromID "password" = strGet data "password" := by
    unfold getTemp strGet
    rw [mapGet_mapSet_same]
    simp only [Option.getD_some]
    rw [mapGet_mapSet_ne data "days" "password" _ (by decide)]
  rw [handleState_create_days]
  simp only [handleCreateDays, validateNumber, hdays, hrange, if_false, setTemp, htemp,
    if_pos hbal, sendMessage_disk, getTemp_sendMessage, hpw]

/-- A debit that the balance of an existing record covers, the difference within the range
of an `int`. -/
theorem getBalance_deductBalance_exact {d : Disk} (h : Healthy d) (c x : Int)
    (hrec : findEntry (records d) c ≠ none) (hx : x ≤ getBalance d c)
    (hin : inInt64 (getBalance d c - x)) :
    getBalance (deductBalance d c x).disk c = getBalance d c - x := by
  rw [getBalance_deductBalance h, if_neg hrec, subInt64_exact _ _ hin]
  exact max_eq_right (by omega)

theorem findEntry_of_pending {d : Disk} {c : Int} {pw : String} {dd : Int}
    (hp : pendingOf d c = (pw, dd)) (hpw : pw ≠ "") : findEntry (records d) c ≠ none := by
  intro hnone
  unfold pendingOf at hp
  rw [hnone] at hp
  exact hpw (congrArg Prod.fst hp).symm

/-! ## Lemmas on the file that the renewal writes -/

/-- What `renewUser` leaves on a database that loads: the account lines rewritten when one
of them is the account's and the file can be written. -/
theorem renewUser_lines (parseDate : String → Option Time) (now : Instant) (password : String)
    (days : Int) (h0 : 0 ≤ now.nsec) (h1 : now.nsec < 1000000000)
    (hlo : -106751 ≤ days) (hhi : days ≤ 106751)
    (d : ApiDisk) (ls : List String) (restartOk : Bool) (hls : d.users = .lines ls) :
    ((∃ line ∈ accountLines ls, lineMatches line password = true) → d.usersWritable = true →
      (renewUser parseDate now restartOk d password days).1
        = { d with
            users := .lines
              ((accountLines ls).map (rewriteLine parseDate now password days)) }) ∧
    ((∀ line ∈ accountLines ls, lineMatches line password = false) →
      renewUser parseDate now restartOk d password days = (d, .notFound)) := by
  have hload : loadUsers d = some (accountLines ls) := by
    unfold loadUsers; rw [hls]; rfl
  obtain ⟨e1, e2⟩ := foldl_renewStep parseDate now password days (accountLines ls)
    { found := false, newUsers := [], newExpDate := "" } h0 h1 hlo hhi
  have hnew : ((accountLines ls).foldl (renewStep parseDate now password days)
      { found := false, newUsers := [], newExpDate := "" }).newUsers
      = (accountLines ls).map (rewriteLine parseDate now password days) := by
    rw [e1]; rfl
  have hfound : ((accountLines ls).foldl (renewStep parseDate now password days)
      { found := false, newUsers := [], newExpDate := "" }).found = true
      ↔ ∃ line ∈ accountLines ls, lineMatches line password = true := by
    rw [e2]; simp
  constructor
  · intro hex hw
    unfold renewUser
    rw [hload]
    simp only [hfound.2 hex, hw, hnew, Bool.not_true, Bool.false_eq_true, if_false]
    cases restartOk <;> rfl
  · intro hno
    have hnf : ((accountLines ls).foldl (renewStep parseDate now password days)
        { found := false, newUsers := [], newExpDate := "" }).found = false := by
      cases hf : ((accountLines ls).foldl (renewStep parseDate now password days)
        { found := false, newUsers := [], newExpDate := "" }).found with
      | false => rfl
      | true =>
        obtain ⟨line, hl, hm⟩ := hfound.1 hf
        rw [hno line hl] at hm
        exact absurd hm Bool.false_ne_true
    unfold renewUser
    rw [hload]
    simp only [hnf, Bool.not_false, if_true]

/-! ## Lemmas on repeated trial requests -/

/-- One trial per customer at balance 0, on a store that keeps the flag. For a customer who is
not the admin, has balance 0 and an unset trial-used flag, on a wallet store that loads and
saves and with a provisioning API that answers every request with success: the first trial
request (a valid credential) makes exactly one provisioning call and sets the trial-used
flag, the balance staying 0; every further sequence of trial messages of that customer is
handled without a provisioning call and without any change to the disk. -/
theorem trial_succeeds_once (cfg : BotConfig) (w : World) (s : Bot) (c : Int)
    (m : Message) (ms : List Message)
    (hadmin : c ≠ cfg.AdminID) (hd : Healthy s.disk)
    (hbal : getBalance s.disk c = 0) (hflag : hasUsedTrial s.disk c = false)
    (hfrom : m.fromID = c)
    (hvalid : (validatePassword s m.chatID (TrimSpace m.text)).2 = true)
    (hrest : ∀ m' ∈ ms, m'.fromID = c)
    (hapi : ∀ log call, ∃ pw expired, w.api log call = .success pw expired) :
    ∃ s1 sN, handleState cfg w s m "trial_password" = some s1 ∧
      s1.apiLog = s.apiLog ++
        [{ endpoint := "/user/create", password := TrimSpace m.text, days := 1 }] ∧
      hasUsedTrial s1.disk c = true ∧ getBalance s1.disk c = 0 ∧
      runTrialRequests cfg w s1 ms = some sN ∧ sN.apiLog = s1.apiLog ∧ sN.disk = s1.disk := by
  subst hfrom
  obtain ⟨pw, ex, hres⟩ := hapi s.apiLog
    { endpoint := "/user/create", password := TrimSpace m.text, days := 1 }
  have hgate0 : ¬ (m.fromID ≠ cfg.AdminID ∧ getBalance s.disk m.fromID = 0 ∧
      hasUsedTrial s.disk m.fromID = true) := by
    rw [hflag]; simp
  have hs1 : handleTrialPassword cfg w s m.fromID m.chatID (TrimSpace m.text) =
      sendAccountInfo (resetState
        { s with
          apiLog := s.apiLog ++
            [{ endpoint := "/user/create", password := TrimSpace m.text, days := 1 }]
          disk := (markTrialUsed s.disk m.fromID).disk } m.fromID) m.chatID pw ex := by
    unfold handleTrialPassword
    rw [validatePassword_ok s m.chatID _ hvalid]
    dsimp only
    rw [if_neg hgate0]
    unfold apiCall
    rw [hres]
    dsimp only
    rw [if_pos hbal]
  have hflag1 : hasUsedTrial
      (handleTrialPassword cfg w s m.fromID m.chatID (TrimSpace m.text)).disk m.fromID = true := by
    rw [hs1]; exact hasUsedTrial_markTrialUsed hd _
  have hbal1 : getBalance
      (handleTrialPassword cfg w s m.fromID m.chatID (TrimSpace m.text)).disk m.fromID = 0 := by
    rw [hs1]; exact (getBalance_markTrialUsed hd _).trans hbal
  obtain ⟨sN, hrun, hlog, hdisk⟩ := runTrialRequests_refused cfg w m.fromID ms
    (handleTrialPassword cfg w s m.fromID m.chatID (TrimSpace m.text)) hrest
    ⟨hadmin, hbal1, hflag1⟩
  refine ⟨_, sN, handleState_trial cfg w s m, ?_, hflag1, hbal1, hrun, hlog, hdisk⟩
  rw [hs1]; rfl

/-! ## Theorems -/

/-- C1, refuted as stated. A credit that takes the balance past the largest `int` wraps
around: on a store that loads and saves, with unique ids, customer 7 at balance `2^63 - 1`,
the call `addBalance(7, 1)` leaves `-2^63`, where the fold gives `2^63`. And on a wallet
file that cannot be read every call returns an error and `getBalance` stays 0, where the
fold from 0 over a credit of 5 gives 5. -/
theorem C1_credit_wraps_around :
    (Healthy (diskOf [{ zeroEntry 7 with Balance := 9223372036854775807 }]) ∧
      UniqueIDs (diskOf [{ zeroEntry 7 with Balance := 9223372036854775807 }]) ∧
      getBalance (diskOf [{ zeroEntry 7 with Balance := 9223372036854775807 }]) 7
        = 9223372036854775807 ∧
      getBalance (runOps 7 (diskOf [{ zeroEntry 7 with Balance := 9223372036854775807 }])
        [.credit 1]) 7 = -9223372036854775808 ∧
      [LedgerOp.credit 1].foldl specStep 9223372036854775807 = 9223372036854775808) ∧
    (getBalance brokenWalletDisk 7 = 0 ∧
      (addBalance brokenWalletDisk 7 5).failed = true ∧
      getBalance (runOps 7 brokenWalletDisk [.credit 5]) 7 = 0 ∧
      [LedgerOp.credit 5].foldl specStep 0 = 5) := by
  decide

/-- C1, amended. On a wallet store that loads and saves, for every customer whose balance
`b0` (0 without a record) is not negative and every finite sequence of `addBalance` /
`deductBalance` calls with strictly positive amounts along which the fold of the
specification never exceeds the largest `int`, the balance read by `getBalance` afterwards
is the left fold of the sequence from `b0`, a credit mapping `b` to `b + a` and a debit
mapping `b` to `max 0 (b - d)`. The uniqueness of the ids is not needed. -/
theorem C1_balance_is_fold (d : Disk) (c : Int) (ops : List LedgerOp) (hd : Healthy d)
    (hpos : ∀ op ∈ ops, op.positive) (hb : 0 ≤ getBalance d c)
    (hfit : foldFits (getBalance d c) ops) :
    getBalance (runOps c d ops) c = ops.foldl specStep (getBalance d c) :=
  runOps_fold hd c ops hpos hb hfit

/-- C1, at a concrete store: a debit that hits the floor leaves no debt for the next credit
(balance 100, debit 250, credit 40 gives 40). -/
theorem C1_balance_is_fold_witness :
    getBalance (runOps 7 (diskOf [{ zeroEntry 7 with Balance := 100 }]) [.debit 250, .credit 40]) 7
      = 40 :=
  (C1_balance_is_fold (diskOf [{ zeroEntry 7 with Balance := 100 }]) 7 [.debit 250, .credit 40]
    (by decide) (by decide) (by decide) (by decide)).trans (by decide)

/-- C2, refuted as stated. On a store that loads and saves, customer 7 at balance `-5` (a
balance that `addBalance` stores for a negative amount) and the amount `2^63 - 1`, which is
greater than the balance: the difference wraps around to `2^63 - 4`, the floor is not
applied, and `deductBalance` returns no error and leaves that balance. -/
theorem C2_overdraw_wraps_around :
    Healthy (diskOf [{ zeroEntry 7 with Balance := -5 }]) ∧
      getBalance (addBalance (diskOf [zeroEntry 7]) 7 (-5)).disk 7 = -5 ∧
      getBalance (diskOf [{ zeroEntry 7 with Balance := -5 }]) 7 < 9223372036854775807 ∧
      (deductBalance (diskOf [{ zeroEntry 7 with Balance := -5 }]) 7
        9223372036854775807).failed = false ∧
      getBalance (deductBalance (diskOf [{ zeroEntry 7 with Balance := -5 }]) 7
        9223372036854775807).disk 7 = 9223372036854775804 := by
  decide

/-- C2, amended. On a wallet store that loads and saves, `deductBalance` with an amount
greater than the customer's balance, the difference `balance - amount` not falling below
the smallest `int` `-2^63`, returns no error and leaves the balance at exactly 0; for a
customer without a record it returns no error and leaves the disk as it was. -/
theorem C2_overdraw_clamps (d : Disk) (c amount : Int) (hd : Healthy d) :
    (getBalance d c < amount → -9223372036854775808 ≤ getBalance d c - amount →
      (deductBalance d c amount).failed = false ∧
        getBalance (deductBalance d c amount).disk c = 0) ∧
    (getWalletIndex (records d) c = none →
      deductBalance d c amount = { disk := d, failed := false }) := by
  constructor
  · intro hlt hlow
    exact ⟨deductBalance_failed hd c amount, getBalance_deductBalance_overdraw hd c amount hlt hlow⟩
  · intro hn
    rw [deductBalance_eq hd, hn]

/-- C2, at concrete stores: balance 100 and a debit of 250; a debit on an unknown customer. -/
theorem C2_overdraw_clamps_witness :
    getBalance (deductBalance (diskOf [{ zeroEntry 7 with Balance := 100 }]) 7 250).disk 7 = 0 ∧
      deductBalance (diskOf [{ zeroEntry 7 with Balance := 100 }]) 8 250 =
        { disk := diskOf [{ zeroEntry 7 with Balance := 100 }], failed := false } :=
  ⟨((C2_overdraw_clamps (diskOf [{ zeroEntry 7 with Balance := 100 }]) 7 250 (by decide)).1
      (by decide) (by decide)).2,
    (C2_overdraw_clamps (diskOf [{ zeroEntry 7 with Balance := 100 }]) 8 250 (by decide)).2
      (by decide)⟩

/-- C3. The floor of `deductBalance` does not make non-negativity an invariant: the admin
add-balance command passes a negative amount to `addBalance`, which stores a negative
balance. Here every balance is 0 before the admin sends `7251232303 -5000`, and the
customer's balance is -5000 afterwards. -/
theorem C3_negative_credit_stored :
    NonNegBalances (diskOf [zeroEntry 7251232303]) ∧
      (handleState cfg1000 happyWorld
          (botOf [(1, "admin_add_balance_input")] [] [zeroEntry 7251232303])
          { fromID := 1, chatID := 1, text := "7251232303 -5000" }
          "admin_add_balance_input").map
        (fun s => (getBalance s.disk 7251232303, decide (NonNegBalances s.disk)))
        = some (-5000, false) := by
  decide

/-- C4, refuted as stated: with amount 0 neither function rejects the call, and `addBalance`
creates a record for a customer that had none, so the store is not left unchanged. -/
theorem C4_zero_amount_accepted :
    (addBalance (diskOf []) 7 0).failed = false ∧
      (addBalance (diskOf []) 7 0).disk = diskOf [zeroEntry 7] ∧
      (addBalance (diskOf []) 7 0).disk ≠ diskOf [] ∧
      (deductBalance (diskOf [{ zeroEntry 7 with Balance := 100 }]) 7 0).failed = false := by
  decide

/-- C4, amended. `addBalance` and `deductBalance` do not reject an amount of 0: on a wallet
store that loads and saves they report no error and every balance stays what it was (for
`deductBalance`, when the customer's balance is not negative), `addBalance` creating a record
with balance 0 for a customer that has none. A strictly positive amount is the caller's
business: the top-up handler turns down every text that is not a number of at least 5000 and
changes nothing but the outbox. -/
theorem C4_sign_is_the_callers_business (d : Disk) (c : Int) (hd : Healthy d) :
    (addBalance d c 0).failed = false ∧
    (deductBalance d c 0).failed = false ∧
    (∀ c', getBalance (addBalance d c 0).disk c' = getBalance d c') ∧
    (getWalletIndex (records d) c = none →
      records (addBalance d c 0).disk = records d ++ [zeroEntry c]) ∧
    (0 ≤ getBalance d c → ∀ c', getBalance (deductBalance d c 0).disk c' = getBalance d c') ∧
    (∀ (w : World) (s : Bot) (userID chatID : Int) (text : String),
      (∀ amt, Atoi text = some amt → amt < 5000) →
        handleTopupAmount w s userID chatID text = some (sendMessage s chatID .topupInvalid)) := by
  refine ⟨addBalance_failed hd c 0, deductBalance_failed hd c 0, ?_, ?_, ?_, ?_⟩
  · intro c'
    by_cases hc : c' = c
    · subst hc; rw [getBalance_addBalance hd]; exact addInt64_zero _
    · exact getBalance_addBalance_other hd c c' 0 hc
  · intro hn
    rw [addBalance_records hd, upsert, hn]
    rfl
  · intro hb c'
    by_cases hc : c' = c
    · subst hc
      rw [getBalance_deductBalance hd]
      split
      · rename_i hn; rw [getBalance_eq, hn]; rfl
      · rw [subInt64_zero]; simpa using hb
    · exact getBalance_deductBalance_other hd c c' 0 hc
  · intro w s userID chatID text htext
    unfold handleTopupAmount
    cases hA : Atoi text with
    | none => rfl
    | some amt => simp [htext amt hA]

/-- C4 amended, at a concrete store: amount 0 for a customer with balance 100, and the text
`4999` sent to the top-up handler. -/
theorem C4_sign_is_the_callers_business_witness :
    (addBalance (diskOf [{ zeroEntry 7 with Balance := 100 }]) 7 0).failed = false ∧
      handleTopupAmount happyWorld (botOf [] [] []) 7 7 "4999"
        = some (sendMessage (botOf [] [] []) 7 .topupInvalid) :=
  ⟨(C4_sign_is_the_callers_business (diskOf [{ zeroEntry 7 with Balance := 100 }]) 7
      (by decide)).1,
    (C4_sign_is_the_callers_business (diskOf [{ zeroEntry 7 with Balance := 100 }]) 7
      (by decide)).2.2.2.2.2 happyWorld (botOf [] [] []) 7 7 "4999" (by decide)⟩

/-- C5, refuted as stated. The scenario of the specification (balance 0, a pending purchase
of 3 days at 1000 per day, a confirmed top-up of 5000) on a wallet file that cannot be
written: the tick drops the error of `addBalance`, so the balance stays 0 where the claim
has 2000, no provisioning call is made, and the session is deleted all the same. And on a
store that loads and saves, a balance of `2^63 - 1` and no pending purchase: the credit of
5000 wraps around to `-2^63 + 4999`, where the claim has `b + a`. -/
theorem C5_credit_lost_or_wrapped :
    (sessionConfirmed happyWorld (topupSession "5000") = true ∧
      getBalance (tick cfg1000 happyWorld
        { botOf [] [(7, topupSession "5000")] [] with
          disk := readOnlyDiskOf
            [{ zeroEntry 7 with PendingPassword := "secret", PendingDays := 3 }] }).disk 7 = 0 ∧
      (tick cfg1000 happyWorld
        { botOf [] [(7, topupSession "5000")] [] with
          disk := readOnlyDiskOf
            [{ zeroEntry 7 with PendingPassword := "secret", PendingDays := 3 }] }).apiLog = [] ∧
      (tick cfg1000 happyWorld
        { botOf [] [(7, topupSession "5000")] [] with
          disk := readOnlyDiskOf
            [{ zeroEntry 7 with PendingPassword := "secret", PendingDays := 3 }] }).tempUserData
        = []) ∧
    (getBalance (diskOf [{ zeroEntry 7 with Balance := 9223372036854775807 }]) 7
        = 9223372036854775807 ∧
      getBalance (tick cfg1000 happyWorld
        (botOf [] [(7, topupSession "5000")]
          [{ zeroEntry 7 with Balance := 9223372036854775807 }])).disk 7
        = -9223372036854770809) := by
  decide

/-- C5, amended. Settlement of a confirmed top-up, on a wallet store that loads and saves
and as long as the amount `a`, the sum `b + a`, the price `d * p` and the difference
`b + a - d * p` are within the range of a 64-bit `int`. A tick in which the gateway confirms
the top-up session of customer `c`, whatever the other entries of the registry are and
whether they are confirmed or not, ends, with `b` the balance before and `p` the unit price:
when the pending slot holds a credential `pw` and days `dd ≥ 1` with `dd * p ≤ b + a`, with
balance `b + a - dd * p` and an empty pending slot, the loop body having made for this
session exactly one provisioning call, the create request for `(pw, dd)`; and when
`b + a < dd * p` or there is no pending purchase, with balance `b + a` and the pending slot
as it was, the loop body having made no provisioning call for this session. The tick is the
loop up to the entry of `c` (`tickUpTo`), the loop body on that entry, and the loop over the
entries that follow; when no other entry is confirmed in the tick these calls are all the
calls of the tick. The keys of the registry, a Go map, are distinct. -/
theorem C5_confirmed_topup_settles (cfg : BotConfig) (w : World) (s : Bot) (c a : Int)
    (data : List (String × String)) (pre post : List (Int × List (String × String)))
    (hreg : s.tempUserData = pre ++ (c, data) :: post)
    (hkeys : ∀ kv ∈ pre ++ post, kv.1 ≠ c)
    (hconf : sessionConfirmed w data = true)
    (haction : strGet data "action" = "topup")
    (hprice : Atoi (strGet data "price") = some a)
    (hd : Healthy s.disk)
    (_ha : inInt64 a) (hsum : inInt64 (getBalance s.disk c + a)) :
    tick cfg w s = tickUpTo cfg w (checkSession cfg w (tickUpTo cfg w s pre) c data) post ∧
    (∀ pw dd, pendingOf s.disk c = (pw, dd) → pw ≠ "" → 1 ≤ dd →
        inInt64 (dd * cfg.DailyPrice) →
        inInt64 (getBalance s.disk c + a - dd * cfg.DailyPrice) →
        dd * cfg.DailyPrice ≤ getBalance s.disk c + a →
      getBalance (tick cfg w s).disk c = getBalance s.disk c + a - dd * cfg.DailyPrice ∧
        pendingOf (tick cfg w s).disk c = ("", 0) ∧
        (checkSession cfg w (tickUpTo cfg w s pre) c data).apiLog
          = (tickUpTo cfg w s pre).apiLog
            ++ [{ endpoint := "/user/create", password := pw, days := dd }] ∧
        ((∀ kv ∈ pre ++ post, sessionConfirmed w kv.2 = false) →
          (tick cfg w s).apiLog
            = s.apiLog ++ [{ endpoint := "/user/create", password := pw, days := dd }])) ∧
    (∀ pw dd, pendingOf s.disk c = (pw, dd) →
        (pw = "" ∨ dd < 1 ∨
          (inInt64 (dd * cfg.DailyPrice) ∧ getBalance s.disk c + a < dd * cfg.DailyPrice)) →
      getBalance (tick cfg w s).disk c = getBalance s.disk c + a ∧
        pendingOf (tick cfg w s).disk c = pendingOf s.disk c ∧
        (checkSession cfg w (tickUpTo cfg w s pre) c data).apiLog
          = (tickUpTo cfg w s pre).apiLog ∧
        ((∀ kv ∈ pre ++ post, sessionConfirmed w kv.2 = false) →
          (tick cfg w s).apiLog = s.apiLog)) := by
  have heff := tick_topup_effect cfg w s c a data pre post hreg hkeys hconf haction hprice hd
  simp only [addInt64_exact _ _ hsum] at heff
  refine ⟨tick_eq_around cfg w s c data pre post hreg, ?_, ?_⟩
  · intro pw dd hp hpw hdd hreq hdiff hfit
    rw [hp] at heff
    simp only [mulInt64_exact _ _ hreq] at heff
    obtain ⟨h1, h2, h3⟩ := heff.1 ⟨hpw, by omega, hfit⟩
    refine ⟨?_, h2, h3, ?_⟩
    · rw [h1, subInt64_exact _ _ hdiff]
      exact max_eq_right (by omega)
    · intro hothers
      rw [tick_one_confirmed cfg w s c data pre post hreg hothers]
      rw [tickUpTo_of_skip cfg w s pre
        fun kv hkv => hothers kv (List.mem_append_left _ hkv)] at h3
      exact h3
  · intro pw dd hp hno
    rw [hp] at heff
    have hneg : ¬ (pw ≠ "" ∧ 0 < dd ∧ mulInt64 dd cfg.DailyPrice ≤ getBalance s.disk c + a) := by
      rintro ⟨h1, h2, h3⟩
      rcases hno with h | h | ⟨hin, h⟩
      · exact h1 h
      · omega
      · rw [mulInt64_exact _ _ hin] at h3; omega
    obtain ⟨h1, h2, h3⟩ := heff.2 hneg
    refine ⟨h1, h2.trans hp.symm, h3, ?_⟩
    intro hothers
    rw [tick_one_confirmed cfg w s c data pre post hreg hothers]
    rw [tickUpTo_of_skip cfg w s pre
      fun kv hkv => hothers kv (List.mem_append_left _ hkv)] at h3
    exact h3

/-- C5, the scenario of the specification, in a tick that also confirms the session of
another customer: balance 0, a pending purchase of 3 days at 1000 per day, a confirmed top-up
of 5000. The tick leaves balance 2000 and an empty pending slot, and the loop body makes one
provisioning call for the session, the only call of the tick. -/
theorem C5_confirmed_topup_settles_witness :
    getBalance (tick cfg1000 happyWorld
        (botOf [] [(8, topupSession "7000"), (7, topupSession "5000")]
          [{ zeroEntry 7 with PendingPassword := "secret", PendingDays := 3 }])).disk 7 = 2000 ∧
      pendingOf (tick cfg1000 happyWorld
        (botOf [] [(8, topupSession "7000"), (7, topupSession "5000")]
          [{ zeroEntry 7 with PendingPassword := "secret", PendingDays := 3 }])).disk 7
        = ("", 0) ∧
      (checkSession cfg1000 happyWorld (tickUpTo cfg1000 happyWorld
          (botOf [] [(8, topupSession "7000"), (7, topupSession "5000")]
            [{ zeroEntry 7 with PendingPassword := "secret", PendingDays := 3 }])
          [(8, topupSession "7000")]) 7 (topupSession "5000")).apiLog
        = [{ endpoint := "/user/create", password := "secret", days := 3 }] ∧
      (tick cfg1000 happyWorld
        (botOf [] [(8, topupSession "7000"), (7, topupSession "5000")]
          [{ zeroEntry 7 with PendingPassword := "secret", PendingDays := 3 }])).apiLog
        = [{ endpoint := "/user/create", password := "secret", days := 3 }] :=
  have h := (C5_confirmed_topup_settles cfg1000 happyWorld
    (botOf [] [(8, topupSession "7000"), (7, topupSession "5000")]
      [{ zeroEntry 7 with PendingPassword := "secret", PendingDays := 3 }])
    7 5000 (topupSession "5000") [(8, topupSession "7000")] [] rfl (by decide) (by decide)
    (by decide) (by decide) (by decide) (by decide) (by decide)).2.1 "secret" 3 (by decide)
    (by decide) (by decide) (by decide) (by decide) (by decide)
  ⟨h.1.trans (by decide), h.2.1, h.2.2.1.trans (by decide), by decide⟩

/-- C6, refuted as stated. At a unit price of `2^62`, a balance of 5 and 2 days asked, the
balance is less than `days * unit_price = 2^63`, but `required` wraps around to `-2^63`:
the handler takes the paid branch, makes a provisioning call, leaves the balance at 0 and
records no pending purchase. And on a wallet file that cannot be written (balance 1000,
3 days at 1000 per day, an earlier pending purchase of 9 days for `old`), the error of
`setPendingPurchase` is only logged: the slot still holds the earlier purchase. -/
theorem C6_purchase_not_parked :
    ((5 : Int) < 2 * 4611686018427387904 ∧
      (handleState { AdminID := 1, DailyPrice := 4611686018427387904 } happyWorld
          (botOf [(7, "create_days")] [(7, createSession)] [{ zeroEntry 7 with Balance := 5 }])
          { fromID := 7, chatID := 7, text := "2" } "create_days").map
        (fun s' => (getBalance s'.disk 7, s'.apiLog, pendingOf s'.disk 7))
        = some (0, [{ endpoint := "/user/create", password := "secret", days := 2 }], ("", 0))) ∧
    ((1000 : Int) < 3 * cfg1000.DailyPrice ∧
      (handleState cfg1000 happyWorld
          { botOf [(7, "create_days")] [(7, createSession)] [] with
            disk := readOnlyDiskOf
              [{ zeroEntry 7 with Balance := 1000, PendingPassword := "old", PendingDays := 9 }] }
          { fromID := 7, chatID := 7, text := "3" } "create_days").map
        (fun s' => (getBalance s'.disk 7, s'.apiLog, pendingOf s'.disk 7))
        = some (1000, [], ("old", 9))) := by
  decide

/-- C6, amended. Purchase with insufficient funds, on a wallet store that loads and saves
and with `days * DailyPrice` within the range of a 64-bit `int`. When the text of a
`create_days` message is a number of days in 1..365 and the customer's balance is below
`days * DailyPrice`, the handler returns normally (the customer's `tempUserData` entry
exists, as it does after `create_password`) and leaves the balance as it was, makes no
provisioning call, leaves the pending slot holding exactly the credential stored by
`create_password` and the requested days, creates no gateway transaction, and does not touch
the order id of the customer's entry (none is recorded when none was there). -/
theorem C6_insufficient_funds_parks_purchase (cfg : BotConfig) (w : World) (s : Bot)
    (msg : Message) (days : Int) (data : List (String × String))
    (hdays : Atoi (TrimSpace msg.text) = some days) (hlo : 1 ≤ days) (hhi : days ≤ 365)
    (htemp : mapGet s.tempUserData msg.fromID = some data)
    (hd : Healthy s.disk)
    (hreq : inInt64 (days * cfg.DailyPrice))
    (hbal : getBalance s.disk msg.fromID < days * cfg.DailyPrice) :
    ∃ s', handleState cfg w s msg "create_days" = some s' ∧
      getBalance s'.disk msg.fromID = getBalance s.disk msg.fromID ∧
      s'.apiLog = s.apiLog ∧
      pendingOf s'.disk msg.fromID = (strGet data "password", days) ∧
      s'.gatewayLog = s.gatewayLog ∧
      (mapGet s'.tempUserData msg.fromID).bind (fun m => mapGet m "order_id")
        = mapGet data "order_id" := by
  have hbal' : getBalance s.disk msg.fromID < mulInt64 days cfg.DailyPrice := by
    rw [mulInt64_exact _ _ hreq]; exact hbal
  refine ⟨_, handleCreateDays_parked cfg w s msg days data hdays hlo hhi htemp hbal',
    ?_, rfl, ?_, rfl, ?_⟩
  · exact getBalance_setPendingPurchase hd _ _ _
  · exact pendingOf_setPendingPurchase hd _ _ _
  · show (mapGet (mapSet s.tempUserData msg.fromID (mapSet data "days" (TrimSpace msg.text)))
        msg.fromID).bind (fun m => mapGet m "order_id") = _
    rw [mapGet_mapSet_same]
    exact mapGet_mapSet_ne data "days" "order_id" _ (by decide)

/-- C6, at the state reached by `startCreateUser` and `create_password` with credential
`secret`: balance 1000, price 1000 per day, 3 days asked. -/
theorem C6_insufficient_funds_parks_purchase_witness :
    ∃ s', handleState cfg1000 happyWorld
        { botOf [(7, "create_days")] [(7, createSession)]
            [{ zeroEntry 7 with Balance := 1000, PendingPassword := "old", PendingDays := 9 }]
          with outbox := [(7, .askPassword), (7, .askDays 1000)] }
        { fromID := 7, chatID := 7, text := " 3 " } "create_days" = some s' ∧
      getBalance s'.disk 7 = 1000 ∧ s'.apiLog = [] ∧ pendingOf s'.disk 7 = ("secret", 3) ∧
      s'.gatewayLog = [] ∧
      (mapGet s'.tempUserData 7).bind (fun m => mapGet m "order_id") = none :=
  C6_insufficient_funds_parks_purchase cfg1000 happyWorld
    { botOf [(7, "create_days")] [(7, createSession)]
        [{ zeroEntry 7 with Balance := 1000, PendingPassword := "old", PendingDays := 9 }]
      with outbox := [(7, .askPassword), (7, .askDays 1000)] }
    { fromID := 7, chatID := 7, text := " 3 " } 3 createSession
    (by decide) (by decide) (by decide) (by decide) (by decide) (by decide) (by decide)

/-- C7, the divergence: a confirmed payment that is lost. Customer 7 (balance 300) has an open top-up session
of 5000 and cancels; `cancelOperation` leaves the registry entry in place. The wallet file
can be read and cannot be written. In the tick in which the gateway reports the order as
completed, `addBalance` returns its error to the checker, which drops it and deletes the
session: the balance is still 300, the registry is empty, nothing was sent to the
provisioning API, and further ticks leave the balance at 300, so the payment is never
credited. On the same state with a wallet file that can be written the tick credits the
5000, also when it settles the session of another customer first. -/
theorem C7_confirmed_payment_lost :
    ((cancelOperation
        { botOf [(7, "topup_amount")] [(7, topupSession "5000")] [] with
          disk := readOnlyDiskOf [{ zeroEntry 7 with Balance := 300 }] } 7 7).tempUserData
        = [(7, topupSession "5000")] ∧
      sessionConfirmed happyWorld (topupSession "5000") = true ∧
      (addBalance (readOnlyDiskOf [{ zeroEntry 7 with Balance := 300 }]) 7 5000).failed = true ∧
      getBalance (tick cfg1000 happyWorld (cancelOperation
        { botOf [(7, "topup_amount")] [(7, topupSession "5000")] [] with
          disk := readOnlyDiskOf [{ zeroEntry 7 with Balance := 300 }] } 7 7)).disk 7 = 300 ∧
      (tick cfg1000 happyWorld (cancelOperation
        { botOf [(7, "topup_amount")] [(7, topupSession "5000")] [] with
          disk := readOnlyDiskOf [{ zeroEntry 7 with Balance := 300 }] } 7 7)).tempUserData = [] ∧
      getBalance (runTicks cfg1000 [happyWorld, happyWorld] (tick cfg1000 happyWorld
        (cancelOperation
          { botOf [(7, "topup_amount")] [(7, topupSession "5000")] [] with
            disk := readOnlyDiskOf [{ zeroEntry 7 with Balance := 300 }] } 7 7))).disk 7 = 300) ∧
    (getBalance (tick cfg1000 happyWorld (cancelOperation
        (botOf [(7, "topup_amount")] [(7, topupSession "5000")]
          [{ zeroEntry 7 with Balance := 300 }]) 7 7)).disk 7 = 5300 ∧
      getBalance (tick cfg1000 happyWorld (cancelOperation
        (botOf [(7, "topup_amount")] [(8, topupSession "7000"), (7, topupSession "5000")]
          [{ zeroEntry 7 with Balance := 300 }]) 7 7)).disk 7 = 5300) := by
  decide

/-- C8. The banned flag is written by the admin handlers and read by no request handler: a
banned customer's purchase is debited and provisioned (balance 5000 to 2000), the renewal
likewise, the trial is provisioned and marks the trial flag, and the top-up opens a payment
session with the gateway. -/
theorem C8_banned_customer_is_served :
    (handleState cfg1000 happyWorld
        (botOf [(7, "create_days")] [(7, [("chat_id", "7"), ("password", "secret")])]
          [{ zeroEntry 7 with Balance := 5000, Banned := true }])
        { fromID := 7, chatID := 7, text := "3" } "create_days").map
      (fun s => (getBalance s.disk 7, s.apiLog))
      = some (2000, [{ endpoint := "/user/create", password := "secret", days := 3 }]) ∧
    (handleState cfg1000 happyWorld
        (botOf [(7, "renew_days")] [(7, [("password", "secret"), ("chat_id", "7")])]
          [{ zeroEntry 7 with Balance := 5000, Banned := true }])
        { fromID := 7, chatID := 7, text := "3" } "renew_days").map
      (fun s => (getBalance s.disk 7, s.apiLog))
      = some (2000, [{ endpoint := "/user/renew", password := "secret", days := 3 }]) ∧
    (handleState cfg1000 happyWorld
        (botOf [(7, "trial_password")] [(7, [("chat_id", "7")])]
          [{ zeroEntry 7 with Banned := true }])
        { fromID := 7, chatID := 7, text := "secret" } "trial_password").map
      (fun s => (hasUsedTrial s.disk 7, s.apiLog))
      = some (true, [{ endpoint := "/user/create", password := "secret", days := 1 }]) ∧
    (handleState cfg1000 happyWorld
        (botOf [(7, "topup_amount")] [(7, [("chat_id", "7")])]
          [{ zeroEntry 7 with Banned := true }])
        { fromID := 7, chatID := 7, text := "5000" } "topup_amount").map
      (fun s => (s.gatewayLog, getTemp s 7 "order_id", records s.disk))
      = some ([{ orderID := "ZIVPN-TOPUP-7-1700000000", amount := 5000 }],
          "ZIVPN-TOPUP-7-1700000000", [{ zeroEntry 7 with Banned := true }]) := by
  decide

/-- C9. Trial gate. A trial request with a valid credential makes no provisioning call if
and only if the requester is not the admin, the balance is exactly 0 and the trial-used flag
is set; the refusal leaves the disk as it was. In every other case the handler issues exactly
one provisioning request, a create for 1 day with the credential. -/
theorem C9_trial_gate (cfg : BotConfig) (w : World) (s : Bot) (msg : Message)
    (hvalid : (validatePassword s msg.chatID (TrimSpace msg.text)).2 = true) :
    ∃ s', handleState cfg w s msg "trial_password" = some s' ∧
      (s'.apiLog = s.apiLog ↔
        (msg.fromID ≠ cfg.AdminID ∧ getBalance s.disk msg.fromID = 0 ∧
          hasUsedTrial s.disk msg.fromID = true)) ∧
      ((msg.fromID ≠ cfg.AdminID ∧ getBalance s.disk msg.fromID = 0 ∧
          hasUsedTrial s.disk msg.fromID = true) → s'.disk = s.disk) ∧
      (¬ (msg.fromID ≠ cfg.AdminID ∧ getBalance s.disk msg.fromID = 0 ∧
          hasUsedTrial s.disk msg.fromID = true) →
        s'.apiLog = s.apiLog ++
          [{ endpoint := "/user/create", password := TrimSpace msg.text, days := 1 }]) := by
  have hstate1 : ("trial_password" : String) ≠ "create_password" := by decide
  have hstate2 : ("trial_password" : String) ≠ "create_days" := by decide
  refine ⟨handleTrialPassword cfg w s msg.fromID msg.chatID (TrimSpace msg.text), ?_, ?_⟩
  · simp only [handleState, hstate1, hstate2, if_false, if_true]
  · have hcall : ¬ (msg.fromID ≠ cfg.AdminID ∧ getBalance s.disk msg.fromID = 0 ∧
          hasUsedTrial s.disk msg.fromID = true) →
        (handleTrialPassword cfg w s msg.fromID msg.chatID (TrimSpace msg.text)).apiLog
          = s.apiLog ++
            [{ endpoint := "/user/create", password := TrimSpace msg.text, days := 1 }] := by
      intro hgate
      unfold handleTrialPassword
      rw [validatePassword_ok s msg.chatID _ hvalid]
      dsimp only
      rw [if_neg hgate]
      unfold apiCall
      cases w.api s.apiLog
        { endpoint := "/user/create", password := TrimSpace msg.text, days := 1 } with
      | error => rfl
      | refused m => rfl
      | success p e =>
        dsimp only
        split <;> rfl
    refine ⟨⟨?_, fun hgate => (handleTrialPassword_refused cfg w s _ _ _ hgate).1⟩,
      fun hgate => (handleTrialPassword_refused cfg w s _ _ _ hgate).2, hcall⟩
    intro hsame
    by_contra hgate
    have := hcall hgate
    rw [hsame] at this
    exact absurd this (by simp)

/-- C9, at a concrete state: a customer with balance 0 whose trial flag is set is refused,
and the same customer with balance 1 is provisioned. -/
theorem C9_trial_gate_witness :
    (∃ s', handleState cfg1000 happyWorld
        (botOf [(7, "trial_password")] [(7, [("chat_id", "7")])]
          [{ zeroEntry 7 with TrialUsed := true }])
        { fromID := 7, chatID := 7, text := "secret" } "trial_password" = some s' ∧
      s'.apiLog = []) ∧
    (∃ s', handleState cfg1000 happyWorld
        (botOf [(7, "trial_password")] [(7, [("chat_id", "7")])]
          [{ zeroEntry 7 with TrialUsed := true, Balance := 1 }])
        { fromID := 7, chatID := 7, text := "secret" } "trial_password" = some s' ∧
      s'.apiLog = [{ endpoint := "/user/create", password := "secret", days := 1 }]) := by
  constructor
  · obtain ⟨s', h1, h2, _, _⟩ := C9_trial_gate cfg1000 happyWorld
      (botOf [(7, "trial_password")] [(7, [("chat_id", "7")])]
        [{ zeroEntry 7 with TrialUsed := true }])
      { fromID := 7, chatID := 7, text := "secret" } (by decide)
    exact ⟨s', h1, h2.2 (by decide)⟩
  · obtain ⟨s', h1, _, _, h4⟩ := C9_trial_gate cfg1000 happyWorld
      (botOf [(7, "trial_password")] [(7, [("chat_id", "7")])]
        [{ zeroEntry 7 with TrialUsed := true, Balance := 1 }])
      { fromID := 7, chatID := 7, text := "secret" } (by decide)
    exact ⟨s', h1, (h4 (by decide)).trans (by decide)⟩

/-- C10, the divergence. On a wallet file that cannot be written, customer 7 (not the admin,
balance 0, trial-used flag unset) sends two trial requests to an API that creates what is
asked: `markTrialUsed` returns its error, the handler drops it, and both requests are
provisioned, the flag being still unset afterwards. On a wallet file that can be written the
same two requests end with one provisioning call and the flag set. -/
theorem C10_trial_granted_twice :
    ((7 : Int) ≠ cfg1000.AdminID ∧
      getBalance (readOnlyDiskOf [zeroEntry 7]) 7 = 0 ∧
      hasUsedTrial (readOnlyDiskOf [zeroEntry 7]) 7 = false ∧
      (markTrialUsed (readOnlyDiskOf [zeroEntry 7]) 7).failed = true ∧
      (runTrialRequests cfg1000 happyWorld
          { botOf [(7, "trial_password")] [(7, [("chat_id", "7")])] [] with
            disk := readOnlyDiskOf [zeroEntry 7] }
          [{ fromID := 7, chatID := 7, text := "secret" },
            { fromID := 7, chatID := 7, text := "again" }]).map
        (fun s => (s.apiLog, hasUsedTrial s.disk 7, getBalance s.disk 7))
        = some ([{ endpoint := "/user/create", password := "secret", days := 1 },
            { endpoint := "/user/create", password := "again", days := 1 }], false, 0)) ∧
    ((runTrialRequests cfg1000 happyWorld
          (botOf [(7, "trial_password")] [(7, [("chat_id", "7")])] [zeroEntry 7])
          [{ fromID := 7, chatID := 7, text := "secret" },
            { fromID := 7, chatID := 7, text := "again" }]).map
        (fun s => (s.apiLog, hasUsedTrial s.disk 7, getBalance s.disk 7))
        = some ([{ endpoint := "/user/create", password := "secret", days := 1 }], true, 0)) :=
  ⟨by decide, by decide⟩

/-- C11. An unconfirmed session is left alone. When the status query for the order of
customer `c`'s session returns an error or a status other than `completed` and `success`:
the loop body of the checker returns the state it was given; after the whole tick, whatever
it does for the other entries of the registry, `c`'s entry is still there with the same
data (order id and amount included) and `c`'s wallet record, so balance and pending slot,
is what it was; and a tick in which no entry is confirmed changes nothing at all. -/
theorem C11_unconfirmed_session_untouched (cfg : BotConfig) (w : World) (s : Bot) (c : Int)
    (data : List (String × String)) (oid : String)
    (hreg : mapGet s.tempUserData c = some data)
    (hkey : ∀ kv ∈ s.tempUserData, kv.1 = c → kv.2 = data)
    (hopen : mapGet data "order_id" = some oid)
    (hstatus : w.checkStatus oid (strGet data "price") = none ∨
      ∃ st, w.checkStatus oid (strGet data "price") = some st ∧
        st ≠ "completed" ∧ st ≠ "success") :
    (∀ s0, checkSession cfg w s0 c data = s0) ∧
    mapGet (tick cfg w s).tempUserData c = some data ∧
    findEntry (records (tick cfg w s).disk) c = findEntry (records s.disk) c ∧
    getBalance (tick cfg w s).disk c = getBalance s.disk c ∧
    pendingOf (tick cfg w s).disk c = pendingOf s.disk c ∧
    ((∀ kv ∈ s.tempUserData, sessionConfirmed w kv.2 = false) → tick cfg w s = s) := by
  have hnot : sessionConfirmed w data = false := by
    cases hsc : sessionConfirmed w data with
    | false => rfl
    | true =>
      obtain ⟨oid', st, ho, hst, hok⟩ := (sessionConfirmed_iff w data).1 hsc
      rw [hopen, Option.some.injEq] at ho
      subst ho
      rcases hstatus with hn | ⟨st', hst', h1, h2⟩
      · rw [hn] at hst; exact absurd hst (by simp)
      · rw [hst', Option.some.injEq] at hst
        subst hst
        rcases hok with h | h
        · exact absurd h h1
        · exact absurd h h2
  have hall : ∀ kv ∈ s.tempUserData, kv.1 ≠ c ∨ sessionConfirmed w kv.2 = false := by
    intro kv hkv
    by_cases hk : kv.1 = c
    · exact Or.inr (by rw [hkey kv hkv hk]; exact hnot)
    · exact Or.inl hk
  have hfold := foldl_checkSession_untouched cfg w c s.tempUserData s hall
  have hrec : findEntry (records (tick cfg w s).disk) c = findEntry (records s.disk) c :=
    hfold.2
  refine ⟨fun s0 => checkSession_skip cfg w s0 c data hnot, hfold.1.trans hreg, hrec, ?_, ?_,
    fun hnone => foldl_checkSession_skip cfg w s.tempUserData s hnone⟩
  · rw [getBalance_eq, getBalance_eq, hrec]
  · unfold pendingOf; rw [hrec]

/-- C11, at a concrete registry: the gateway still reports the order of customer 7 as
`pending` while it confirms the top-up of customer 8. -/
theorem C11_unconfirmed_session_untouched_witness :
    mapGet (tick cfg1000
        { happyWorld with
          checkStatus := fun oid _ => if oid = "ORDER-8" then some "completed" else some "pending" }
        (botOf []
          [(7, [("chat_id", "7"), ("order_id", "ORDER-7"), ("price", "5000"), ("action", "topup")]),
            (8, [("chat_id", "8"), ("order_id", "ORDER-8"), ("price", "6000"), ("action", "topup")])]
          [{ zeroEntry 7 with Balance := 300 }])).tempUserData 7
      = some [("chat_id", "7"), ("order_id", "ORDER-7"), ("price", "5000"), ("action", "topup")] ∧
    getBalance (tick cfg1000
        { happyWorld with
          checkStatus := fun oid _ => if oid = "ORDER-8" then some "completed" else some "pending" }
        (botOf []
          [(7, [("chat_id", "7"), ("order_id", "ORDER-7"), ("price", "5000"), ("action", "topup")]),
            (8, [("chat_id", "8"), ("order_id", "ORDER-8"), ("price", "6000"), ("action", "topup")])]
          [{ zeroEntry 7 with Balance := 300 }])).disk 7 = 300 :=
  ⟨(C11_unconfirmed_session_untouched cfg1000
      { happyWorld with
        checkStatus := fun oid _ => if oid = "ORDER-8" then some "completed" else some "pending" }
      (botOf []
        [(7, [("chat_id", "7"), ("order_id", "ORDER-7"), ("price", "5000"), ("action", "topup")]),
          (8, [("chat_id", "8"), ("order_id", "ORDER-8"), ("price", "6000"), ("action", "topup")])]
        [{ zeroEntry 7 with Balance := 300 }])
      7 [("chat_id", "7"), ("order_id", "ORDER-7"), ("price", "5000"), ("action", "topup")]
      "ORDER-7" (by decide) (by decide) (by decide)
      (Or.inr ⟨"pending", by decide, by decide, by decide⟩)).2.1,
    ((C11_unconfirmed_session_untouched cfg1000
      { happyWorld with
        checkStatus := fun oid _ => if oid = "ORDER-8" then some "completed" else some "pending" }
      (botOf []
        [(7, [("chat_id", "7"), ("order_id", "ORDER-7"), ("price", "5000"), ("action", "topup")]),
          (8, [("chat_id", "8"), ("order_id", "ORDER-8"), ("price", "6000"), ("action", "topup")])]
        [{ zeroEntry 7 with Balance := 300 }])
      7 [("chat_id", "7"), ("order_id", "ORDER-7"), ("price", "5000"), ("action", "topup")]
      "ORDER-7" (by decide) (by decide) (by decide)
      (Or.inr ⟨"pending", by decide, by decide, by decide⟩)).2.2.2.1).trans (by decide)⟩

/-- C12. A confirmed session is closed. When the gateway reports the order of customer
`c`'s session as `completed` or `success`, the loop body of the checker ends with no entry
for `c` in the registry, whatever the action of the session and whatever the provisioning
API answers (or is not asked); so does the whole tick; and a later tick, whatever the
gateway reports then, leaves `c`'s wallet record as it is, so the amount is credited once. -/
theorem C12_confirmed_session_closed (cfg : BotConfig) (w w' : World) (s : Bot) (c : Int)
    (data : List (String × String)) (oid st : String)
    (hmem : (c, data) ∈ s.tempUserData)
    (hopen : mapGet data "order_id" = some oid)
    (hstatus : w.checkStatus oid (strGet data "price") = some st)
    (hok : st = "completed" ∨ st = "success") :
    (∀ s0, ∀ kv ∈ (checkSession cfg w s0 c data).tempUserData, kv.1 ≠ c) ∧
    (∀ kv ∈ (tick cfg w s).tempUserData, kv.1 ≠ c) ∧
    mapGet (tick cfg w s).tempUserData c = none ∧
    findEntry (records (tick cfg w' (tick cfg w s)).disk) c
      = findEntry (records (tick cfg w s).disk) c := by
  have hconf : sessionConfirmed w data = true :=
    (sessionConfirmed_iff w data).2 ⟨oid, st, hopen, hstatus, hok⟩
  have hgone : ∀ kv ∈ (tick cfg w s).tempUserData, kv.1 ≠ c :=
    foldl_checkSession_removed cfg w c data s.tempUserData s hmem hconf
  refine ⟨?_, hgone, mapGet_none_of_no_key _ c hgone, ?_⟩
  · intro s0 kv hkv
    rw [checkSession_temp, if_pos hconf] at hkv
    exact (mem_mapDelete _ _ _ hkv).2
  · exact (foldl_checkSession_untouched cfg w' c (tick cfg w s).tempUserData (tick cfg w s)
      fun kv hkv => Or.inl (hgone kv hkv)).2

/-- C12, at a concrete registry: the provisioning API refuses the pending purchase that the
confirmed top-up pays for, and the session is closed all the same. -/
theorem C12_confirmed_session_closed_witness :
    mapGet (tick cfg1000 { happyWorld with api := fun _ _ => .refused "User sudah ada" }
        (botOf []
          [(7, [("chat_id", "7"), ("order_id", "ORDER-7"), ("price", "5000"), ("action", "topup")])]
          [{ zeroEntry 7 with PendingPassword := "secret", PendingDays := 3 }])).tempUserData 7
      = none :=
  (C12_confirmed_session_closed cfg1000
    { happyWorld with api := fun _ _ => .refused "User sudah ada" } happyWorld
    (botOf []
      [(7, [("chat_id", "7"), ("order_id", "ORDER-7"), ("price", "5000"), ("action", "topup")])]
      [{ zeroEntry 7 with PendingPassword := "secret", PendingDays := 3 }])
    7 [("chat_id", "7"), ("order_id", "ORDER-7"), ("price", "5000"), ("action", "topup")]
    "ORDER-7" "completed" (by decide) (by decide) (by decide) (Or.inl rfl)).2.2.1

/-- C13, refuted as stated. (a) At a unit price of -1000 a customer without a record asks
for 3 days: `required` is -3000, the balance 0 covers it, the debit finds no record and the
balance stays 0, where the claim has `b - required = 3000`. (b) On a wallet file that
cannot be written (balance 5000, 3 days at 1000 per day) `deductBalance` returns its error
and the handler stops: no provisioning call, balance 5000. (c) When the metrics file cannot
be written the account is created and counted and no event is appended. (d) A counter at
`2^63 - 1` wraps around to `-2^63`. -/
theorem C13_purchase_goes_astray :
    ((3 * (-1000) : Int) ≤ 0 ∧
      (handleState { AdminID := 1, DailyPrice := -1000 } happyWorld
          (botOf [(7, "create_days")] [(7, createSession)] [])
          { fromID := 7, chatID := 7, text := "3" } "create_days").map
        (fun s' => (getBalance s'.disk 7, s'.apiLog))
        = some (0, [{ endpoint := "/user/create", password := "secret", days := 3 }])) ∧
    ((handleState cfg1000 happyWorld
          { botOf [(7, "create_days")] [(7, createSession)] [] with
            disk := readOnlyDiskOf [{ zeroEntry 7 with Balance := 5000 }] }
          { fromID := 7, chatID := 7, text := "3" } "create_days").map
        (fun s' => (getBalance s'.disk 7, s'.apiLog)) = some (5000, [])) ∧
    ((handleState cfg1000 happyWorld
          { botOf [(7, "create_days")] [(7, createSession)] [] with
            disk := { diskOf [{ zeroEntry 7 with Balance := 5000 }] with
              metricsWritable := false } }
          { fromID := 7, chatID := 7, text := "3" } "create_days").map
        (fun s' => (getBalance s'.disk 7, createdCountOf s'.disk 7, metricsOf s'.disk))
        = some (2000, 1, [])) ∧
    ((handleState cfg1000 happyWorld
          (botOf [(7, "create_days")] [(7, createSession)]
            [{ zeroEntry 7 with Balance := 5000, CreatedCount := 9223372036854775807 }])
          { fromID := 7, chatID := 7, text := "3" } "create_days").map
        (fun s' => createdCountOf s'.disk 7) = some (-9223372036854775808)) := by
  decide

/-- C13, amended. Purchase with sufficient funds, on a wallet store that loads and saves and
a metrics file that can be written, with a unit price that is not negative and
`required = days * DailyPrice` within the range of a 64-bit `int`. When the text of a
`create_days` message is a number of days in 1..365 and the balance `b` is at least
`required`, the handler leaves the balance at `b - required` and makes exactly one
provisioning call, the create request for the stored credential and the days. If the API
reports success the customer's created-account counter, when it is below the largest `int`,
grows by exactly 1 and exactly one event, owned by the customer, is appended to the metrics
(to the entries that `json.Unmarshal` decoded, when the file is malformed); if it reports an
error or a refusal the counter and the metrics file are what they were. -/
theorem C13_purchase_from_balance (cfg : BotConfig) (w : World) (s : Bot) (msg : Message)
    (days : Int) (data : List (String × String))
    (hdays : Atoi (TrimSpace msg.text) = some days) (hlo : 1 ≤ days) (hhi : days ≤ 365)
    (htemp : mapGet s.tempUserData msg.fromID = some data)
    (hd : Healthy s.disk) (hm : s.disk.metricsWritable = true)
    (hprice : 0 ≤ cfg.DailyPrice)
    (hreq : inInt64 (days * cfg.DailyPrice))
    (hbal : days * cfg.DailyPrice ≤ getBalance s.disk msg.fromID) :
    ∃ s', handleState cfg w s msg "create_days" = some s' ∧
      getBalance s'.disk msg.fromID = getBalance s.disk msg.fromID - days * cfg.DailyPrice ∧
      s'.apiLog = s.apiLog ++
        [{ endpoint := "/user/create", password := strGet data "password", days := days }] ∧
      ((∃ p e, w.api s.apiLog
          { endpoint := "/user/create", password := strGet data "password", days := days }
          = .success p e) →
        (inInt64 (createdCountOf s.disk msg.fromID + 1) →
          createdCountOf s'.disk msg.fromID = createdCountOf s.disk msg.fromID + 1) ∧
          metricsOf s'.disk
            = metricsOf s.disk ++ [{ Timestamp := w.nowStamp, Owner := msg.fromID }]) ∧
      ((∀ p e, w.api s.apiLog
          { endpoint := "/user/create", password := strGet data "password", days := days }
          ≠ .success p e) →
        createdCountOf s'.disk msg.fromID = createdCountOf s.disk msg.fromID ∧
          s'.disk.metricsFile = s.disk.metricsFile) := by
  have hmul : mulInt64 days cfg.DailyPrice = days * cfg.DailyPrice := mulInt64_exact _ _ hreq
  have hreq0 : 0 ≤ days * cfg.DailyPrice := mul_nonneg (by omega) hprice
  have hbal' : mulInt64 days cfg.DailyPrice ≤ getBalance s.disk msg.fromID := by
    rw [hmul]; exact hbal
  have hpaid := handleCreateDays_paid cfg w s msg days data hdays hlo hhi htemp hd hbal'
  rw [hmul] at hpaid
  have hd3 : Healthy (deductBalance s.disk msg.fromID (days * cfg.DailyPrice)).disk :=
    deductBalance_healthy hd _ _
  have hm3 : (deductBalance s.disk msg.fromID (days * cfg.DailyPrice)).disk.metricsWritable
      = true := by rw [(deductBalance_metrics hd _ _).2]; exact hm
  have hb3 : getBalance (deductBalance s.disk msg.fromID (days * cfg.DailyPrice)).disk
      msg.fromID = getBalance s.disk msg.fromID - days * cfg.DailyPrice :=
    getBalance_deductBalance_covered hd _ _ hreq0 hbal
  have heff := createUser_effect cfg w
    { s with
      tempUserData := mapSet s.tempUserData msg.fromID (mapSet data "days" (TrimSpace msg.text)),
      disk := (deductBalance s.disk msg.fromID (days * cfg.DailyPrice)).disk }
    msg.chatID msg.fromID (strGet data "password") days hd3
  have hcnt := createUser_counts cfg w
    { s with
      tempUserData := mapSet s.tempUserData msg.fromID (mapSet data "days" (TrimSpace msg.text)),
      disk := (deductBalance s.disk msg.fromID (days * cfg.DailyPrice)).disk }
    msg.chatID msg.fromID (strGet data "password") days hd3 hm3
  refine ⟨_, hpaid, ?_, ?_, ?_, ?_⟩
  · rw [closeSession_disk, heff.2.1]; exact hb3
  · rw [closeSession_apiLog]; exact heff.1
  · intro hs
    rw [closeSession_disk]
    obtain ⟨h1, h2⟩ := hcnt.1 hs
    refine ⟨fun hin => h1.trans ?_, h2.trans ?_⟩
    · show addInt64 (createdCountOf (deductBalance s.disk msg.fromID _).disk msg.fromID) 1 = _
      rw [createdCountOf_deductBalance hd]
      exact addInt64_exact _ _ hin
    · show metricsOf (deductBalance s.disk msg.fromID _).disk ++ _ = _
      unfold metricsOf
      rw [(deductBalance_metrics hd _ _).1]
  · intro hf
    rw [closeSession_disk, hcnt.2 hf]
    exact ⟨createdCountOf_deductBalance hd _ _, (deductBalance_metrics hd _ _).1⟩

/-- C13, at a concrete state: balance 5000, 3 days at 1000 per day, the API creates the
account, and the metrics file is one that `json.Unmarshal` rejects after decoding one
event. Balance 2000, one create call, counter 1, and the new metrics event behind the one
that was decoded. -/
theorem C13_purchase_from_balance_witness :
    ∃ s', handleState cfg1000 happyWorld
        { botOf [(7, "create_days")] [(7, createSession)] [] with
          disk := { diskOf [{ zeroEntry 7 with Balance := 5000 }] with
            metricsFile := .malformed [{ Timestamp := "2023-11-01T00:00:00Z", Owner := 9 }] } }
        { fromID := 7, chatID := 7, text := "3" } "create_days" = some s' ∧
      getBalance s'.disk 7 = 2000 ∧
      s'.apiLog = [{ endpoint := "/user/create", password := "secret", days := 3 }] ∧
      createdCountOf s'.disk 7 = 1 ∧
      metricsOf s'.disk = [{ Timestamp := "2023-11-01T00:00:00Z", Owner := 9 },
        { Timestamp := "2023-11-14T22:13:20Z", Owner := 7 }] := by
  obtain ⟨s', h1, h2, h3, h4, _⟩ := C13_purchase_from_balance cfg1000 happyWorld
    { botOf [(7, "create_days")] [(7, createSession)] [] with
      disk := { diskOf [{ zeroEntry 7 with Balance := 5000 }] with
        metricsFile := .malformed [{ Timestamp := "2023-11-01T00:00:00Z", Owner := 9 }] } }
    { fromID := 7, chatID := 7, text := "3" } 3 createSession
    (by decide) (by decide) (by decide) (by decide) (by decide) (by decide) (by decide)
    (by decide) (by decide)
  obtain ⟨h5, h6⟩ := h4 ⟨"secret", "2030-01-01", rfl⟩
  exact ⟨s', h1, h2.trans (by decide), h3.trans (by decide), (h5 (by decide)).trans (by decide),
    h6.trans (by decide)⟩

/-- C14. Pending-slot well-formedness is an invariant. If every record of the wallet store
has an empty pending credential exactly when its pending days are 0, the same holds after
any of `addBalance`, `deductBalance`, `markTrialUsed`, `incrementCreatedCount`,
`clearPendingPurchase`, and `setPendingPurchase` with a non-empty credential and days of at
least 1, for any customer and on any disk (a call that cannot load or save changes
nothing). -/
theorem C14_pending_slot_wellformed (d : Disk) (c : Int) (call : LedgerCall)
    (hwf : PendingWF d) (hval : call.validated) : PendingWF (runCall d c call).disk := by
  unfold PendingWF at hwf ⊢
  rcases runCall_records d c call with h | h
  · rw [h]; exact hwf
  · rw [h]
    exact callRecords_forall _ (records d) c call hwf (pendingWF_callUpdate call hval)
      (pendingWF_callFresh c call hval)

/-- C14, at a concrete store: a slot is set for a new customer next to a record that holds
one, and the property holds afterwards. -/
theorem C14_pending_slot_wellformed_witness :
    PendingWF (runCall (diskOf [{ zeroEntry 7 with PendingPassword := "old", PendingDays := 9 }])
      8 (.setPending "secret" 3)).disk :=
  C14_pending_slot_wellformed
    (diskOf [{ zeroEntry 7 with PendingPassword := "old", PendingDays := 9 }]) 8
    (.setPending "secret" 3) (by decide) (by decide)

/-- C15. Pending-purchase round trip. On a wallet store that loads and saves, after
`setPendingPurchase(c, w, n)` the pending slot read for `c` is exactly `(w, n)`: a record
is appended when `c` had none, and a second call overwrites the first, so one purchase at
most is pending; after `clearPendingPurchase(c)` the slot read for `c` is empty. -/
theorem C15_pending_round_trip (d : Disk) (c : Int) (pw : String) (n : Int)
    (hd : Healthy d) :
    pendingOf (setPendingPurchase d c pw n).disk c = (pw, n) ∧
    (getWalletIndex (records d) c = none →
      records (setPendingPurchase d c pw n).disk =
        records d ++ [{ zeroEntry c with PendingPassword := pw, PendingDays := n }]) ∧
    (∀ pw2 n2,
      pendingOf (setPendingPurchase (setPendingPurchase d c pw n).disk c pw2 n2).disk c
        = (pw2, n2)) ∧
    pendingOf (clearPendingPurchase d c).disk c = ("", 0) ∧
    pendingOf (clearPendingPurchase (setPendingPurchase d c pw n).disk c).disk c = ("", 0) := by
  refine ⟨pendingOf_setPendingPurchase hd c pw n, ?_, ?_, pendingOf_clearPendingPurchase hd c,
    pendingOf_clearPendingPurchase (setPendingPurchase_healthy hd c pw n) c⟩
  · intro hn
    rw [setPendingPurchase_records hd, upsert, hn]
  · intro pw2 n2
    exact pendingOf_setPendingPurchase (setPendingPurchase_healthy hd c pw n) c pw2 n2

/-- C15, at a concrete store: customer 8 has no record, customer 7 holds an older pending
purchase. -/
theorem C15_pending_round_trip_witness :
    pendingOf (setPendingPurchase
        (diskOf [{ zeroEntry 7 with PendingPassword := "old", PendingDays := 9 }])
        7 "secret" 3).disk 7 = ("secret", 3) ∧
      pendingOf (clearPendingPurchase
        (diskOf [{ zeroEntry 7 with PendingPassword := "old", PendingDays := 9 }]) 7).disk 7
        = ("", 0) :=
  ⟨(C15_pending_round_trip
      (diskOf [{ zeroEntry 7 with PendingPassword := "old", PendingDays := 9 }])
      7 "secret" 3 (by decide)).1,
    (C15_pending_round_trip
      (diskOf [{ zeroEntry 7 with PendingPassword := "old", PendingDays := 9 }])
      7 "secret" 3 (by decide)).2.2.2.1⟩

/-- C16. The trial-used flag is never cleared. If `hasUsedTrial` is true for customer `c`,
it is still true after any ledger call on any customer `u`, and after the admin ban and
unban handlers, whatever message they receive. -/
theorem C16_trial_flag_never_cleared (cfg : BotConfig) (w : World) (s : Bot) (msg : Message)
    (c u : Int) (call : LedgerCall) (h : hasUsedTrial s.disk c = true) :
    hasUsedTrial (runCall s.disk u call).disk c = true ∧
    (∀ s', handleState cfg w s msg "admin_ban_input" = some s' →
      hasUsedTrial s'.disk c = true) ∧
    (∀ s', handleState cfg w s msg "admin_unban_input" = some s' →
      hasUsedTrial s'.disk c = true) := by
  have h0 := (hasUsedTrial_true_iff s.disk c).1 h
  refine ⟨?_, ?_, ?_⟩
  · rw [hasUsedTrial_true_iff]
    rcases runCall_records s.disk u call with hr | hr
    · rw [hr]; exact h0
    · rw [hr]
      unfold callRecords
      cases hfr : callFresh u call with
      | none =>
        exact trialUsed_modifyEntry _ u c _ (callUpdate_id call) (callUpdate_trialUsed call) h0
      | some e =>
        exact trialUsed_upsert _ u c _ e (callUpdate_id call) (callFresh_id u call e hfr)
          (callUpdate_trialUsed call) h0
  · intro s' hs'
    rw [handleState_ban, Option.some.injEq] at hs'
    subst hs'
    rw [hasUsedTrial_true_iff]
    rcases handleAdminBan_records cfg s msg.fromID msg.chatID (TrimSpace msg.text) with
      hr | ⟨tid, hr⟩
    · rw [hr]; exact h0
    · rw [hr]
      exact trialUsed_upsert _ tid c banEntry _ (fun _ => rfl) rfl (fun _ hx => hx) h0
  · intro s' hs'
    rw [handleState_unban, Option.some.injEq] at hs'
    subst hs'
    rw [hasUsedTrial_true_iff]
    rcases handleAdminUnban_records cfg s msg.fromID msg.chatID (TrimSpace msg.text) with
      hr | ⟨tid, hr⟩
    · rw [hr]; exact h0
    · rw [hr]
      exact trialUsed_modifyEntry _ tid c unbanEntry (fun _ => rfl) (fun _ hx => hx) h0

/-- C16, at a concrete store: the admin bans and then a credit is made on the customer whose
flag is set. -/
theorem C16_trial_flag_never_cleared_witness :
    hasUsedTrial (runCall (botOf [] [] [{ zeroEntry 7 with TrialUsed := true }]).disk
      7 (.add 5000)).disk 7 = true ∧
    (∀ s', handleState cfg1000 happyWorld (botOf [] [] [{ zeroEntry 7 with TrialUsed := true }])
        { fromID := 1, chatID := 1, text := "7" } "admin_ban_input" = some s' →
      hasUsedTrial s'.disk 7 = true) :=
  ⟨(C16_trial_flag_never_cleared cfg1000 happyWorld
      (botOf [] [] [{ zeroEntry 7 with TrialUsed := true }])
      { fromID := 1, chatID := 1, text := "7" } 7 7 (.add 5000) (by decide)).1,
    (C16_trial_flag_never_cleared cfg1000 happyWorld
      (botOf [] [] [{ zeroEntry 7 with TrialUsed := true }])
      { fromID := 1, chatID := 1, text := "7" } 7 7 (.add 5000) (by decide)).2.1⟩

/-- C17. The customer id is a unique key. If no two records of the wallet store share a
`TelegramID`, none do after any ledger call on any customer, nor after the admin ban and
unban handlers, whatever message they receive. -/
theorem C17_ids_stay_unique (cfg : BotConfig) (w : World) (s : Bot) (msg : Message)
    (u : Int) (call : LedgerCall) (h : UniqueIDs s.disk) :
    UniqueIDs (runCall s.disk u call).disk ∧
    (∀ s', handleState cfg w s msg "admin_ban_input" = some s' → UniqueIDs s'.disk) ∧
    (∀ s', handleState cfg w s msg "admin_unban_input" = some s' → UniqueIDs s'.disk) := by
  unfold UniqueIDs at h ⊢
  refine ⟨?_, ?_, ?_⟩
  · rcases runCall_records s.disk u call with hr | hr
    · rw [hr]; exact h
    · rw [hr]; exact nodup_ids_callRecords _ u call h
  · intro s' hs'
    rw [handleState_ban, Option.some.injEq] at hs'
    subst hs'
    rcases handleAdminBan_records cfg s msg.fromID msg.chatID (TrimSpace msg.text) with
      hr | ⟨tid, hr⟩
    · rw [hr]; exact h
    · rw [hr]; exact nodup_ids_upsert _ tid banEntry _ (fun _ => rfl) rfl h
  · intro s' hs'
    rw [handleState_unban, Option.some.injEq] at hs'
    subst hs'
    rcases handleAdminUnban_records cfg s msg.fromID msg.chatID (TrimSpace msg.text) with
      hr | ⟨tid, hr⟩
    · rw [hr]; exact h
    · rw [hr, map_id_modifyEntry _ tid unbanEntry (fun _ => rfl)]; exact h

/-- C17, at a concrete store: a credit for an unknown customer appends one record, a ban
of a known one appends none. -/
theorem C17_ids_stay_unique_witness :
    UniqueIDs (runCall (botOf [] [] [zeroEntry 7, zeroEntry 8]).disk 9 (.add 5000)).disk ∧
    (∀ s', handleState cfg1000 happyWorld (botOf [] [] [zeroEntry 7, zeroEntry 8])
        { fromID := 1, chatID := 1, text := "8" } "admin_ban_input" = some s' →
      UniqueIDs s'.disk) :=
  ⟨(C17_ids_stay_unique cfg1000 happyWorld (botOf [] [] [zeroEntry 7, zeroEntry 8])
      { fromID := 1, chatID := 1, text := "8" } 9 (.add 5000) (by decide)).1,
    (C17_ids_stay_unique cfg1000 happyWorld (botOf [] [] [zeroEntry 7, zeroEntry 8])
      { fromID := 1, chatID := 1, text := "8" } 9 (.add 5000) (by decide)).2.1⟩

/-- C18. Records are never deleted and a ledger call is local to its target. For every
ledger call on customer `c` and every position `i` of the collection: a record at `i`
before the call is at `i` afterwards with the same `TelegramID`, and is the identical
record when it belongs to another customer; a record at a position that was empty before
belongs to `c`. -/
theorem C18_records_kept_in_place (d : Disk) (c : Int) (call : LedgerCall) (i : Nat) :
    (∀ x, entryAt (records d) i = some x →
      ∃ x', entryAt (records (runCall d c call).disk) i = some x' ∧
        x'.TelegramID = x.TelegramID ∧ (x.TelegramID ≠ c → x' = x)) ∧
    (entryAt (records d) i = none →
      ∀ x', entryAt (records (runCall d c call).disk) i = some x' → x'.TelegramID = c) := by
  rcases runCall_records d c call with hr | hr
  · rw [hr]
    exact ⟨fun x hx => ⟨x, hx, rfl, fun _ => rfl⟩,
      fun hn x' hx' => absurd (hn ▸ hx') (by simp)⟩
  · rw [hr]; exact entryAt_callRecords (records d) c call i

/-- C19. Day and week buckets of `computeMetrics`. On a metrics file that loads, for any
parser and any query time `now`: the `today` count is the number of events whose timestamp
parses and has the calendar date (year, month, day) of `now`, and the `week` count is the
number of such events in the ISO-8601 year and week of `now`; the date of a time is read in
the offset of that time, so two times have the same date exactly when their day numbers
agree. An event dated the day before `now` never has the date of `now`, is in the ISO week
of `now` exactly when `now` is not a Monday, and appending it leaves `today` as it was and
adds to `week` exactly when it is in the ISO week of `now`. -/
theorem C19_day_and_week_buckets (parse : String → Option Time) (d : Disk) (now : Time)
    (entries : List MetricsEntry) (hfile : d.metricsFile = MetricsFile.content entries) :
    (∃ month, computeMetrics parse d now
      = some (countEvents parse (fun t => sameDate t now) entries,
          countEvents parse (fun t => sameISOWeek t now) entries, month)) ∧
    (∀ t, sameDate t now = true ↔ t.absDays = now.absDays) ∧
    (∀ e t, parse e.Timestamp = some t → t.absDays + 1 = now.absDays →
      sameDate t now = false ∧
      (sameISOWeek t now = true ↔ now.Weekday ≠ 1) ∧
      ∃ month,
        computeMetrics parse { d with metricsFile := MetricsFile.content (entries ++ [e]) } now
          = some (countEvents parse (fun t => sameDate t now) entries,
              countEvents parse (fun t => sameISOWeek t now) entries
                + (if sameISOWeek t now = true then 1 else 0), month)) := by
  refine ⟨⟨_, computeMetrics_content parse d now entries hfile⟩,
    fun t => sameDate_iff_absDays t now, ?_⟩
  intro e t hp hy
  have hnot : sameDate t now = false := by
    cases hsd : sameDate t now with
    | false => rfl
    | true =>
      have := (sameDate_iff_absDays t now).1 hsd
      omega
  refine ⟨hnot, sameISOWeek_yesterday t now hy,
    countEvents parse (fun t => ! t.Before (monthStart now)) (entries ++ [e]), ?_⟩
  rw [computeMetrics_content parse _ now (entries ++ [e]) rfl,
    countEvents_append_one parse _ entries e t hp,
    countEvents_append_one parse _ entries e t hp]
  simp only [hnot, Bool.false_eq_true, if_false, Nat.add_zero]

/-- C19, at concrete events around Sunday 2024-03-10: one event of that day and one of the
Saturday before, which is counted in the week and not in the day. -/
theorem C19_day_and_week_buckets_witness :
    (∃ month, computeMetrics sampleParse (metricsDiskOf sampleEvents) sampleNow
      = some (1, 2, month)) ∧
    sameDate { unix := 1710028799, offset := 0 } sampleNow = false ∧
    sameISOWeek { unix := 1710028799, offset := 0 } sampleNow = true := by
  have h := C19_day_and_week_buckets sampleParse (metricsDiskOf sampleEvents) sampleNow
    sampleEvents rfl
  have h2 := h.2.2 { Timestamp := "2024-03-09T23:59:59Z", Owner := 7 }
    { unix := 1710028799, offset := 0 } (by decide) (by decide)
  obtain ⟨month, hm⟩ := h.1
  have e1 : countEvents sampleParse (fun t => sameDate t sampleNow) sampleEvents = 1 := by
    decide
  have e2 : countEvents sampleParse (fun t => sameISOWeek t sampleNow) sampleEvents = 2 := by
    decide
  rw [e1, e2] at hm
  exact ⟨⟨month, hm⟩, h2.1, h2.2.1.2 (by decide)⟩

/-- C20, counterexample. At the query time 2024-03-10T12:00:00Z a single event dated
2024-04-01, in the month after, is counted in `month`, although no event of the list falls
in March 2024. -/
theorem C20_later_month_counted :
    computeMetrics sampleParse
        (metricsDiskOf [{ Timestamp := "2024-04-01T00:00:00Z", Owner := 9 }]) sampleNow
      = some (0, 0, 1) ∧
    countEvents sampleParse (fun t => sameMonth t sampleNow)
      [{ Timestamp := "2024-04-01T00:00:00Z", Owner := 9 }] = 0 ∧
    sampleParse "2024-04-01T00:00:00Z" = some { unix := 1711929600, offset := 0 } ∧
    ((Time.mk 1711929600 0).Year, (Time.mk 1711929600 0).Month, (Time.mk 1711929600 0).Day)
      = (2024, 4, 1) ∧
    (sampleNow.Year, sampleNow.Month, sampleNow.Day) = (2024, 3, 10) := by
  decide

/-- C20, amended. Month bucket of `computeMetrics`. On a metrics file that loads, the
`month` count is the number of events whose timestamp parses and is not before
`monthStart now`, which is midnight of day 1 of the month of `now` in the offset of `now`.
When the timestamps carry the offset of `now`, these are the events of the calendar month
of `now` or of a later month: earlier months are excluded, later ones are counted. When
moreover no event is later than `now`, they are the events of the calendar month of `now`
in the year of `now`. -/
theorem C20_month_bucket_from_month_start (parse : String → Option Time) (d : Disk)
    (now : Time) (entries : List MetricsEntry)
    (hfile : d.metricsFile = MetricsFile.content entries) :
    (∃ today week, computeMetrics parse d now
      = some (today, week, countEvents parse (fun t => ! t.Before (monthStart now)) entries)) ∧
    ((monthStart now).Year = now.Year ∧ (monthStart now).Month = now.Month ∧
      (monthStart now).Day = 1 ∧ (monthStart now).offset = now.offset ∧
      ((monthStart now).unix + (monthStart now).offset) % 86400 = 0) ∧
    ((∀ e ∈ entries, ∀ t, parse e.Timestamp = some t → t.offset = now.offset) →
      countEvents parse (fun t => ! t.Before (monthStart now)) entries
        = countEvents parse (fun t => monthOrLater t now) entries) ∧
    ((∀ e ∈ entries, ∀ t, parse e.Timestamp = some t →
        t.offset = now.offset ∧ t.unix ≤ now.unix) →
      countEvents parse (fun t => ! t.Before (monthStart now)) entries
        = countEvents parse (fun t => sameMonth t now) entries) := by
  have hbool : ∀ t : Time, t.offset = now.offset →
      (! t.Before (monthStart now)) = monthOrLater t now := by
    intro t hoff
    have hiff := not_before_monthStart_iff t now hoff
    cases hB : t.Before (monthStart now) <;> cases hM : monthOrLater t now <;> simp_all
  refine ⟨⟨_, _, computeMetrics_content parse d now entries hfile⟩, monthStart_spec now, ?_, ?_⟩
  · intro hoff
    exact countEvents_congr parse _ _ entries (fun e he t hp => hbool t (hoff e he t hp))
  · intro hall
    apply countEvents_congr
    intro e he t hp
    obtain ⟨hoff, hle⟩ := hall e he t hp
    show (! t.Before (monthStart now)) = sameMonth t now
    rw [hbool t hoff]
    have hdays : t.absDays ≤ now.absDays := by
      unfold Time.absDays
      rw [hoff]
      omega
    cases hM : monthOrLater t now with
    | true => exact (sameMonth_of_not_later t now hdays hM).symm
    | false =>
      cases hS : sameMonth t now with
      | false => rfl
      | true => rw [monthOrLater_of_sameMonth t now hS] at hM; exact absurd hM (by decide)

/-- C20 amended, at concrete events around 2024-03-10: the three events of March and the one
of April are counted, the one of February and the one that does not parse are not. -/
theorem C20_month_bucket_from_month_start_witness :
    (∃ today week, computeMetrics sampleParse (metricsDiskOf sampleEvents) sampleNow
      = some (today, week, 4)) ∧
    countEvents sampleParse (fun t => monthOrLater t sampleNow) sampleEvents = 4 := by
  have h := C20_month_bucket_from_month_start sampleParse (metricsDiskOf sampleEvents)
    sampleNow sampleEvents rfl
  obtain ⟨today, week, hm⟩ := h.1
  have e1 : countEvents sampleParse (fun t => ! t.Before (monthStart sampleNow)) sampleEvents
      = 4 := by decide
  have e2 := h.2.2.1 (by decide)
  rw [e1] at hm e2
  exact ⟨⟨today, week, hm⟩, e2.symm⟩

/-- C21. The metrics log is append-only. When the metrics file can be written,
`appendMetric(owner)` reports no error and stores the sequence it read followed by exactly
one event, with the given owner and the timestamp `stamp` (the caller's
`time.Now().Format(time.RFC3339)`): every earlier event is at the position it had, the
length grows by one, and the wallet file is not touched. The sequence read is the stored one
when the file holds a sequence, and the empty one when the file is absent; a file that cannot
be read or parsed is also read as empty. When the file cannot be written the error is
returned and the disk is what it was. -/
theorem C21_metrics_append_only (d : Disk) (owner : Int) (stamp : String)
    (E : List MetricsEntry) (hE : d.metricsFile = MetricsFile.content E ∨
      (d.metricsFile = MetricsFile.absent ∧ E = []))
    (hw : d.metricsWritable = true) :
    (appendMetric d owner stamp).failed = false ∧
    (appendMetric d owner stamp).disk.metricsFile
      = MetricsFile.content (E ++ [{ Timestamp := stamp, Owner := owner }]) ∧
    (∀ (i : Nat) (e : MetricsEntry), E[i]? = some e →
      (metricsOf (appendMetric d owner stamp).disk)[i]? = some e) ∧
    (metricsOf (appendMetric d owner stamp).disk).length = E.length + 1 ∧
    (metricsOf (appendMetric d owner stamp).disk)[E.length]?
      = some { Timestamp := stamp, Owner := owner } ∧
    (appendMetric d owner stamp).disk.walletFile = d.walletFile ∧
    (∀ d0 : Disk, d0.metricsWritable = false →
      appendMetric d0 owner stamp = { disk := d0, failed := true }) := by
  have hfile : (appendMetric d owner stamp).disk.metricsFile
      = MetricsFile.content (E ++ [{ Timestamp := stamp, Owner := owner }]) := by
    unfold appendMetric
    rcases hE with h | ⟨h, rfl⟩ <;> simp [h, hw]
  have hm : metricsOf (appendMetric d owner stamp).disk
      = E ++ [{ Timestamp := stamp, Owner := owner }] := by
    unfold metricsOf; rw [hfile]
  refine ⟨?_, hfile, ?_, ?_, ?_, ?_, ?_⟩
  · unfold appendMetric; simp [hw]
  · intro i e hi
    rw [hm, List.getElem?_append_left (by
      rcases Nat.lt_or_ge i E.length with h | h
      · exact h
      · rw [List.getElem?_eq_none h] at hi; exact absurd hi (by simp))]
    exact hi
  · rw [hm]; simp
  · rw [hm]; simp
  · unfold appendMetric; simp [hw]
  · intro d0 h0
    unfold appendMetric; simp [h0]

/-- C21, at a concrete log of two events: the third is appended behind them. -/
theorem C21_metrics_append_only_witness :
    (appendMetric
        (metricsDiskOf [{ Timestamp := "2024-03-09T23:59:59Z", Owner := 7 },
          { Timestamp := "2024-03-10T08:00:00Z", Owner := 8 }])
        9 "2024-03-10T12:00:00Z").disk.metricsFile
      = MetricsFile.content [{ Timestamp := "2024-03-09T23:59:59Z", Owner := 7 },
          { Timestamp := "2024-03-10T08:00:00Z", Owner := 8 },
          { Timestamp := "2024-03-10T12:00:00Z", Owner := 9 }] :=
  (C21_metrics_append_only
    (metricsDiskOf [{ Timestamp := "2024-03-09T23:59:59Z", Owner := 7 },
      { Timestamp := "2024-03-10T08:00:00Z", Owner := 8 }])
    9 "2024-03-10T12:00:00Z" _ (Or.inl rfl) (by decide)).2.1

/-- C22, counterexample. A renewal of 106752 days of an account that expires on 2024-06-01,
asked at 2024-03-10T12:00:00Z: `time.Duration(106752) * 24 * time.Hour` exceeds an `int64`
of nanoseconds and wraps to a negative duration, so the date written is 1732-02-21, while
the date of the later of the two times plus 106752 days is 2316-09-11. -/
theorem C22_long_renewal_wraps :
    daysDuration 106752 = -9223371273709551616 ∧
    renewUser sampleParseDate { time := sampleNow, nsec := 0 } true sampleUsers "alice" 106752
      = ({ users := .lines ["alice | 1732-02-21", "bob | 2024-01-01", "carol|soon|x", "dave"],
           usersWritable := true },
         .renewed "alice" "1732-02-21") ∧
    expiryBase sampleParseDate { time := sampleNow, nsec := 0 } "2024-06-01"
      = { unix := 1717200000, offset := 0 } ∧
    renewedDate sampleParseDate { time := sampleNow, nsec := 0 } 106752 "2024-06-01"
      = "2316-09-11" := by
  decide

/-- C22, amended. Renewal expiry, for a number of days between -106751 and 106751, the
values for which `days * 24h` fits the `int64` nanoseconds of a `time.Duration`. The account
lines of the database are its lines that are not blank, and an account line is the
account's when it has at least two `|`-separated fields and its first field, trimmed, is the
credential of the request. For every clock reading `now` and every database that can be
written and holds a line of the account, the file that `renewUser` writes consists of the
account lines, in order, every line of the account replaced by `credential | date`, where
`date` is the calendar date of `expiryBase` moved by `days` days, and every other account
line kept as it is. `expiryBase` is the later of `now` and the stored expiry, and `now` when
the stored text does not parse. Without a line of the account nothing is written. -/
theorem C22_renewal_expiry (parseDate : String → Option Time) (now : Instant)
    (password : String) (days : Int)
    (h0 : 0 ≤ now.nsec) (h1 : now.nsec < 1000000000)
    (hlo : -106751 ≤ days) (hhi : days ≤ 106751) :
    (∀ (d : ApiDisk) (ls : List String) (restartOk : Bool), d.users = .lines ls →
      ((∃ line ∈ accountLines ls, lineMatches line password = true) →
        d.usersWritable = true →
        (renewUser parseDate now restartOk d password days).1
          = { d with
              users := .lines
                ((accountLines ls).map (rewriteLine parseDate now password days)) }) ∧
      ((∀ line ∈ accountLines ls, lineMatches line password = false) →
        renewUser parseDate now restartOk d password days = (d, .notFound))) ∧
    (∀ line, lineMatches line password = true →
      rewriteLine parseDate now password days line
        = password ++ " | " ++ renewedDate parseDate now days (storedExpiry line)) ∧
    (∀ line, lineMatches line password = false →
      rewriteLine parseDate now password days line = line) ∧
    (∀ stored, (parseDate stored = none → expiryBase parseDate now stored = now.time) ∧
      (∀ e, parseDate stored = some e →
        (expiryBase parseDate now stored).unix = max now.time.unix e.unix ∧
        (expiryBase parseDate now stored = now.time ∨
          expiryBase parseDate now stored = e)) ∧
      renewedDate parseDate now days stored
        = formatDate { unix := (expiryBase parseDate now stored).unix + days * 86400,
                       offset := (expiryBase parseDate now stored).offset } ∧
      Time.absDays { unix := (expiryBase parseDate now stored).unix + days * 86400,
                     offset := (expiryBase parseDate now stored).offset }
        = (expiryBase parseDate now stored).absDays + days) := by
  refine ⟨?_, ?_, ?_, ?_⟩
  · intro d ls restartOk hls
    exact renewUser_lines parseDate now password days h0 h1 hlo hhi d ls restartOk hls
  · intro line hm
    unfold rewriteLine
    rw [if_pos hm]
  · intro line hm
    unfold rewriteLine
    rw [hm]
    rfl
  · intro stored
    exact ⟨(expiryBase_unix parseDate now stored).1, (expiryBase_unix parseDate now stored).2,
      rfl, absDays_add_days _ days⟩

/-- C22 amended, at a concrete database with two blank lines on 2024-03-10T12:00:00Z: thirty
days for the account `bob`, which expired on 2024-01-01, run from the time of the request,
and the other account lines stay. -/
theorem C22_renewal_expiry_witness :
    (renewUser sampleParseDate { time := sampleNow, nsec := 5 } true
        { users := .lines ["alice | 2024-06-01", "", "bob | 2024-01-01", "  ", "carol|soon|x",
            "dave"],
          usersWritable := true } "bob" 30).1
      = { users := .lines ["alice | 2024-06-01", "bob | 2024-04-09", "carol|soon|x", "dave"],
          usersWritable := true } :=
  (((C22_renewal_expiry sampleParseDate { time := sampleNow, nsec := 5 } "bob" 30
      (by decide) (by decide) (by decide) (by decide)).1
    { users := .lines ["alice | 2024-06-01", "", "bob | 2024-01-01", "  ", "carol|soon|x",
        "dave"],
      usersWritable := true }
    ["alice | 2024-06-01", "", "bob | 2024-01-01", "  ", "carol|soon|x", "dave"] true rfl).1
    ⟨"bob | 2024-01-01", by decide, by decide⟩ rfl).trans (by decide)

/-- C23. Order identifiers are unique per customer and creation second. The identifier
`ZIVPN-TOPUP-<customer ID>-<unix seconds>` determines the pair: two identifiers are equal
exactly when the customer IDs are equal and the seconds are equal, for all integers,
negative ones included (customer -5 at second 3 gets `ZIVPN-TOPUP--5-3`); and every
transaction the top-up handler requests from the gateway carries the identifier of the
customer and of the clock of that run. -/
theorem C23_order_id_injective (u1 t1 u2 t2 : Int) :
    (topupOrderID u1 t1 = topupOrderID u2 t2 ↔ u1 = u2 ∧ t1 = t2) ∧
    topupOrderID (-5) 3 = "ZIVPN-TOPUP--5-3" ∧
    (∀ (w : World) (s s' : Bot) (chatID : Int) (text : String),
      handleTopupAmount w s u1 chatID text = some s' →
      s'.gatewayLog = s.gatewayLog ∨
        ∃ amt, s'.gatewayLog
          = s.gatewayLog ++ [{ orderID := topupOrderID u1 w.nowUnix, amount := amt }]) := by
  refine ⟨⟨topupOrderID_injective u1 t1 u2 t2, ?_⟩, by decide, ?_⟩
  · rintro ⟨rfl, rfl⟩; rfl
  · intro w s s' chatID text h
    exact handleTopupAmount_gatewayLog w s s' u1 chatID text h

/-- C24, the divergence. When `loadWallets` fails, each of the six ledger functions returns
the error and leaves the disk as it was, and the unban handler writes nothing (it answers
that the user is not in the wallet). The ban handler discards the error of `loadWallets`:
with a wallet file that cannot be read it saves a collection holding only the banned record
over the file and answers that the user was banned. -/
theorem C24_ban_overwrites_unreadable_store :
    (∀ (d : Disk) (c : Int) (call : LedgerCall), loadWallets d = none →
      runCall d c call = { disk := d, failed := true }) ∧
    (∀ (cfg : BotConfig) (w : World) (s : Bot) (msg : Message), loadWallets s.disk = none →
      ∃ s', handleState cfg w s msg "admin_unban_input" = some s' ∧ s'.disk = s.disk) ∧
    loadWallets brokenWalletDisk = none ∧
    handleState cfg1000 happyWorld
        { botOf [(1, "admin_ban_input")] [] [] with disk := brokenWalletDisk }
        { fromID := 1, chatID := 1, text := "7" } "admin_ban_input"
      = some { botOf [] [] [] with
          disk := { brokenWalletDisk with
            walletFile := .content [{ zeroEntry 7 with Banned := true }] },
          outbox := [(1, .adminBanned 7)] } := by
  refine ⟨runCall_load_failed, ?_, rfl, by decide⟩
  intro cfg w s msg hl
  refine ⟨_, handleState_unban cfg w s msg, ?_⟩
  unfold handleAdminUnban
  split
  · rfl
  · cases Atoi (TrimSpace msg.text) with
    | none => rfl
    | some tid =>
      dsimp only
      rw [hl]
      rfl

/-- C25. Malformed durations are rejected before any mutation. `validateNumber(text, lo,
hi)` succeeds with `v` exactly when `strconv.Atoi` reads `text` as the integer `v` and
`lo ≤ v ≤ hi`, it then sends nothing, and it accepts the decimal numeral of every such `v`.
When it fails on the trimmed text of a message with the bounds 1..365, the `create_days`
handler returns with the disk (wallet store, pending slots, metrics), the session registry,
the conversation states, the provisioning trace and the gateway trace as they were; the only
effect is the error message sent to the chat. -/
theorem C25_malformed_duration_rejected (cfg : BotConfig) (w : World) (s : Bot)
    (msg : Message)
    (hbad : (validateNumber s msg.chatID (TrimSpace msg.text) 1 365).2 = none) :
    (∀ (s0 : Bot) (chat : Int) (text : String) (lo hi v : Int),
      ((validateNumber s0 chat text lo hi).2 = some v ↔ Atoi text = some v ∧ lo ≤ v ∧ v ≤ hi) ∧
      ((validateNumber s0 chat text lo hi).2 = some v →
        (validateNumber s0 chat text lo hi).1 = s0) ∧
      (lo ≤ v → v ≤ hi → validateNumber s0 chat (Itoa v) lo hi = (s0, some v))) ∧
    ∃ s', handleState cfg w s msg "create_days" = some s' ∧
      s'.disk = s.disk ∧ s'.tempUserData = s.tempUserData ∧ s'.userStates = s.userStates ∧
      s'.apiLog = s.apiLog ∧ s'.gatewayLog = s.gatewayLog ∧
      s'.outbox = s.outbox ++ [(msg.chatID, .numberInvalid 1 365)] := by
  constructor
  · intro s0 chat text lo hi v
    refine ⟨validateNumber_some_iff s0 chat text lo hi v, ?_, ?_⟩
    · intro h
      rw [validateNumber_state s0 chat text lo hi v h]
    · intro h1 h2
      apply validateNumber_state
      rw [validateNumber_some_iff]
      exact ⟨Atoi_Itoa v, h1, h2⟩
  · refine ⟨sendMessage s msg.chatID (.numberInvalid 1 365), ?_, rfl, rfl, rfl, rfl, rfl, rfl⟩
    rw [handleState_create_days]
    unfold handleCreateDays
    rw [validateNumber_none s msg.chatID (TrimSpace msg.text) 1 365 hbad]

/-- C25, at concrete messages: a text that is not a number, and a number of days above the
bound, with a balance that would pay for it. -/
theorem C25_malformed_duration_rejected_witness :
    (∃ s', handleState cfg1000 happyWorld
        (botOf [(7, "create_days")] [(7, [("chat_id", "7"), ("password", "secret")])]
          [{ zeroEntry 7 with Balance := 900000 }])
        { fromID := 7, chatID := 7, text := "3 days" } "create_days" = some s' ∧
      s'.disk = diskOf [{ zeroEntry 7 with Balance := 900000 }] ∧ s'.apiLog = []) ∧
    (∃ s', handleState cfg1000 happyWorld
        (botOf [(7, "create_days")] [(7, [("chat_id", "7"), ("password", "secret")])]
          [{ zeroEntry 7 with Balance := 900000 }])
        { fromID := 7, chatID := 7, text := "366" } "create_days" = some s' ∧
      s'.disk = diskOf [{ zeroEntry 7 with Balance := 900000 }] ∧ s'.apiLog = []) := by
  obtain ⟨s1, h1, h2, _, _, h3, _⟩ := (C25_malformed_duration_rejected cfg1000 happyWorld
    (botOf [(7, "create_days")] [(7, [("chat_id", "7"), ("password", "secret")])]
      [{ zeroEntry 7 with Balance := 900000 }])
    { fromID := 7, chatID := 7, text := "3 days" } (by decide)).2
  obtain ⟨s2, k1, k2, _, _, k3, _⟩ := (C25_malformed_duration_rejected cfg1000 happyWorld
    (botOf [(7, "create_days")] [(7, [("chat_id", "7"), ("password", "secret")])]
      [{ zeroEntry 7 with Balance := 900000 }])
    { fromID := 7, chatID := 7, text := "366" } (by decide)).2
  exact ⟨⟨s1, h1, h2, h3⟩, ⟨s2, k1, k2, k3⟩⟩

/-- C27. Starting a new conversation flow discards an open payment session. When the
registry entry of customer `u` records an order id, each of `startCreateUser`, `startTrial`,
`startRenew` and `startTopup` replaces the entry by one that holds the chat id only and
touches no file; from then on every tick, whatever the gateway reports, leaves that entry and
the wallet record of `u`, so the balance, as they are: a confirmation of the earlier order
credits nothing. The registry is a Go map, so no two of its entries share a key. -/
theorem C27_new_flow_discards_session (cfg : BotConfig) (s : Bot) (u chatID : Int)
    (data : List (String × String)) (oid : String)
    (hnd : (s.tempUserData.map Prod.fst).Nodup)
    (hreg : mapGet s.tempUserData u = some data)
    (hopen : mapGet data "order_id" = some oid) :
    ∀ start ∈ [startCreateUser, startTrial, startRenew, startTopup],
      mapGet (start s chatID u).tempUserData u = some [("chat_id", Itoa chatID)] ∧
      mapGet (start s chatID u).tempUserData u ≠ mapGet s.tempUserData u ∧
      (start s chatID u).disk = s.disk ∧
      ∀ later : List World,
        mapGet (runTicks cfg later (start s chatID u)).tempUserData u
          = some [("chat_id", Itoa chatID)] ∧
        findEntry (records (runTicks cfg later (start s chatID u)).disk) u
          = findEntry (records s.disk) u ∧
        getBalance (runTicks cfg later (start s chatID u)).disk u = getBalance s.disk u := by
  have hne : (some [("chat_id", Itoa chatID)] : Option (List (String × String)))
      ≠ mapGet s.tempUserData u := by
    rw [hreg]
    intro heq
    rw [← Option.some.inj heq] at hopen
    have hno : mapGet [("chat_id", Itoa chatID)] "order_id" = none := rfl
    rw [hno] at hopen
    exact absurd hopen (by simp)
  have key : ∀ st : String, ∀ m : Msg,
      mapGet (sendMessage (freshTemp { s with userStates := mapSet s.userStates u st }
          chatID u) chatID m).tempUserData u = some [("chat_id", Itoa chatID)] ∧
      mapGet (sendMessage (freshTemp { s with userStates := mapSet s.userStates u st }
          chatID u) chatID m).tempUserData u ≠ mapGet s.tempUserData u ∧
      (sendMessage (freshTemp { s with userStates := mapSet s.userStates u st }
          chatID u) chatID m).disk = s.disk ∧
      ∀ later : List World,
        mapGet (runTicks cfg later (sendMessage (freshTemp
            { s with userStates := mapSet s.userStates u st } chatID u)
            chatID m)).tempUserData u = some [("chat_id", Itoa chatID)] ∧
        findEntry (records (runTicks cfg later (sendMessage (freshTemp
            { s with userStates := mapSet s.userStates u st } chatID u) chatID m)).disk) u
          = findEntry (records s.disk) u ∧
        getBalance (runTicks cfg later (sendMessage (freshTemp
            { s with userStates := mapSet s.userStates u st } chatID u) chatID m)).disk u
          = getBalance s.disk u := by
    intro st m
    have hf := freshTemp_entries { s with userStates := mapSet s.userStates u st } chatID u hnd
    refine ⟨hf.1, ?_, rfl, ?_⟩
    · rw [show mapGet (sendMessage (freshTemp { s with userStates := mapSet s.userStates u st }
          chatID u) chatID m).tempUserData u = some [("chat_id", Itoa chatID)] from hf.1]
      exact hne
    · intro later
      have hr := runTicks_skips cfg u later
        (sendMessage (freshTemp { s with userStates := mapSet s.userStates u st } chatID u)
          chatID m) hf.2
      refine ⟨hr.1.trans hf.1, hr.2, ?_⟩
      rw [getBalance_eq, getBalance_eq, hr.2]
      rfl
  intro start hmem
  simp only [List.mem_cons, List.mem_singleton, List.not_mem_nil, or_false] at hmem
  rcases hmem with rfl | rfl | rfl | rfl
  · exact key "create_password" .askPassword
  · exact key "trial_password" .askTrialPassword
  · exact key "renew_password" .askRenewPassword
  · exact key "topup_amount" .askTopup

/-- C27, at a concrete state: customer 7 has an open top-up of 5000 and presses the top-up
button again; the gateway then confirms every order, and the balance stays 300. -/
theorem C27_new_flow_discards_session_witness :
    getBalance (runTicks cfg1000 [happyWorld, happyWorld]
      (startTopup
        (botOf []
          [(7, [("chat_id", "7"), ("order_id", "ZIVPN-TOPUP-7-1700000000"), ("price", "5000"),
            ("action", "topup")])]
          [{ zeroEntry 7 with Balance := 300 }]) 7 7)).disk 7 = 300 :=
  ((C27_new_flow_discards_session cfg1000
    (botOf []
      [(7, [("chat_id", "7"), ("order_id", "ZIVPN-TOPUP-7-1700000000"), ("price", "5000"),
        ("action", "topup")])]
      [{ zeroEntry 7 with Balance := 300 }]) 7 7
    [("chat_id", "7"), ("order_id", "ZIVPN-TOPUP-7-1700000000"), ("price", "5000"),
      ("action", "topup")]
    "ZIVPN-TOPUP-7-1700000000" (by decide) (by decide) (by decide)
    startTopup (by simp)).2.2.2 [happyWorld, happyWorld]).2.2.trans (by decide)

/-- C28, refuted as stated. Customer 7 has balance 5000 and a pending purchase of 2 days for
`old`, and buys 3 days for `secret` at 1000 per day: the balance is 2000 and the slot still
holds `(old, 2)`. The wallet file then stops accepting writes. The tick that settles the
customer's next confirmed top-up, of 1000, finds the balance 2000 enough for the 2 days and
makes the create request for `old`, but the debit fails with the credit: the balance is
still 2000, where the claim has `2000 + 1000 - 2000`, and the slot is not emptied. And on a
store that still accepts writes, from a balance of `2^63 - 1` before the purchase, the
credit of a top-up of 5000 wraps around: no debit and no request are made. -/
theorem C28_second_debit_missed :
    ((handleState cfg1000 happyWorld
          (botOf [(7, "create_days")] [(7, createSession)]
            [{ zeroEntry 7 with Balance := 5000, PendingPassword := "old", PendingDays := 2 }])
          { fromID := 7, chatID := 7, text := "3" } "create_days").map
        (fun s1 =>
          (pendingOf s1.disk 7, getBalance s1.disk 7,
            getBalance (tick cfg1000 happyWorld
              { s1 with disk := { s1.disk with walletWritable := false },
                        tempUserData := [(7, topupSession "1000")] }).disk 7,
            (tick cfg1000 happyWorld
              { s1 with disk := { s1.disk with walletWritable := false },
                        tempUserData := [(7, topupSession "1000")] }).apiLog,
            pendingOf (tick cfg1000 happyWorld
              { s1 with disk := { s1.disk with walletWritable := false },
                        tempUserData := [(7, topupSession "1000")] }).disk 7))
        = some (("old", 2), 2000, 2000,
            [{ endpoint := "/user/create", password := "secret", days := 3 },
              { endpoint := "/user/create", password := "old", days := 2 }], ("old", 2))) ∧
    ((handleState cfg1000 happyWorld
          (botOf [(7, "create_days")] [(7, createSession)]
            [{ zeroEntry 7 with
                Balance := 9223372036854775807, PendingPassword := "old", PendingDays := 2 }])
          { fromID := 7, chatID := 7, text := "3" } "create_days").map
        (fun s1 =>
          (getBalance s1.disk 7,
            getBalance (tick cfg1000 happyWorld
              { s1 with tempUserData := [(7, topupSession "5000")] }).disk 7,
            (tick cfg1000 happyWorld
              { s1 with tempUserData := [(7, topupSession "5000")] }).apiLog))
        = some (9223372036854772807, -9223372036854773809,
            [{ endpoint := "/user/create", password := "secret", days := 3 }])) :=
  ⟨by decide, by decide⟩

/-- C28, amended. A purchase paid from balance does not touch the pending slot, on a wallet
store that loads and saves and as long as the amounts, the prices and the balances that the
claim names are within the range of a 64-bit `int`. When the customer holds a pending
purchase `(pw0, d0)` and buys `days` days that the balance `b` covers, the handler leaves
the balance at `b - days * DailyPrice` and the pending slot at `(pw0, d0)`. In any later
state with that disk, a tick over any registry in which the gateway confirms a top-up
session of the customer with amount `a` such that
`d0 * DailyPrice ≤ b - days * DailyPrice + a` debits `d0 * DailyPrice` as well, makes for
that session the create request for `(pw0, d0)`, and only then empties the slot. The tick is
the loop up to the entry of the customer (`tickUpTo`), the loop body on that entry, and the
loop over the rest. -/
theorem C28_purchase_keeps_pending_slot (cfg : BotConfig) (w : World) (s : Bot)
    (msg : Message) (days : Int) (data : List (String × String)) (pw0 : String) (d0 : Int)
    (hdays : Atoi (TrimSpace msg.text) = some days) (hlo : 1 ≤ days) (hhi : days ≤ 365)
    (htemp : mapGet s.tempUserData msg.fromID = some data)
    (hd : Healthy s.disk)
    (hreq : inInt64 (days * cfg.DailyPrice))
    (hdiff : inInt64 (getBalance s.disk msg.fromID - days * cfg.DailyPrice))
    (hbal : days * cfg.DailyPrice ≤ getBalance s.disk msg.fromID)
    (hpend : pendingOf s.disk msg.fromID = (pw0, d0)) (hpw0 : pw0 ≠ "") (hd0 : 1 ≤ d0) :
    ∃ s1, handleState cfg w s msg "create_days" = some s1 ∧
      pendingOf s1.disk msg.fromID = (pw0, d0) ∧
      getBalance s1.disk msg.fromID = getBalance s.disk msg.fromID - days * cfg.DailyPrice ∧
      ∀ (w2 : World) (s2 : Bot) (a : Int) (sess : List (String × String))
        (pre post : List (Int × List (String × String))),
        s2.disk = s1.disk → s2.tempUserData = pre ++ (msg.fromID, sess) :: post →
        (∀ kv ∈ pre ++ post, kv.1 ≠ msg.fromID) →
        sessionConfirmed w2 sess = true → strGet sess "action" = "topup" →
        Atoi (strGet sess "price") = some a → inInt64 a →
        inInt64 (getBalance s.disk msg.fromID - days * cfg.DailyPrice + a) →
        inInt64 (d0 * cfg.DailyPrice) →
        inInt64 (getBalance s.disk msg.fromID - days * cfg.DailyPrice + a
          - d0 * cfg.DailyPrice) →
        d0 * cfg.DailyPrice ≤ getBalance s.disk msg.fromID - days * cfg.DailyPrice + a →
        tick cfg w2 s2
            = tickUpTo cfg w2
                (checkSession cfg w2 (tickUpTo cfg w2 s2 pre) msg.fromID sess) post ∧
          getBalance (tick cfg w2 s2).disk msg.fromID
            = getBalance s.disk msg.fromID - days * cfg.DailyPrice + a
              - d0 * cfg.DailyPrice ∧
          (checkSession cfg w2 (tickUpTo cfg w2 s2 pre) msg.fromID sess).apiLog
            = (tickUpTo cfg w2 s2 pre).apiLog
              ++ [{ endpoint := "/user/create", password := pw0, days := d0 }] ∧
          pendingOf (tick cfg w2 s2).disk msg.fromID = ("", 0) := by
  have hmul : mulInt64 days cfg.DailyPrice = days * cfg.DailyPrice := mulInt64_exact _ _ hreq
  have hpaid := handleCreateDays_paid cfg w s msg days data hdays hlo hhi htemp hd
    (by rw [hmul]; exact hbal)
  rw [hmul] at hpaid
  have hd3 : Healthy (deductBalance s.disk msg.fromID (days * cfg.DailyPrice)).disk :=
    deductBalance_healthy hd _ _
  have heff := createUser_effect cfg w
    { s with
      tempUserData := mapSet s.tempUserData msg.fromID (mapSet data "days" (TrimSpace msg.text)),
      disk := (deductBalance s.disk msg.fromID (days * cfg.DailyPrice)).disk }
    msg.chatID msg.fromID (strGet data "password") days hd3
  have hp1 : pendingOf (closeSession (createUser cfg w
      { s with
        tempUserData :=
          mapSet s.tempUserData msg.fromID (mapSet data "days" (TrimSpace msg.text)),
        disk := (deductBalance s.disk msg.fromID (days * cfg.DailyPrice)).disk }
      msg.chatID msg.fromID (strGet data "password") days) msg.fromID).disk msg.fromID
      = (pw0, d0) := by
    rw [closeSession_disk, heff.2.2.1]
    exact (pendingOf_deductBalance hd _ _).trans hpend
  have hb1 : getBalance (closeSession (createUser cfg w
      { s with
        tempUserData :=
          mapSet s.tempUserData msg.fromID (mapSet data "days" (TrimSpace msg.text)),
        disk := (deductBalance s.disk msg.fromID (days * cfg.DailyPrice)).disk }
      msg.chatID msg.fromID (strGet data "password") days) msg.fromID).disk msg.fromID
      = getBalance s.disk msg.fromID - days * cfg.DailyPrice := by
    rw [closeSession_disk, heff.2.1]
    exact getBalance_deductBalance_exact hd _ _ (findEntry_of_pending hpend hpw0) hbal hdiff
  refine ⟨_, hpaid, hp1, hb1, ?_⟩
  intro w2 s2 a sess pre post hdisk hreg hkeys hconf haction hpr _ hsum hreq2 hdiff2 hfit
  have hd2 : Healthy s2.disk := by rw [hdisk, closeSession_disk]; exact heff.2.2.2
  have hp2 : pendingOf s2.disk msg.fromID = (pw0, d0) := by rw [hdisk]; exact hp1
  have hb2 : getBalance s2.disk msg.fromID
      = getBalance s.disk msg.fromID - days * cfg.DailyPrice := by rw [hdisk]; exact hb1
  have hst := tick_topup_effect cfg w2 s2 msg.fromID a sess pre post hreg hkeys hconf haction
    hpr hd2
  simp only [hp2, hb2, addInt64_exact _ _ hsum, mulInt64_exact _ _ hreq2] at hst
  obtain ⟨h1, h2, h3⟩ := hst.1 ⟨hpw0, by omega, hfit⟩
  refine ⟨tick_eq_around cfg w2 s2 msg.fromID sess pre post hreg, ?_, h3, h2⟩
  rw [h1, subInt64_exact _ _ hdiff2]
  exact max_eq_right (by omega)

/-- C28, at a concrete state: customer 7 has balance 5000 and a pending purchase of 2 days
for `old`, buys 3 days for `secret` at 1000 per day, then tops up 1000 and is settled in a
tick that settles the top-up of customer 8 first. The purchase leaves balance 2000 and the
slot as it was; the settlement of the top-up leaves balance 1000. -/
theorem C28_purchase_keeps_pending_slot_witness :
    ∃ s1, handleState cfg1000 happyWorld
        (botOf [(7, "create_days")] [(7, createSession)]
          [{ zeroEntry 7 with Balance := 5000, PendingPassword := "old", PendingDays := 2 }])
        { fromID := 7, chatID := 7, text := "3" } "create_days" = some s1 ∧
      pendingOf s1.disk 7 = ("old", 2) ∧ getBalance s1.disk 7 = 2000 ∧
      getBalance (tick cfg1000 happyWorld
        { s1 with tempUserData :=
            [(8, topupSession "7000"), (7, topupSession "1000")] }).disk 7 = 1000 ∧
      pendingOf (tick cfg1000 happyWorld
        { s1 with tempUserData :=
            [(8, topupSession "7000"), (7, topupSession "1000")] }).disk 7 = ("", 0) := by
  obtain ⟨s1, h1, h2, h3, h4⟩ := C28_purchase_keeps_pending_slot cfg1000 happyWorld
    (botOf [(7, "create_days")] [(7, createSession)]
      [{ zeroEntry 7 with Balance := 5000, PendingPassword := "old", PendingDays := 2 }])
    { fromID := 7, chatID := 7, text := "3" } 3 createSession
    "old" 2 (by decide) (by decide) (by decide) (by decide) (by decide) (by decide)
    (by decide) (by decide) (by decide) (by decide) (by decide)
  obtain ⟨_, k1, _, k3⟩ := h4 happyWorld
    { s1 with tempUserData := [(8, topupSession "7000"), (7, topupSession "1000")] }
    1000 (topupSession "1000") [(8, topupSession "7000")] [] rfl rfl (by decide) (by decide)
    (by decide) (by decide) (by decide) (by decide) (by decide) (by decide) (by decide)
  exact ⟨s1, h1, h2, h3.trans (by decide), k1.trans (by decide), k3⟩

end ZiVPN
